import Mathlib

/-!
Verification of the pngx PNG codec (TypeScript sources under `src/`).

The development shallowly embeds the codec's core functions:
bytes are natural numbers (`Buffer` writes truncate modulo 256),
JavaScript 32-bit ops are modelled on `Nat` with explicit masking, and
the deflate/inflate engine is an external collaborator passed in as a
parameter.  Definitions are translated from the TypeScript source files;
definitions whose name ends in `Spec` or `Argmin` restate the
specification's wording for comparison with the source embedding.
-/

namespace Pngx

/-- `paethPredictor` from `paeth-predictor.ts` (src/unnamed/part_001):
initial estimate `left + above - upLeft`, absolute differences, and the
three-way comparison returning `left`, `above` or `upLeft`. -/
def paethPredictor (left above upLeft : Int) : Int :=
  let paeth := left + above - upLeft
  let pLeft := (paeth - left).natAbs
  let pAbove := (paeth - above).natAbs
  let pUpLeft := (paeth - upLeft).natAbs
  if pLeft ≤ pAbove ∧ pLeft ≤ pUpLeft then left
  else if pAbove ≤ pUpLeft then above
  else upLeft

/-- Spec wording for the Paeth predictor: the element of `{a, b, c}`
minimizing `|a + b - c - x|`, ties broken in the order `a`, `b`, `c`. -/
def paethArgmin (a b c : Int) : Int :=
  let p := a + b - c
  let da := (p - a).natAbs
  let db := (p - b).natAbs
  let dc := (p - c).natAbs
  let m := min da (min db dc)
  if da = m then a else if db = m then b else c

/-! ## Adam7 interlace geometry (`interlace.ts`, src/unnamed/part_002) -/

/-- The seven Adam7 passes: the x and y offsets each pass covers inside an
8×8 block (`imagePasses` in `interlace.ts`). -/
def imagePasses : List (List ℕ × List ℕ) :=
  [([0], [0]),
   ([4], [0]),
   ([0, 4], [4]),
   ([2, 6], [0, 4]),
   ([0, 2, 4, 6], [2, 6]),
   ([1, 3, 5, 7], [0, 2, 4, 6]),
   ([0, 1, 2, 3, 4, 5, 6, 7], [1, 3, 5, 7])]

/-- The `for`-with-`break` loop of `getImagePasses`: one increment per
leading offset strictly below `leftOver`, stopping at the first offset that
is not. -/
def countWhileLt (offs : List ℕ) (leftOver : ℕ) : ℕ :=
  match offs with
  | [] => 0
  | o :: rest => if o < leftOver then countWhileLt rest leftOver + 1 else 0

/-- One entry of the `getImagePasses` result: pass width, height and index. -/
structure PassDim where
  width : ℕ
  height : ℕ
  index : ℕ
deriving Repr, DecidableEq

/-- `getImagePasses` from `interlace.ts`: per-pass dimensions, keeping only
passes with both dimensions positive. -/
def getImagePasses (width height : ℕ) : List PassDim :=
  let xLeftOver := width % 8
  let yLeftOver := height % 8
  let xRepeats := (width - xLeftOver) / 8
  let yRepeats := (height - yLeftOver) / 8
  (List.range imagePasses.length).filterMap fun i =>
    let pass := imagePasses.getD i ([], [])
    let passWidth := xRepeats * pass.1.length + countWhileLt pass.1 xLeftOver
    let passHeight := yRepeats * pass.2.length + countWhileLt pass.2 yLeftOver
    if 0 < passWidth ∧ 0 < passHeight then
      some ⟨passWidth, passHeight, i⟩
    else none

/-- The per-axis coordinate computation of `getInterlaceIterator`: for a
pass-local coordinate `x`, the absolute coordinate
`((x - x % len) / len) * 8 + offs[x % len]`. -/
def interlaceOuter (offs : List ℕ) (x : ℕ) : ℕ :=
  let leftOver := x % offs.length
  ((x - leftOver) / offs.length) * 8 + offs.getD leftOver 0

/-- `getInterlaceIterator` from `interlace.ts`: maps pass-local `(x, y)` of
pass `pass` to the RGBA byte index `outerX * 4 + outerY * width * 4`. -/
def getInterlaceIterator (width x y pass : ℕ) : ℕ :=
  let currentPass := imagePasses.getD pass ([], [])
  interlaceOuter currentPass.1 x * 4 + interlaceOuter currentPass.2 y * width * 4

/-- Spec wording for a pass dimension: `floor(size/8)·|offs|` plus one per
offset whose value is below `size mod 8`. -/
def passDimSpec (offs : List ℕ) (size : ℕ) : ℕ :=
  size / 8 * offs.length + offs.countP (· < size % 8)

/-! ## Scanline filter reversal (`filter-parse.ts`) -/

/-- `getByteWidth` from `filter-parse.ts`: `width * bpp`, rounded up to
whole bytes when the depth is not 8 (`Math.ceil(byteWidth / (8 / depth))`,
which equals `⌈width·bpp·depth / 8⌉`). -/
def getByteWidth (width bpp depth : ℕ) : ℕ :=
  if depth = 8 then width * bpp
  else (width * bpp * depth + 7) / 8

/-- `_xComparison` from the `Filter` constructor: the byte distance used
for left and up-left references. -/
def xComparison (bpp depth : ℕ) : ℕ :=
  if depth = 8 then bpp
  else if depth = 16 then bpp * 2
  else 1

/-- The `_images` list set up by the `Filter` constructor: byte width and
line count of each pass (one entry when not interlaced). -/
def filterImages (width height bpp depth : ℕ) (interlace : Bool) :
    List (ℕ × ℕ) :=
  if interlace then
    (getImagePasses width height).map fun pd =>
      (getByteWidth pd.width bpp depth, pd.height)
  else
    [(getByteWidth width bpp depth, height)]

/-- Left-to-right construction of an output buffer: position `x` is written
from the already-written prefix, as the `for` loops of `_unFilterType1..4`
do on a zero-initialised `Buffer`. -/
def buildLine (step : List ℕ → ℕ → ℕ) : ℕ → List ℕ
  | 0 => []
  | n + 1 => buildLine step n ++ [step (buildLine step n) n]

/-- Reading the previous unfiltered line (`this._lastLine`): absent lines
and out-of-range positions read as 0. -/
def prevAt (lastLine : Option (List ℕ)) (x : ℕ) : ℕ :=
  match lastLine with
  | some l => l.getD x 0
  | none => 0

/-- `_unFilterType1` (Sub): `out[x] = raw[1+x] + out[x - xcomp]`, the left
reference being 0 when `x` is not past `xcomp - 1`; Buffer writes truncate
modulo 256. -/
def unFilterType1 (xcomp : ℕ) (rawData : List ℕ) (byteWidth : ℕ) : List ℕ :=
  buildLine (fun out x =>
    let rawByte := rawData.getD (1 + x) 0
    let f1Left := if (x : Int) > (xcomp : Int) - 1 then out.getD (x - xcomp) 0 else 0
    (rawByte + f1Left) % 256) byteWidth

/-- `_unFilterType2` (Up): `out[x] = raw[1+x] + lastLine[x]`. -/
def unFilterType2 (lastLine : Option (List ℕ)) (rawData : List ℕ)
    (byteWidth : ℕ) : List ℕ :=
  buildLine (fun _ x =>
    let rawByte := rawData.getD (1 + x) 0
    (rawByte + prevAt lastLine x) % 256) byteWidth

/-- `_unFilterType3` (Average): `out[x] = raw[1+x] + ⌊(left + up) / 2⌋`. -/
def unFilterType3 (xcomp : ℕ) (lastLine : Option (List ℕ))
    (rawData : List ℕ) (byteWidth : ℕ) : List ℕ :=
  buildLine (fun out x =>
    let rawByte := rawData.getD (1 + x) 0
    let f3Up := prevAt lastLine x
    let f3Left := if (x : Int) > (xcomp : Int) - 1 then out.getD (x - xcomp) 0 else 0
    let f3Add := (f3Left + f3Up) / 2
    (rawByte + f3Add) % 256) byteWidth

/-- `_unFilterType4` (Paeth): `out[x] = raw[1+x] + paeth(left, up, upLeft)`. -/
def unFilterType4 (xcomp : ℕ) (lastLine : Option (List ℕ))
    (rawData : List ℕ) (byteWidth : ℕ) : List ℕ :=
  buildLine (fun out x =>
    let rawByte := rawData.getD (1 + x) 0
    let f4Up := prevAt lastLine x
    let f4Left := if (x : Int) > (xcomp : Int) - 1 then out.getD (x - xcomp) 0 else 0
    let f4UpLeft := if (x : Int) > (xcomp : Int) - 1 ∧ lastLine.isSome then
        prevAt lastLine (x - xcomp) else 0
    let f4Add := (paethPredictor f4Left f4Up f4UpLeft).toNat
    (rawByte + f4Add) % 256) byteWidth

/-- `_reverseFilterLine` from `filter-parse.ts`: dispatch on the filter
byte `rawData[0]`; an unknown filter byte throws. -/
def reverseFilterLine (xcomp : ℕ) (lastLine : Option (List ℕ))
    (byteWidth : ℕ) (rawData : List ℕ) : Except String (List ℕ) :=
  let filter := rawData.getD 0 0
  if filter = 0 then .ok ((rawData.drop 1).take byteWidth)
  else if filter = 1 then .ok (unFilterType1 xcomp rawData byteWidth)
  else if filter = 2 then .ok (unFilterType2 lastLine rawData byteWidth)
  else if filter = 3 then .ok (unFilterType3 xcomp lastLine rawData byteWidth)
  else if filter = 4 then .ok (unFilterType4 xcomp lastLine rawData byteWidth)
  else .error ("Unrecognized filter type - " ++ toString filter)

/-- The line loop of the `Filter` for one pass: each line consumes
`byteWidth + 1` bytes (filter byte then data); the unfiltered line becomes
`lastLine` for the next line of the same pass.  A shortfall of input leaves
a pending read on the finished stream. -/
def runLines (xcomp bw : ℕ) :
    ℕ → Option (List ℕ) → List ℕ → Except String (List (List ℕ) × List ℕ)
  | 0, _, input => .ok ([], input)
  | h + 1, lastLine, input =>
    if input.length < bw + 1 then
      .error "There are some read requests waiting on finished stream"
    else
      match reverseFilterLine xcomp lastLine bw (input.take (bw + 1)) with
      | .error e => .error e
      | .ok line =>
        match runLines xcomp bw h (some line) (input.drop (bw + 1)) with
        | .error e => .error e
        | .ok (rest, remaining) => .ok (line :: rest, remaining)

/-- The pass loop of the `Filter`: `_lastLine` is set to `null` when a pass
ends, so every pass starts with no previous line. -/
def filterRun (xcomp : ℕ) :
    List (ℕ × ℕ) → List ℕ → Except String (List (List ℕ) × List ℕ)
  | [], input => .ok ([], input)
  | (bw, h) :: rest, input =>
    match runLines xcomp bw h none input with
    | .error e => .error e
    | .ok (lines, rem) =>
      match filterRun xcomp rest rem with
      | .error e => .error e
      | .ok (lines2, rem2) => .ok (lines ++ lines2, rem2)

/-- `FilterSync.process` (`filter-parse-sync.ts`): runs the filter over the
whole inflated stream through a `SyncReader`; input left over after the
last pass is an error, the unfiltered lines are concatenated. -/
def processFilterSync (input : List ℕ) (width height bpp depth : ℕ)
    (interlace : Bool) : Except String (List ℕ) :=
  match filterRun (xComparison bpp depth)
      (filterImages width height bpp depth interlace) input with
  | .error e => .error e
  | .ok (lines, rem) =>
    if rem = [] then .ok lines.flatten
    else .error "Unrecognized content at end of stream"

/-! ## Forward filters and adaptive selection (`filter-pack.ts`) -/

/-- A JavaScript `Buffer` write: coerce to an unsigned byte. -/
def byteVal (v : Int) : ℕ := (v.emod 256).toNat

/-- `filterNone`: copies the scanline bytes unchanged. -/
def filterNoneRow (pxData : List ℕ) (pxPos byteWidth : ℕ) : List ℕ :=
  (List.range byteWidth).map fun x => pxData.getD (pxPos + x) 0 % 256

/-- `filterSumNone`: sum of `Math.abs` over the scanline bytes. -/
def filterSumNone (pxData : List ℕ) (pxPos byteWidth : ℕ) : Int :=
  ((List.range byteWidth).map fun i =>
    |(pxData.getD (pxPos + i) 0 : Int)|).sum

/-- The signed value computed by `filterSub` before the `Buffer` write. -/
def filterSubVal (pxData : List ℕ) (pxPos bpp x : ℕ) : Int :=
  let left : Int := if bpp ≤ x then (pxData.getD (pxPos + x - bpp) 0 : Int) else 0
  (pxData.getD (pxPos + x) 0 : Int) - left

/-- `filterSub`: the written bytes. -/
def filterSubRow (pxData : List ℕ) (pxPos byteWidth bpp : ℕ) : List ℕ :=
  (List.range byteWidth).map fun x => byteVal (filterSubVal pxData pxPos bpp x)

/-- `filterSumSub`: sum of `Math.abs` of the untruncated differences. -/
def filterSumSub (pxData : List ℕ) (pxPos byteWidth bpp : ℕ) : Int :=
  ((List.range byteWidth).map fun x => |filterSubVal pxData pxPos bpp x|).sum

/-- The signed value computed by `filterUp` before the `Buffer` write. -/
def filterUpVal (pxData : List ℕ) (pxPos byteWidth x : ℕ) : Int :=
  let up : Int := if 0 < pxPos then (pxData.getD (pxPos + x - byteWidth) 0 : Int)
    else 0
  (pxData.getD (pxPos + x) 0 : Int) - up

/-- `filterUp`: the written bytes. -/
def filterUpRow (pxData : List ℕ) (pxPos byteWidth : ℕ) : List ℕ :=
  (List.range byteWidth).map fun x => byteVal (filterUpVal pxData pxPos byteWidth x)

/-- `filterSumUp`. -/
def filterSumUp (pxData : List ℕ) (pxPos byteWidth : ℕ) : Int :=
  ((List.range byteWidth).map fun x =>
    |filterUpVal pxData pxPos byteWidth x|).sum

/-- The signed value computed by `filterAvg` before the `Buffer` write
(`(left + up) >> 1` floors the nonnegative byte sum). -/
def filterAvgVal (pxData : List ℕ) (pxPos byteWidth bpp x : ℕ) : Int :=
  let left := if bpp ≤ x then pxData.getD (pxPos + x - bpp) 0 else 0
  let up := if 0 < pxPos then pxData.getD (pxPos + x - byteWidth) 0 else 0
  (pxData.getD (pxPos + x) 0 : Int) - ((left + up) / 2 : ℕ)

/-- `filterAvg`: the written bytes. -/
def filterAvgRow (pxData : List ℕ) (pxPos byteWidth bpp : ℕ) : List ℕ :=
  (List.range byteWidth).map fun x =>
    byteVal (filterAvgVal pxData pxPos byteWidth bpp x)

/-- `filterSumAvg`. -/
def filterSumAvg (pxData : List ℕ) (pxPos byteWidth bpp : ℕ) : Int :=
  ((List.range byteWidth).map fun x =>
    |filterAvgVal pxData pxPos byteWidth bpp x|).sum

/-- The signed value computed by `filterPaeth` before the `Buffer` write. -/
def filterPaethVal (pxData : List ℕ) (pxPos byteWidth bpp x : ℕ) : Int :=
  let left : Int := if bpp ≤ x then (pxData.getD (pxPos + x - bpp) 0 : Int) else 0
  let up : Int := if 0 < pxPos then (pxData.getD (pxPos + x - byteWidth) 0 : Int)
    else 0
  let upleft : Int := if 0 < pxPos ∧ bpp ≤ x then
    (pxData.getD (pxPos + x - (byteWidth + bpp)) 0 : Int) else 0
  (pxData.getD (pxPos + x) 0 : Int) - paethPredictor left up upleft

/-- `filterPaeth`: the written bytes. -/
def filterPaethRow (pxData : List ℕ) (pxPos byteWidth bpp : ℕ) : List ℕ :=
  (List.range byteWidth).map fun x =>
    byteVal (filterPaethVal pxData pxPos byteWidth bpp x)

/-- `filterSumPaeth`. -/
def filterSumPaeth (pxData : List ℕ) (pxPos byteWidth bpp : ℕ) : Int :=
  ((List.range byteWidth).map fun x =>
    |filterPaethVal pxData pxPos byteWidth bpp x|).sum

/-- The `filters` table keyed by filter type (missing key means the
JavaScript lookup would fail). -/
def filterRowAt (ft : Int) (pxData : List ℕ) (pxPos byteWidth bpp : ℕ) :
    Option (List ℕ) :=
  if ft = 0 then some (filterNoneRow pxData pxPos byteWidth)
  else if ft = 1 then some (filterSubRow pxData pxPos byteWidth bpp)
  else if ft = 2 then some (filterUpRow pxData pxPos byteWidth)
  else if ft = 3 then some (filterAvgRow pxData pxPos byteWidth bpp)
  else if ft = 4 then some (filterPaethRow pxData pxPos byteWidth bpp)
  else none

/-- The `filterSums` table keyed by filter type. -/
def filterSumAt (ft : Int) (pxData : List ℕ) (pxPos byteWidth bpp : ℕ) :
    Option Int :=
  if ft = 0 then some (filterSumNone pxData pxPos byteWidth)
  else if ft = 1 then some (filterSumSub pxData pxPos byteWidth bpp)
  else if ft = 2 then some (filterSumUp pxData pxPos byteWidth)
  else if ft = 3 then some (filterSumAvg pxData pxPos byteWidth bpp)
  else if ft = 4 then some (filterSumPaeth pxData pxPos byteWidth bpp)
  else none

/-- The per-line selection loop of `packFilter`: scan the candidate filter
types keeping the first one whose sum is strictly below the running
minimum (`min` starts at `Infinity`, modelled by `none`). -/
def selectMinFilter (pxData : List ℕ) (pxPos byteWidth bpp : ℕ)
    (fts : List Int) (sel₀ : Int) : Except String Int := do
  let p ← fts.foldlM (fun (acc : Int × Option Int) ft =>
    match filterSumAt ft pxData pxPos byteWidth bpp with
    | none => Except.error "Unrecognized filter types"
    | some s =>
      match acc.2 with
      | none => pure (ft, some s)
      | some m => if s < m then pure (ft, some s) else pure acc)
    ((sel₀, none) : Int × Option Int)
  pure p.1

/-- One output row of `packFilter`: the selected filter-type byte followed
by the filtered bytes. -/
def packFilterRow (pxData : List ℕ) (byteWidth bpp : ℕ) (fts : List Int)
    (y : ℕ) : Except String (List ℕ) := do
  let pxPos := y * byteWidth
  let sel ← if fts.length > 1 then
      selectMinFilter pxData pxPos byteWidth bpp fts (fts.headD 0)
    else pure (fts.headD 0)
  match filterRowAt sel pxData pxPos byteWidth bpp with
  | none => Except.error "Unrecognized filter types"
  | some row => pure (byteVal sel :: row)

/-- The filter-type resolution at the top of `packFilter`: absent or −1
selects all five filters, a number a single filter, an array is used as
given. -/
def resolveFilterTypes (filterTypeOpt : Option (Int ⊕ List Int)) : List Int :=
  match filterTypeOpt with
  | none => [0, 1, 2, 3, 4]
  | some (.inl n) => if n = -1 then [0, 1, 2, 3, 4] else [n]
  | some (.inr l) => l

/-- `packFilter` from `filter-pack.ts`: filter-type resolution, bpp
doubling at bit depth 16, and the row loop producing
`(byteWidth + 1) · height` bytes. -/
def packFilter (pxData : List ℕ) (width height : ℕ)
    (filterTypeOpt : Option (Int ⊕ List Int)) (bitDepth : ℕ) (bpp₀ : ℕ) :
    Except String (List ℕ) :=
  let fts := resolveFilterTypes filterTypeOpt
  let bpp := if bitDepth = 16 then bpp₀ * 2 else bpp₀
  let byteWidth := width * bpp
  match (List.range height).mapM (packFilterRow pxData byteWidth bpp fts) with
  | .error e => .error e
  | .ok rows => .ok rows.flatten

/-- Spec wording for C5: the absolute value of a byte reinterpreted as a
signed (two's complement) byte. -/
def signedByteAbs (b : ℕ) : ℕ := if b < 128 then b else 256 - b

/-- Spec wording for C5: the per-row selection metric, the sum of
`|signed byte|` over the filtered output bytes of filter `ft`. -/
def specSignedSum (ft : Int) (pxData : List ℕ) (pxPos byteWidth bpp : ℕ) :
    Option ℕ :=
  (filterRowAt ft pxData pxPos byteWidth bpp).map fun row =>
    (row.map signedByteAbs).sum

/-- Spec wording for the reverse-filter formulas (§4.5): byte-wise modulo
256 with byte distance `D`, out-of-range left/up/up-left references 0, and
`prev` the previous unfiltered line. -/
def specUnfiltered (ft D : ℕ) (prev raw : ℕ → ℕ) (x : ℕ) : ℕ :=
  let left := if h : 0 < D ∧ D ≤ x then specUnfiltered ft D prev raw (x - D) else 0
  let upLeft := if 0 < D ∧ D ≤ x then prev (x - D) else 0
  if ft = 0 then raw x % 256
  else if ft = 1 then (raw x + left) % 256
  else if ft = 2 then (raw x + prev x) % 256
  else if ft = 3 then (raw x + (left + prev x) / 2) % 256
  else if ft = 4 then (raw x + (paethPredictor left (prev x) upLeft).toNat) % 256
  else 0
termination_by x
decreasing_by omega

/-- How many times the Adam7 passes of a `width × height` image write the
RGBA byte index of pixel `(px, py)`: passes come from `getImagePasses`,
placement from `getInterlaceIterator`. -/
def coverCount (width height px py : ℕ) : ℕ :=
  ((getImagePasses width height).map fun pd =>
    ((List.range pd.width).map fun x =>
      (List.range pd.height).countP fun y =>
        getInterlaceIterator width x y pd.index = (py * width + px) * 4).sum).sum

/-! ## CRC-32 (`crc.ts`) -/

/-- One round of the CRC table construction: shift right, conditionally
xor with the reflected polynomial `0xEDB88320`.  JavaScript's signed ints
are modelled as their unsigned 32-bit patterns. -/
def crcStep (c : ℕ) : ℕ :=
  if c % 2 = 1 then 0xEDB88320 ^^^ (c / 2) else c / 2

/-- `CRC_TABLE[i]`: eight `crcStep` rounds starting from `i`. -/
def crcTableEntry (i : ℕ) : ℕ :=
  crcStep (crcStep (crcStep (crcStep (crcStep (crcStep (crcStep (crcStep i)))))))

/-- One byte of `CrcCalculator.write`:
`CRC_TABLE[(crc ^ byte) & 0xFF] ^ (crc >>> 8)`. -/
def crcUpdate (crc b : ℕ) : ℕ :=
  crcTableEntry ((crc ^^^ b) &&& 0xFF) ^^^ (crc >>> 8)

/-- `CrcCalculator.write` over a byte list. -/
def crcWrite (crc : ℕ) (data : List ℕ) : ℕ :=
  data.foldl crcUpdate crc

/-- `CrcCalculator.crc32()`: final xor with all-ones (`^ -1` on int32). -/
def crcFinish (crc : ℕ) : ℕ := crc ^^^ 0xFFFFFFFF

/-- The static one-shot `CrcCalculator.crc32(buf)`: initial value −1
(pattern `0xFFFFFFFF`), update per byte, final xor. -/
def crc32 (data : List ℕ) : ℕ := crcFinish (crcWrite 0xFFFFFFFF data)

/-! ## Byte-stream primitives (`Buffer` reads and writes) -/

/-- `writeUInt32BE`: the four big-endian bytes of a 32-bit value. -/
def toBytes32 (n : ℕ) : List ℕ :=
  [n / 2 ^ 24 % 256, n / 2 ^ 16 % 256, n / 2 ^ 8 % 256, n % 256]

/-- `readUInt32BE` at an offset (out-of-range bytes read as 0). -/
def readUInt32BE (l : List ℕ) (off : ℕ) : ℕ :=
  l.getD off 0 * 2 ^ 24 + l.getD (off + 1) 0 * 2 ^ 16 +
    l.getD (off + 2) 0 * 2 ^ 8 + l.getD (off + 3) 0

/-- `readUInt16BE` at an offset. -/
def readUInt16BE (l : List ℕ) (off : ℕ) : ℕ :=
  l.getD off 0 * 2 ^ 8 + l.getD (off + 1) 0

/-! ## Constants (`constants.ts`) -/

def PNG_SIGNATURE : List ℕ := [0x89, 0x50, 0x4E, 0x47, 0x0D, 0x0A, 0x1A, 0x0A]

def TYPE_IHDR : ℕ := 0x49484452
def TYPE_IEND : ℕ := 0x49454E44
def TYPE_IDAT : ℕ := 0x49444154
def TYPE_PLTE : ℕ := 0x504C5445
def TYPE_tRNS : ℕ := 0x74524E53
def TYPE_gAMA : ℕ := 0x67414D41

/-- `COLORTYPE_TO_BPP_MAP`: channels per pixel for each color type; a
missing key is `none` (the `colorType in COLORTYPE_TO_BPP_MAP` check). -/
def bppOf (colorType : ℕ) : Option ℕ :=
  if colorType = 0 then some 1
  else if colorType = 2 then some 3
  else if colorType = 3 then some 1
  else if colorType = 4 then some 2
  else if colorType = 6 then some 4
  else none

/-! ## Chunk parser (`parser.ts`, embedded in src/src/packer-sync.ts) -/

/-- The metadata record emitted after a valid IHDR. -/
structure MetaData where
  width : ℕ
  height : ℕ
  depth : ℕ
  interlace : Bool
  palette : Bool
  color : Bool
  alpha : Bool
  bpp : ℕ
  colorType : ℕ
deriving Repr, DecidableEq

/-- The mutable state of the `Parser` plus the fields the `parseSync`
callbacks accumulate. -/
structure PState where
  checkCRC : Bool
  hasIHDR : Bool := false
  colorType : ℕ := 0
  palette : List (List ℕ) := []
  paletteSet : Bool := false
  metaData : Option MetaData := none
  gamma : Option ℚ := none
  transColor : Option (List ℕ) := none
  inflateData : List ℕ := []
  simpleTransp : Bool := false
deriving Repr, DecidableEq

/-- A chunk type byte must be an ASCII letter
(`< 65 || > 122 || (> 90 && < 97)` rejects). -/
def validTypeBytes (bytes : List ℕ) : Bool :=
  bytes.all fun b => 65 ≤ b ∧ b ≤ 122 ∧ ¬(90 < b ∧ b < 97)

/-- After an `error(...)` callback the `SyncReader.process` loop exits;
with unconsumed bytes it throws its own leftover-content error, otherwise
`parseSync` rethrows the recorded one. -/
def parseErrMsg (msg : String) (rest : List ℕ) : String :=
  if rest.isEmpty then msg else "Unrecognized content at end of stream"

/-- `Parser._parseIHDR` (without the CRC step, handled by the loop). -/
def parseIHDR (st : PState) (data : List ℕ) : Except String PState :=
  let width := readUInt32BE data 0
  let height := readUInt32BE data 4
  let depth := data.getD 8 0
  let colorType := data.getD 9 0
  let compr := data.getD 10 0
  let filter := data.getD 11 0
  let interlace := data.getD 12 0
  if ¬(depth = 1 ∨ depth = 2 ∨ depth = 4 ∨ depth = 8 ∨ depth = 16) then
    .error ("Unsupported bit depth " ++ toString depth)
  else if (bppOf colorType).isNone then .error "Unsupported color type"
  else if compr ≠ 0 then .error "Unsupported compression method"
  else if filter ≠ 0 then .error "Unsupported filter method"
  else if interlace ≠ 0 ∧ interlace ≠ 1 then
    .error "Unsupported interlace method"
  else .ok { st with
    colorType := colorType
    hasIHDR := true
    metaData := some {
      width := width
      height := height
      depth := depth
      interlace := interlace ≠ 0
      palette := colorType &&& 1 ≠ 0
      color := colorType &&& 2 ≠ 0
      alpha := colorType &&& 4 ≠ 0
      bpp := (bppOf colorType).getD 0
      colorType := colorType } }

/-- `Parser._parsePLTE`: `floor(len/3)` entries of `[r, g, b, 0xFF]`
appended to the palette. -/
def parsePLTE (st : PState) (data : List ℕ) : PState :=
  let entries := data.length / 3
  { st with
    palette := st.palette ++ (List.range entries).map fun i =>
      [data.getD (i * 3) 0, data.getD (i * 3 + 1) 0, data.getD (i * 3 + 2) 0,
        0xFF]
    paletteSet := true }

/-- `Parser._parseTRNS`. -/
def parseTRNS (st : PState) (data : List ℕ) : Except String PState :=
  if st.colorType = 3 then
    if st.palette.length = 0 then
      .error "Transparency chunk must be after palette"
    else if data.length > st.palette.length then
      .error "More transparent colors than palette size"
    else .ok { st with
      palette := st.palette.mapIdx fun i p =>
        if i < data.length then p.set 3 (data.getD i 0) else p
      paletteSet := true }
  else if st.colorType = 0 then
    .ok { st with transColor := some [readUInt16BE data 0] }
  else if st.colorType = 2 then
    let tc := [readUInt16BE data 0, readUInt16BE data 2, readUInt16BE data 4]
    .ok { st with transColor := some tc }
  else .ok st

/-- `Parser._parseGAMA`: stored value divided by `GAMMA_DIVISION`. -/
def parseGAMA (st : PState) (data : List ℕ) : PState :=
  { st with gamma := some ((readUInt32BE data 0 : ℚ) / 100000) }

/-- The three ways one iteration of the chunk loop can end: an error, a
successful end of parsing (IEND), or a move to the next chunk. -/
inductive ChunkOutcome where
  | err (e : String)
  | done (st : PState)
  | next (st : PState) (len : ℕ)
deriving Repr, DecidableEq

/-- One iteration of the chunk loop of the `Parser` driven by a
`SyncReader` holding the whole remaining stream: header, per-type handler,
CRC check, then on to the rest of the stream.  Unknown ancillary chunks
are skipped (body and CRC consumed, no check). -/
def parseChunkOnce (st : PState) (input : List ℕ) : ChunkOutcome :=
  if input.length < 8 then
    .err "There are some read requests waiting on finished stream"
  else
    let length := readUInt32BE input 0
    let type := readUInt32BE input 4
    let nameBytes := (input.drop 4).take 4
    if ¬validTypeBytes nameBytes then
      .err (parseErrMsg "Invalid chunk type" (input.drop 8))
    else if ¬st.hasIHDR ∧ type ≠ TYPE_IHDR then
      .err (parseErrMsg "Expected IHDR to be first chunk" (input.drop 8))
    else if type = TYPE_IHDR ∨ type = TYPE_IEND ∨ type = TYPE_IDAT ∨
        type = TYPE_PLTE ∨ type = TYPE_tRNS ∨ type = TYPE_gAMA then
      -- known chunk: read `length` bytes (IDAT reads allowLess, but a
      -- shortfall leaves a pending read either way)
      if input.length < 8 + length then
        .err "There are some read requests waiting on finished stream"
      else
        let body := (input.drop 8).take length
        -- `_handleTRNS` fires `simpleTransparency()` before reading
        let st₀ := if type = TYPE_tRNS then { st with simpleTransp := true }
          else st
        let handled : Except String PState :=
          if type = TYPE_IHDR then parseIHDR st₀ body
          else if type = TYPE_PLTE then .ok (parsePLTE st₀ body)
          else if type = TYPE_tRNS then parseTRNS st₀ body
          else if type = TYPE_gAMA then .ok (parseGAMA st₀ body)
          else if type = TYPE_IDAT then
            if st₀.colorType = 3 ∧ st₀.palette.length = 0 then
              .error "Expected palette not found"
            else .ok { st₀ with inflateData := st₀.inflateData ++ body }
          else .ok st₀ -- IEND: only marks the end below
        match handled with
        | .error e =>
          if type = TYPE_IDAT ∧ st₀.colorType = 3 ∧ st₀.palette.length = 0 then
            .err e -- a raw `throw`, not the error callback
          else .err (parseErrMsg e (input.drop (8 + length)))
        | .ok st₁ =>
          if (input.drop (8 + length)).length < 4 then
            .err "There are some read requests waiting on finished stream"
          else
            let fileCrc := readUInt32BE (input.drop (8 + length)) 0
            let calcCrc := crc32 (nameBytes ++ body)
            if st₁.checkCRC ∧ calcCrc ≠ fileCrc then
              .err (parseErrMsg
                ("Crc error - " ++ toString fileCrc ++ " - " ++ toString calcCrc)
                (input.drop (8 + length + 4)))
            else if type = TYPE_IEND then
              if input.drop (8 + length + 4) = [] then .done st₁
              else .err "Unrecognized content at end of stream"
            else
              .next st₁ length
    else if input.getD 4 0 &&& 0x20 = 0 then
      .err (parseErrMsg ("Unsupported critical chunk type " ++ toString type)
        (input.drop 8))
    else
      -- ancillary skip: body and stored CRC consumed, no CRC verification
      if (input.drop 8).length < length + 4 then
        .err "There are some read requests waiting on finished stream"
      else
        .next st length

/-- One iteration as the chunk loop consumes it: a `next` outcome carries
the chunk body length, and the loop carries on after the 12 framing bytes
plus body. -/
def parseChunkStep (recur : PState → List ℕ → Except String PState)
    (st : PState) (input : List ℕ) : Except String PState :=
  match parseChunkOnce st input with
  | .err e => .error e
  | .done st₁ => .ok st₁
  | .next st₁ len => recur st₁ (input.drop (8 + len + 4))

/-- The chunk loop unrolled on a fuel counter; each iteration consumes at
least 12 input bytes, so `input.length` fuel always suffices (when fuel
runs out the input is empty, matching the pending-read error of the
header read). -/
def parseChunkGo : ℕ → PState → List ℕ → Except String PState
  | 0, _, _ => .error "There are some read requests waiting on finished stream"
  | fuel + 1, st, input => parseChunkStep (parseChunkGo fuel) st input

/-- The chunk loop of the `Parser`. -/
def parseChunkLoop (st : PState) (input : List ℕ) : Except String PState :=
  parseChunkGo input.length st input

/-! ## Synchronous inflate wrapper (`sync-inflate.ts`)

The native zlib handle is an external collaborator; it is modelled as the
sequence of events the wrapper observes: output chunks filling the
`chunkSize` buffer, or an error. -/

/-- One observation from the zlib engine: a filled output chunk, or an
error event. -/
inductive InflEvent where
  | data (bytes : List ℕ)
  | fail (msg : String)
deriving Repr, DecidableEq

/-- `Inflate._processChunk`'s `handleChunk` loop over the engine events:
each output chunk is truncated to `maxLength` (`leftToInflate` is fixed at
`maxLength` in this code), the loop stops as soon as one truncated chunk
reaches `maxLength` bytes — errors the engine would signal later are then
never observed — and an error event before that point is thrown. -/
def processChunkModel (events : List InflEvent) (maxLength : ℕ)
    (acc : List ℕ) : Except String (List ℕ) :=
  match events with
  | [] => .ok acc
  | .fail msg :: _ => .error msg
  | .data c :: rest =>
    let out := if c.length > maxLength then c.take maxLength else c
    if maxLength - out.length = 0 then .ok (acc ++ out)
    else processChunkModel rest maxLength (acc ++ out)

/-- `inflateSync` with a `maxLength` option, as `parseSync` calls it. -/
def inflateSyncModel (events : List InflEvent) (maxLength : ℕ) :
    Except String (List ℕ) :=
  processChunkModel events maxLength []

/-- Node's plain `zlib.inflateSync` (used on the interlaced path): all
output, and any error event is thrown. -/
def zlibInflateSyncModel (events : List InflEvent) :
    Except String (List ℕ) :=
  match events with
  | [] => .ok []
  | .fail msg :: _ => .error msg
  | .data c :: rest =>
    match zlibInflateSyncModel rest with
    | .error e => .error e
    | .ok out => .ok (c ++ out)

/-! ## Bitmapper (`bitmapper.ts`) -/

/-- `pixelBppMapper[bpp]` for depth 8: bounds check then the RGBA write
(out-of-range `Buffer` writes are silently dropped, as `List.set` is). -/
def writePixel (bpp : ℕ) (pxData data : List ℕ) (pxPos rawPos : ℕ) :
    Except String (List ℕ) :=
  if bpp = 1 then
    if rawPos = data.length then .error "Ran out of data"
    else
      let pixel := data.getD rawPos 0
      .ok ((((pxData.set pxPos pixel).set (pxPos + 1) pixel).set
        (pxPos + 2) pixel).set (pxPos + 3) 0xFF)
  else if bpp = 2 then
    if rawPos + 1 ≥ data.length then .error "Ran out of data"
    else
      let pixel := data.getD rawPos 0
      .ok ((((pxData.set pxPos pixel).set (pxPos + 1) pixel).set
        (pxPos + 2) pixel).set (pxPos + 3) (data.getD (rawPos + 1) 0))
  else if bpp = 3 then
    if rawPos + 2 ≥ data.length then .error "Ran out of data"
    else
      .ok ((((pxData.set pxPos (data.getD rawPos 0)).set
        (pxPos + 1) (data.getD (rawPos + 1) 0)).set
        (pxPos + 2) (data.getD (rawPos + 2) 0)).set (pxPos + 3) 0xFF)
  else if bpp = 4 then
    if rawPos + 3 ≥ data.length then .error "Ran out of data"
    else
      .ok ((((pxData.set pxPos (data.getD rawPos 0)).set
        (pxPos + 1) (data.getD (rawPos + 1) 0)).set
        (pxPos + 2) (data.getD (rawPos + 2) 0)).set
        (pxPos + 3) (data.getD (rawPos + 3) 0))
  else .ok pxData

/-- `mapImage8Bit` over one pass; the state is the RGBA plane, `rawPos`,
and the non-interlaced position counter (which advances 4 per pixel). -/
def mapImage8BitPass (bpp : ℕ) (data : List ℕ) (pos : ℕ → ℕ → ℕ → ℕ)
    (w h : ℕ) (st : List ℕ × ℕ × ℕ) : Except String (List ℕ × ℕ × ℕ) :=
  (List.range h).foldlM (fun st y =>
    (List.range w).foldlM (fun st x =>
      match writePixel bpp st.1 data (pos x y st.2.2) st.2.1 with
      | .error e => .error e
      | .ok px => .ok (px, st.2.1 + bpp, st.2.2 + 4)) st) st

/-- `split()` of the bit retriever: consume one byte (two at depth 16) and
push its MSB-first samples. -/
def bitSplit (depth : ℕ) (data : List ℕ) (i : ℕ) :
    Except String (List ℕ × ℕ) :=
  if i = data.length then .error "Ran out of data"
  else
    let byte := data.getD i 0
    if depth = 16 then
      .ok ([byte * 256 + data.getD (i + 1) 0], i + 2)
    else if depth = 4 then
      .ok ([byte >>> 4, byte &&& 0x0F], i + 1)
    else if depth = 2 then
      .ok ([(byte >>> 6) &&& 3, (byte >>> 4) &&& 3, (byte >>> 2) &&& 3,
        byte &&& 3], i + 1)
    else if depth = 1 then
      .ok ([(byte >>> 7) &&& 1, (byte >>> 6) &&& 1, (byte >>> 5) &&& 1,
        (byte >>> 4) &&& 1, (byte >>> 3) &&& 1, (byte >>> 2) &&& 1,
        (byte >>> 1) &&& 1, byte &&& 1], i + 1)
    else .error "Unrecognized depth"

/-- `get(count)` of the bit retriever: split until `count` samples are
buffered, return them and keep the remainder. -/
def bitGet (depth : ℕ) (data : List ℕ) (count : ℕ) (st : List ℕ × ℕ) :
    Except String (List ℕ × (List ℕ × ℕ)) :=
  if h : st.1.length < count then
    match hsp : bitSplit depth data st.2 with
    | .error e => .error e
    | .ok (items, i') => bitGet depth data count (st.1 ++ items, i')
  else
    .ok (st.1.take count, (st.1.drop count, st.2))
termination_by count - st.1.length
decreasing_by
  simp only [bitSplit] at hsp
  split_ifs at hsp <;> cases hsp <;> simp [List.length_append] <;> omega

/-- `pixelBppCustomMapper[bpp]`: the RGBA write from already-extracted
samples (no bounds checks in the source). -/
def writePixelCustom (bpp : ℕ) (pxData pixelData : List ℕ)
    (pxPos maxBit : ℕ) : List ℕ :=
  if bpp = 1 then
    let pixel := pixelData.getD 0 0
    (((pxData.set pxPos pixel).set (pxPos + 1) pixel).set
      (pxPos + 2) pixel).set (pxPos + 3) maxBit
  else if bpp = 2 then
    let pixel := pixelData.getD 0 0
    (((pxData.set pxPos pixel).set (pxPos + 1) pixel).set
      (pxPos + 2) pixel).set (pxPos + 3) (pixelData.getD 1 0)
  else if bpp = 3 then
    (((pxData.set pxPos (pixelData.getD 0 0)).set
      (pxPos + 1) (pixelData.getD 1 0)).set
      (pxPos + 2) (pixelData.getD 2 0)).set (pxPos + 3) maxBit
  else if bpp = 4 then
    (((pxData.set pxPos (pixelData.getD 0 0)).set
      (pxPos + 1) (pixelData.getD 1 0)).set
      (pxPos + 2) (pixelData.getD 2 0)).set (pxPos + 3) (pixelData.getD 3 0)
  else pxData

/-- `mapImageCustomBit` over one pass; the bit buffer is reset after each
line (`resetAfterLine`). -/
def mapImageCustomPass (bpp depth maxBit : ℕ) (data : List ℕ)
    (pos : ℕ → ℕ → ℕ → ℕ) (w h : ℕ) (st : List ℕ × ℕ × (List ℕ × ℕ)) :
    Except String (List ℕ × ℕ × (List ℕ × ℕ)) :=
  (List.range h).foldlM (fun st y =>
    match (List.range w).foldlM (fun (st : List ℕ × ℕ × (List ℕ × ℕ)) x =>
        match bitGet depth data bpp st.2.2 with
        | .error e => (Except.error e : Except String (List ℕ × ℕ × (List ℕ × ℕ)))
        | .ok (pixelData, bits') =>
          Except.ok (writePixelCustom bpp st.1 pixelData (pos x y st.2.1) maxBit,
            st.2.1 + 4, bits')) st with
    | .error e => Except.error e
    | .ok st' => Except.ok (st'.1, st'.2.1, ([], st'.2.2.2))) st

/-- `dataToBitMap` from `bitmapper.ts`: depth-8 copies bytes, other depths
go through the bit retriever; leftover input is an error.  The RGBA plane
(`Buffer` at depth ≤ 8, `Uint16Array` at depth 16) is a sample list of
length `width·height·4`. -/
def dataToBitMap (data : List ℕ) (width height depth bpp : ℕ)
    (interlace : Bool) : Except String (List ℕ) :=
  let pxData := List.replicate (width * height * 4) 0
  let images := if interlace then
      (getImagePasses width height).map fun pd => (pd.width, pd.height, pd.index)
    else [(width, height, 0)]
  let pos : ℕ × ℕ × ℕ → ℕ → ℕ → ℕ → ℕ := fun img x y counter =>
    if interlace then getInterlaceIterator width x y img.2.2 else counter
  if depth = 8 then
    match images.foldlM (fun st img =>
        mapImage8BitPass bpp data (pos img) img.1 img.2.1 st) (pxData, 0, 0) with
    | .error e => .error e
    | .ok (px, rawPos, _) =>
      if rawPos ≠ data.length then .error "Extra data found" else .ok px
  else
    let maxBit := 2 ^ depth - 1
    match images.foldlM (fun st img =>
        mapImageCustomPass bpp depth maxBit data (pos img) img.1 img.2.1 st)
        (pxData, 0, ([], 0)) with
    | .error e => .error e
    | .ok (px, _, (_, i)) =>
      if i ≠ data.length then .error "Extra data found" else .ok px

/-! ## Format normalizer (`format-normalizer.ts`, src/unnamed/part_001) -/

/-- `dePalette`: replace each pixel with its palette RGBA quad
(`outdata` aliases `indata`; the index is read before the pixel is
overwritten). -/
def dePalette (indata : List ℕ) (width height : ℕ)
    (palette : List (List ℕ)) : Except String (List ℕ) :=
  (List.range (height * width)).foldlM (fun (buf : List ℕ) k =>
    let pxPos := k * 4
    match palette[buf.getD pxPos 0]? with
    | none => .error ("Index " ++ toString (buf.getD pxPos 0) ++
        " not in palette")
    | some c =>
      .ok ((((buf.set pxPos (c.getD 0 0)).set (pxPos + 1) (c.getD 1 0)).set
        (pxPos + 2) (c.getD 2 0)).set (pxPos + 3) (c.getD 3 0))) indata

/-- `replaceTransparentColor`: zero the whole pixel where the sample(s)
match the transparent colour. -/
def replaceTransparentColor (indata : List ℕ) (width height : ℕ)
    (transColor : List ℕ) : List ℕ :=
  (List.range (height * width)).foldl (fun buf k =>
    let pxPos := k * 4
    let makeTrans :=
      if transColor.length = 1 then transColor.getD 0 0 = buf.getD pxPos 0
      else transColor.getD 0 0 = buf.getD pxPos 0 ∧
        transColor.getD 1 0 = buf.getD (pxPos + 1) 0 ∧
        transColor.getD 2 0 = buf.getD (pxPos + 2) 0
    if makeTrans then
      (((buf.set pxPos 0).set (pxPos + 1) 0).set (pxPos + 2) 0).set
        (pxPos + 3) 0
    else buf) indata

/-- `scaleDepth`: `Math.floor(sample·255/maxIn + 0.5)`, computed exactly
as `(510·sample + maxIn) / (2·maxIn)` (the double-precision computation
in the source never lands close enough to a half to differ). -/
def scaleDepth (indata : List ℕ) (width height depth : ℕ)
    (out0 : List ℕ) : List ℕ :=
  let maxIn := 2 ^ depth - 1
  (List.range (height * width * 4)).foldl (fun out j =>
    out.set j ((indata.getD j 0 * 255 * 2 + maxIn) / (maxIn * 2))) out0

/-- `normalizeFormat` (`formatNormalizer`): palette branch, else
transparent-colour keying then depth rescale. -/
def normalizeFormat (indata : List ℕ) (depth width height colorType : ℕ)
    (transColor : Option (List ℕ)) (palette : Option (List (List ℕ)))
    (skipRescale : Bool) : Except String (List ℕ) :=
  if colorType = 3 ∧ palette.isSome then
    dePalette indata width height (palette.getD [])
  else
    let d1 := match transColor with
      | some tc => replaceTransparentColor indata width height tc
      | none => indata
    if depth ≠ 8 ∧ ¬skipRescale then
      .ok (scaleDepth d1 width height depth
        (if depth = 16 then List.replicate (width * height * 4) 0 else d1))
    else .ok d1

/-! ## `parseSync` (src/src/packer-sync.ts, lines 680–768) -/

/-- What `parseSync` returns: the metadata record extended with the
accumulated palette/transparency/gamma and the normalized RGBA data. -/
structure ParseResult where
  width : ℕ
  height : ℕ
  depth : ℕ
  bpp : ℕ
  colorType : ℕ
  interlace : Bool
  color : Bool
  alpha : Bool
  palette : Option (List (List ℕ))
  transColor : Option (List ℕ)
  data : List ℕ
  gamma : ℚ
deriving Repr, DecidableEq

/-- `parseSync`: signature, chunk loop, inflate (the zlib engine enters as
the event-stream collaborator `inflate`), unfilter, bitmap, normalize.
On the non-interlaced path the inflate is capped at
`rowSize · height` with `rowSize = ((width·bpp·depth + 7) >> 3) + 1`. -/
def parseSync (inflate : List ℕ → List InflEvent) (buffer : List ℕ)
    (checkCRC : Bool := true) (skipRescale : Bool := false) :
    Except String ParseResult :=
  if buffer.length < 8 then
    .error "There are some read requests waiting on finished stream"
  else if buffer.take 8 ≠ PNG_SIGNATURE then
    .error (parseErrMsg "Invalid file signature" (buffer.drop 8))
  else
    match parseChunkLoop { checkCRC := checkCRC } (buffer.drop 8) with
    | .error e => .error e
    | .ok st =>
      match st.metaData with
      | none => .error "PNG parsing failed - no metadata available"
      | some md₀ =>
        let md := if st.simpleTransp then { md₀ with alpha := true } else md₀
        let inflRes :=
          if md.interlace then zlibInflateSyncModel (inflate st.inflateData)
          else
            let rowSize := (md.width * md.bpp * md.depth + 7) / 8 + 1
            let imageSize := rowSize * md.height
            inflateSyncModel (inflate st.inflateData) imageSize
        match inflRes with
        | .error e => .error e
        | .ok inflatedData =>
          if inflatedData.length = 0 then
            .error "Bad PNG - invalid inflate data response"
          else
            match processFilterSync inflatedData md.width md.height md.bpp
                md.depth md.interlace with
            | .error e => .error e
            | .ok unfiltered =>
              match dataToBitMap unfiltered md.width md.height md.depth
                  md.bpp md.interlace with
              | .error e => .error e
              | .ok bitmapData =>
                match normalizeFormat bitmapData md.depth md.width md.height
                    md.colorType st.transColor
                    (if st.paletteSet then some st.palette else none)
                    skipRescale with
                | .error e => .error e
                | .ok normalized =>
                  .ok { width := md.width, height := md.height
                        depth := md.depth, bpp := md.bpp
                        colorType := md.colorType, interlace := md.interlace
                        color := md.color, alpha := md.alpha
                        palette := if st.paletteSet then some st.palette
                          else none
                        transColor := st.transColor
                        data := normalized
                        gamma := st.gamma.getD 0 }

/-! ## Encoder: chunk packer (`packer.ts`) and `packSync` -/

/-- `Packer._packChunk`: big-endian length, type, body, CRC-32 over
type plus body. -/
def packChunk (type : ℕ) (data : Option (List ℕ)) : List ℕ :=
  let d := data.getD []
  toBytes32 d.length ++ toBytes32 type ++ d ++
    toBytes32 (crc32 (toBytes32 type ++ d))

/-- `Packer.packIHDR`: 13-byte body, compression/filter/interlace 0. -/
def packIHDR (width height bitDepth colorType : ℕ) : List ℕ :=
  packChunk TYPE_IHDR
    (some (toBytes32 width ++ toBytes32 height ++ [bitDepth, colorType, 0, 0, 0]))

/-- `Packer.packGAMA`: `floor(gamma · 100000)` big-endian. -/
def packGAMA (gamma : ℚ) : List ℕ :=
  packChunk TYPE_gAMA (some (toBytes32 (⌊gamma * 100000⌋).toNat))

/-- `Packer.packIDAT`. -/
def packIDAT (data : List ℕ) : List ℕ := packChunk TYPE_IDAT (some data)

/-- `Packer.packIEND`. -/
def packIEND : List ℕ := packChunk TYPE_IEND none

/-- The encoder options, with the `Packer` constructor defaults. -/
structure PackerOptions where
  colorType : ℕ := 6
  inputColorType : ℕ := 6
  bitDepth : ℕ := 8
  inputHasAlpha : Bool := true
  filterType : Option (Int ⊕ List Int) := none
  bgRed : Option ℕ := none
  bgGreen : Option ℕ := none
  bgBlue : Option ℕ := none
deriving Repr, DecidableEq

/-- `Packer.validateOptions`: supported color types `{0, 2, 6, 4}` and bit
depths `{8, 16}`. -/
def packerValidate (o : PackerOptions) : Option String :=
  if ¬(o.colorType = 0 ∨ o.colorType = 2 ∨ o.colorType = 6 ∨ o.colorType = 4)
  then some ("Option color type: " ++ toString o.colorType ++
    " is not supported at present")
  else if ¬(o.inputColorType = 0 ∨ o.inputColorType = 2 ∨
      o.inputColorType = 6 ∨ o.inputColorType = 4) then
    some ("Option input color type: " ++ toString o.inputColorType ++
      " is not supported at present")
  else if o.bitDepth ≠ 8 ∧ o.bitDepth ≠ 16 then
    some ("Option bit depth: " ++ toString o.bitDepth ++
      " is not supported at present")
  else none

/-! ## Encoder: bit packer (`bitpacker.ts`)

Floating-point blending (`Math.round`) is modelled by exact rationals:
for the byte/16-bit sample ranges involved the double computation never
lands close enough to a half-integer for the results to differ. -/

/-- JavaScript `Math.round` for nonnegative rationals: half away from
zero, i.e. `⌊q + 1/2⌋`. -/
def jsRound (q : ℚ) : Int := ⌊q + 1 / 2⌋

/-- `writeUInt16BE`: two big-endian bytes. -/
def toBytes16 (n : ℕ) : List ℕ := [n / 256 % 256, n % 256]

/-- The `Uint16Array(dataIn.buffer)` view: byte pairs combined in host
endianness. -/
def u16FromBytes (hostBigEndian : Bool) (dataIn : List ℕ) : List ℕ :=
  (List.range (dataIn.length / 2)).map fun k =>
    if hostBigEndian then dataIn.getD (2 * k) 0 * 256 + dataIn.getD (2 * k + 1) 0
    else dataIn.getD (2 * k + 1) 0 * 256 + dataIn.getD (2 * k) 0

/-- `getRGBA` of `bitPacker`: read one pixel, blend against the background
colour when the input has alpha but the output does not. -/
def bitPackerGetRGBA (data : List ℕ) (o : PackerOptions)
    (outHasAlpha : Bool) (maxValue : ℕ) (bg : ℕ × ℕ × ℕ) (inIndex : ℕ) :
    Except String (ℕ × ℕ × ℕ × ℕ) :=
  let read := fun j => data.getD (inIndex + j) 0
  let base : Except String (ℕ × ℕ × ℕ × ℕ) :=
    if o.inputColorType = 6 then .ok (read 0, read 1, read 2, read 3)
    else if o.inputColorType = 2 then .ok (read 0, read 1, read 2, maxValue)
    else if o.inputColorType = 4 then .ok (read 0, read 0, read 0, read 1)
    else if o.inputColorType = 0 then .ok (read 0, read 0, read 0, maxValue)
    else .error ("Input color type: " ++ toString o.inputColorType ++
      " is not supported at present")
  match base with
  | .error e => .error e
  | .ok (red, green, blue, alpha) =>
    if o.inputHasAlpha ∧ ¬outHasAlpha then
      let blend := fun (bgc s : ℕ) =>
        min (jsRound (((bgc * (maxValue - alpha) + s * alpha : ℕ) : ℚ) /
          maxValue)).toNat maxValue
      .ok (blend bg.1 red, blend bg.2.1 green, blend bg.2.2 blue, alpha)
    else .ok (red, green, blue, alpha)

/-- The per-pixel output bytes of `bitPacker`'s write loop. -/
def bitPackerPixelBytes (o : PackerOptions) (outHasAlpha : Bool)
    (rgba : ℕ × ℕ × ℕ × ℕ) : Except String (List ℕ) :=
  if o.colorType = 6 ∨ o.colorType = 2 then
    if o.bitDepth = 8 then
      .ok ([rgba.1 % 256, rgba.2.1 % 256, rgba.2.2.1 % 256] ++
        (if outHasAlpha then [rgba.2.2.2 % 256] else []))
    else
      .ok (toBytes16 rgba.1 ++ toBytes16 rgba.2.1 ++ toBytes16 rgba.2.2.1 ++
        (if outHasAlpha then toBytes16 rgba.2.2.2 else []))
  else if o.colorType = 4 ∨ o.colorType = 0 then
    let grayscale :=
      (jsRound (((rgba.1 + rgba.2.1 + rgba.2.2.1 : ℕ) : ℚ) / 3)).toNat
    if o.bitDepth = 8 then
      .ok ([grayscale % 256] ++ (if outHasAlpha then [rgba.2.2.2 % 256] else []))
    else
      .ok (toBytes16 grayscale ++
        (if outHasAlpha then toBytes16 rgba.2.2.2 else []))
  else .error ("Unrecognized color type " ++ toString o.colorType)

/-- `bitPacker` from `bitpacker.ts`: fast path when input and output color
types match (at depth 8, or depth 16 on a big-endian host), otherwise the
per-pixel conversion loop. -/
def bitPacker (dataIn : List ℕ) (width height : ℕ) (o : PackerOptions)
    (hostBigEndian : Bool) : Except String (List ℕ) :=
  let outHasAlpha := o.colorType = 6 ∨ o.colorType = 4
  if o.colorType = o.inputColorType ∧
      (o.bitDepth = 8 ∨ (o.bitDepth = 16 ∧ hostBigEndian)) then
    .ok dataIn
  else
    let data := if o.bitDepth ≠ 16 then dataIn
      else u16FromBytes hostBigEndian dataIn
    let maxValue := if o.bitDepth = 16 then 65535 else 255
    let inBpp0 := (bppOf o.inputColorType).getD 0
    let inBpp := if inBpp0 = 4 ∧ ¬o.inputHasAlpha then 3 else inBpp0
    let bg := (o.bgRed.getD maxValue, o.bgGreen.getD maxValue,
      o.bgBlue.getD maxValue)
    match (List.range (width * height)).mapM (fun k =>
        match bitPackerGetRGBA data o outHasAlpha maxValue bg (k * inBpp) with
        | .error e => (Except.error e : Except String (List ℕ))
        | .ok rgba => bitPackerPixelBytes o outHasAlpha rgba) with
    | .error e => .error e
    | .ok pixelLists => .ok pixelLists.flatten

/-- `Packer.filterData`: bit-pack then forward-filter. -/
def filterData (data : List ℕ) (width height : ℕ) (o : PackerOptions)
    (hostBigEndian : Bool) : Except String (List ℕ) :=
  match bitPacker data width height o hostBigEndian with
  | .error e => .error e
  | .ok packedData =>
    packFilter packedData width height o.filterType o.bitDepth
      ((bppOf o.colorType).getD 0)

/-- `packSync` from `packer-sync.ts`: signature, IHDR, optional gAMA,
filtered and deflated data in one IDAT, IEND.  The deflate engine is the
external collaborator `deflate`. -/
def packSync (deflate : List ℕ → List ℕ) (width height : ℕ)
    (data : List ℕ) (gamma : Option ℚ) (o : PackerOptions)
    (hostBigEndian : Bool) : Except String (List ℕ) :=
  match packerValidate o with
  | some e => .error e
  | none =>
    match filterData data width height o hostBigEndian with
    | .error e => .error e
    | .ok filteredData =>
      let compressedData := deflate filteredData
      if compressedData.length = 0 then
        .error "Bad PNG - invalid compressed data response"
      else
        .ok (PNG_SIGNATURE ++ packIHDR width height o.bitDepth o.colorType ++
          (match gamma with
            | some g => if g = 0 then [] else packGAMA g
            | none => []) ++
          packIDAT compressedData ++ packIEND)

theorem parseChunkOnce_nil (st : PState) :
    parseChunkOnce st [] =
      .err "There are some read requests waiting on finished stream" := by
  simp [parseChunkOnce]

theorem parseChunkStep_nil (r : PState → List ℕ → Except String PState)
    (st : PState) :
    parseChunkStep r st [] =
      .error "There are some read requests waiting on finished stream" := by
  simp [parseChunkStep, parseChunkOnce_nil]

theorem parseChunkStep_congr (r₁ r₂ : PState → List ℕ → Except String PState)
    (st : PState) (input : List ℕ)
    (h : ∀ st' rest, rest.length ≤ input.length - 12 →
      r₁ st' rest = r₂ st' rest) :
    parseChunkStep r₁ st input = parseChunkStep r₂ st input := by
  cases ho : parseChunkOnce st input <;> simp only [parseChunkStep, ho]
  exact h _ _ (by simp only [List.length_drop]; omega)

theorem parseChunkGo_congr (f₁ : ℕ) :
    ∀ (f₂ : ℕ) (st : PState) (input : List ℕ),
      input.length ≤ f₁ → input.length ≤ f₂ →
      parseChunkGo f₁ st input = parseChunkGo f₂ st input := by
  induction f₁ with
  | zero =>
    intro f₂ st input h₁ h₂
    have : input = [] := List.eq_nil_of_length_eq_zero (Nat.le_zero.mp h₁)
    subst this
    cases f₂ with
    | zero => rfl
    | succ k => simp [parseChunkGo, parseChunkStep_nil]
  | succ f ih =>
    intro f₂ st input h₁ h₂
    cases f₂ with
    | zero =>
      have : input = [] := List.eq_nil_of_length_eq_zero (Nat.le_zero.mp h₂)
      subst this
      simp [parseChunkGo, parseChunkStep_nil]
    | succ k =>
      simp only [parseChunkGo]
      exact parseChunkStep_congr _ _ _ _ fun st' rest hrest =>
        ih k st' rest (by omega) (by omega)

theorem parseChunkGo_eq_loop (fuel : ℕ) (st : PState) (input : List ℕ)
    (h : input.length ≤ fuel) :
    parseChunkGo fuel st input = parseChunkLoop st input :=
  parseChunkGo_congr fuel input.length st input h le_rfl

theorem parseChunkLoop_unfold (st : PState) (input : List ℕ) :
    parseChunkLoop st input = parseChunkStep parseChunkLoop st input := by
  cases hlen : input.length with
  | zero =>
    have : input = [] := List.eq_nil_of_length_eq_zero hlen
    subst this
    simp [parseChunkLoop, parseChunkGo, parseChunkStep_nil]
  | succ m =>
    show parseChunkGo input.length st input = _
    rw [hlen]
    simp only [parseChunkGo]
    exact parseChunkStep_congr _ _ _ _ fun st' rest hrest =>
      parseChunkGo_eq_loop m st' rest (by omega)

/-- C9: the Paeth predictor equals the argmin of `|a+b-c-x|` over `{a,b,c}`
with tie-break order `a`, `b`, `c`; it always returns one of its inputs,
`paeth(a,a,a) = a`, and `paeth(0,0,0) = 0`. -/
theorem paeth_predictor_correct (a b c : Int) :
    paethPredictor a b c = paethArgmin a b c ∧
    (paethPredictor a b c = a ∨ paethPredictor a b c = b ∨
      paethPredictor a b c = c) ∧
    paethPredictor a a a = a ∧ paethPredictor 0 0 0 = 0 := by
  refine ⟨?_, ?_, ?_, ?_⟩
  · simp only [paethPredictor, paethArgmin]
    split_ifs <;> omega
  · simp only [paethPredictor]
    split_ifs <;> simp
  · simp [paethPredictor]
  · simp [paethPredictor]

/-! ### Adam7 geometry lemmas -/

theorem countWhileLt_eq_countP (offs : List ℕ) (hs : offs.Sorted (· ≤ ·))
    (l : ℕ) : countWhileLt offs l = offs.countP (· < l) := by
  induction offs with
  | nil => simp [countWhileLt]
  | cons o rest ih =>
    rcases List.sorted_cons.mp hs with ⟨ho, hrest⟩
    by_cases h : o < l
    · simp [countWhileLt, h, ih hrest, List.countP_cons, Nat.add_comm]
    · have hz : rest.countP (· < l) = 0 := by
        rw [List.countP_eq_zero]
        intro a ha
        simpa using Nat.not_lt.mpr (Nat.le_trans (Nat.not_lt.mp h) (ho a ha))
      simp [countWhileLt, h, List.countP_cons, hz]

theorem getD_lt_iff_lt_countP (offs : List ℕ) (hs : offs.Sorted (· < ·))
    (l : ℕ) : ∀ j < offs.length, (offs.getD j 0 < l ↔ j < offs.countP (· < l)) := by
  induction offs with
  | nil => intro j hj; simp at hj
  | cons o rest ih =>
    rcases List.sorted_cons.mp hs with ⟨ho, hrest⟩
    intro j hj
    have hcc : (o :: rest).countP (· < l) =
        rest.countP (· < l) + if o < l then 1 else 0 := by
      by_cases h : o < l <;> simp [List.countP_cons, h]
    match j with
    | 0 =>
      rw [List.getD_cons_zero, hcc]
      by_cases h : o < l
      · simp [h]
      · have hz : rest.countP (· < l) = 0 := by
          rw [List.countP_eq_zero]
          intro a ha
          simpa using fun hal => h (Nat.lt_trans (ho a ha) hal)
        simp [h, hz]
    | j + 1 =>
      have hj' : j < rest.length := by simpa using hj
      have h1 := ih hrest j hj'
      rw [List.getD_cons_succ, hcc]
      by_cases h : o < l
      · simp only [h, if_true]
        omega
      · have hz : rest.countP (· < l) = 0 := by
          rw [List.countP_eq_zero]
          intro a ha
          simpa using fun hal => h (Nat.lt_trans (ho a ha) hal)
        simp only [h, if_false]
        omega

theorem getD_mem_of_lt (offs : List ℕ) (j : ℕ) (hj : j < offs.length) :
    offs.getD j 0 ∈ offs := by
  rw [List.getD_eq_getElem?_getD, List.getElem?_eq_getElem hj]
  exact List.getElem_mem hj

theorem interlaceOuter_eq (offs : List ℕ) (hne : offs ≠ []) (x : ℕ) :
    interlaceOuter offs x = x / offs.length * 8 + offs.getD (x % offs.length) 0 := by
  have hn : 0 < offs.length := List.length_pos.mpr hne
  have h1 : x - x % offs.length = offs.length * (x / offs.length) := by
    have := Nat.div_add_mod x offs.length
    omega
  simp only [interlaceOuter, h1, Nat.mul_div_cancel_left _ hn]

theorem interlaceOuter_div_mod (offs : List ℕ) (h8 : ∀ o ∈ offs, o < 8)
    (hne : offs ≠ []) (x : ℕ) :
    interlaceOuter offs x / 8 = x / offs.length ∧
    interlaceOuter offs x % 8 = offs.getD (x % offs.length) 0 := by
  have hn : 0 < offs.length := List.length_pos.mpr hne
  have hm : x % offs.length < offs.length := Nat.mod_lt _ hn
  have ho : offs.getD (x % offs.length) 0 < 8 := h8 _ (getD_mem_of_lt _ _ hm)
  rw [interlaceOuter_eq offs hne]
  omega

theorem interlaceOuter_lt (offs : List ℕ) (hs : offs.Sorted (· < ·))
    (h8 : ∀ o ∈ offs, o < 8) (hne : offs ≠ []) (W x : ℕ)
    (hx : x < passDimSpec offs W) : interlaceOuter offs x < W := by
  have hn : 0 < offs.length := List.length_pos.mpr hne
  have hm : x % offs.length < offs.length := Nat.mod_lt _ hn
  have ho : offs.getD (x % offs.length) 0 < 8 := h8 _ (getD_mem_of_lt _ _ hm)
  have hcle : offs.countP (· < W % 8) ≤ offs.length := List.countP_le_length _
  rw [interlaceOuter_eq offs hne]
  unfold passDimSpec at hx
  have key := Nat.div_add_mod x offs.length
  have hpre := getD_lt_iff_lt_countP offs hs (W % 8) _ hm
  generalize hqd : x / offs.length = q at *
  generalize hjd : x % offs.length = j at *
  generalize hgd : offs.getD j 0 = g at *
  generalize hcd : offs.countP (· < W % 8) = c at *
  generalize hnd : offs.length = n at *
  by_cases hcase : q < W / 8
  · omega
  · have hge : W / 8 * n ≤ q * n := Nat.mul_le_mul_right _ (Nat.not_lt.mp hcase)
    have hc1 : n * q = q * n := Nat.mul_comm _ _
    have hjc : j < c := by omega
    have hglt : g < W % 8 := hpre.mpr hjc
    have hqe : q = W / 8 := by
      by_contra hne'
      have h1 : W / 8 + 1 ≤ q := by omega
      have h2 : (W / 8 + 1) * n ≤ q * n := Nat.mul_le_mul_right _ h1
      have h3 : (W / 8 + 1) * n = W / 8 * n + n := by ring
      omega
    omega

theorem countP_range_unique (P : ℕ → Bool) :
    ∀ N x₀, x₀ < N → P x₀ = true → (∀ x, x < N → P x = true → x = x₀) →
    (List.range N).countP P = 1 := by
  intro N
  induction N with
  | zero => intro x₀ h; omega
  | succ n ih =>
    intro x₀ hx₀ hP huniq
    rw [List.range_succ, List.countP_append]
    by_cases hn : x₀ = n
    · have h1 : (List.range n).countP P = 0 := by
        rw [List.countP_eq_zero]
        intro a ha hPa
        rw [List.mem_range] at ha
        have := huniq a (by omega) hPa
        omega
      have h2 : ([n] : List ℕ).countP P = 1 := by
        subst hn
        simp [List.countP_cons, hP]
      omega
    · have hx₀' : x₀ < n := by omega
      have h1 : (List.range n).countP P = 1 :=
        ih x₀ hx₀' hP fun x hx hPx => huniq x (by omega) hPx
      have h2 : ([n] : List ℕ).countP P = 0 := by
        rw [List.countP_eq_zero]
        intro a ha hPa
        rw [List.mem_singleton] at ha
        have h3 := huniq a (by omega) hPa
        omega
      omega

theorem interlace_count_preimage (offs : List ℕ) (hs : offs.Sorted (· < ·))
    (h8 : ∀ o ∈ offs, o < 8) (hne : offs ≠ []) (W p : ℕ) (hp : p < W) :
    (List.range (passDimSpec offs W)).countP
        (fun x => interlaceOuter offs x = p) =
      if p % 8 ∈ offs then 1 else 0 := by
  have hn : 0 < offs.length := List.length_pos.mpr hne
  by_cases hmem : p % 8 ∈ offs
  · rw [if_pos hmem]
    obtain ⟨j, hj, hjv⟩ := List.getElem_of_mem hmem
    have hjd : offs.getD j 0 = p % 8 := by
      rw [List.getD_eq_getElem?_getD, List.getElem?_eq_getElem hj]
      exact hjv
    have hmod : (p / 8 * offs.length + j) % offs.length = j := by
      rw [Nat.mul_comm (p / 8) offs.length, Nat.mul_add_mod]
      exact Nat.mod_eq_of_lt hj
    have hdiv : (p / 8 * offs.length + j) / offs.length = p / 8 := by
      rw [Nat.mul_comm (p / 8) offs.length, Nat.mul_add_div hn,
        Nat.div_eq_of_lt hj, Nat.add_zero]
    have hrange : p / 8 * offs.length + j < passDimSpec offs W := by
      unfold passDimSpec
      have hdivle : p / 8 ≤ W / 8 := Nat.div_le_div_right (le_of_lt hp)
      by_cases hcase : p / 8 < W / 8
      · have h2 : (p / 8 + 1) * offs.length ≤ W / 8 * offs.length :=
          Nat.mul_le_mul_right _ hcase
        have h3 : (p / 8 + 1) * offs.length = p / 8 * offs.length + offs.length := by
          ring
        omega
      · have hqe : p / 8 = W / 8 := by omega
        have hpm : p % 8 < W % 8 := by omega
        have hjc : j < offs.countP (· < W % 8) :=
          (getD_lt_iff_lt_countP offs hs (W % 8) j hj).mp (hjd ▸ hpm)
        rw [hqe]
        omega
    have houter : interlaceOuter offs (p / 8 * offs.length + j) = p := by
      rw [interlaceOuter_eq offs hne, hdiv, hmod, hjd]
      omega
    apply countP_range_unique _ _ (p / 8 * offs.length + j) hrange
      (by simpa using houter)
    intro x hx hPx
    rw [decide_eq_true_eq] at hPx
    obtain ⟨hdivx, hmodx⟩ := interlaceOuter_div_mod offs h8 hne x
    rw [hPx] at hdivx hmodx
    have hxm : x % offs.length < offs.length := Nat.mod_lt _ hn
    have hgd : offs.getD (x % offs.length) 0 = offs[x % offs.length] := by
      rw [List.getD_eq_getElem?_getD, List.getElem?_eq_getElem hxm]
      rfl
    have heq2 : offs[x % offs.length] = offs[j] := by
      rw [← hgd, ← hmodx, hjv]
    have hidx : x % offs.length = j :=
      (List.Nodup.getElem_inj_iff hs.nodup).mp heq2
    have hxd := Nat.div_add_mod x offs.length
    have hcomm : offs.length * (x / offs.length) = x / offs.length * offs.length :=
      Nat.mul_comm _ _
    have : x / offs.length * offs.length = p / 8 * offs.length := by
      rw [hdivx]
    omega
  · rw [if_neg hmem, List.countP_eq_zero]
    intro x hxmem hPx
    rw [decide_eq_true_eq] at hPx
    obtain ⟨hdivx, hmodx⟩ := interlaceOuter_div_mod offs h8 hne x
    rw [hPx] at hmodx
    have hxm : x % offs.length < offs.length := Nat.mod_lt _ hn
    exact hmem (hmodx ▸ getD_mem_of_lt offs _ hxm)

theorem getImagePasses_eq (W H : ℕ) :
    getImagePasses W H = (List.range 7).filterMap fun i =>
      if 0 < passDimSpec (imagePasses.getD i ([], [])).1 W ∧
          0 < passDimSpec (imagePasses.getD i ([], [])).2 H then
        some ⟨passDimSpec (imagePasses.getD i ([], [])).1 W,
              passDimSpec (imagePasses.getD i ([], [])).2 H, i⟩
      else none := by
  have hsx : ∀ i < 7, ((imagePasses.getD i ([], [])).1).Sorted (· ≤ ·) ∧
      ((imagePasses.getD i ([], [])).2).Sorted (· ≤ ·) := by decide
  have hdW : (W - W % 8) / 8 = W / 8 := by omega
  have hdH : (H - H % 8) / 8 = H / 8 := by omega
  unfold getImagePasses
  rw [show imagePasses.length = 7 from rfl]
  apply List.filterMap_congr
  intro i hi
  rw [List.mem_range] at hi
  obtain ⟨hx, hy⟩ := hsx i hi
  simp only [countWhileLt_eq_countP _ hx, countWhileLt_eq_countP _ hy, hdW, hdH,
    passDimSpec]

theorem sum_map_filterMap {α β : Type} (l : List α) (f : α → Option β)
    (g : β → ℕ) :
    ((l.filterMap f).map g).sum = (l.map fun a => ((f a).map g).getD 0).sum := by
  induction l with
  | nil => rfl
  | cons a l ih =>
    cases hfa : f a <;> simp [List.filterMap_cons, hfa, ih]

theorem sum_map_ite_count (l : List ℕ) (P : ℕ → Prop) [DecidablePred P]
    (m : ℕ) :
    (l.map fun x => if P x then m else 0).sum =
      l.countP (fun x => decide (P x)) * m := by
  induction l with
  | nil => simp
  | cons a l ih =>
    by_cases h : P a <;>
      simp [List.countP_cons, h, ih, Nat.add_mul, Nat.add_comm]

theorem ite_mul_ite_one (A B : Prop) [Decidable A] [Decidable B] :
    ((if A then 1 else 0) * if B then 1 else 0 : ℕ) = if A ∧ B then 1 else 0 := by
  by_cases hA : A <;> by_cases hB : B <;> simp [hA, hB]

theorem decomp_unique (W a b px py : ℕ) (ha : a < W) (hpx : px < W)
    (h : a + b * W = px + py * W) : a = px ∧ b = py := by
  have h1 : (a + b * W) % W = a := by
    rw [Nat.add_mul_mod_self_right, Nat.mod_eq_of_lt ha]
  have h2 : (px + py * W) % W = px := by
    rw [Nat.add_mul_mod_self_right, Nat.mod_eq_of_lt hpx]
  have ha' : a = px := by rw [← h1, h, h2]
  refine ⟨ha', ?_⟩
  have hW : 0 < W := by omega
  have hb : b * W = py * W := by omega
  exact Nat.eq_of_mul_eq_mul_right hW hb

theorem pass_contribution (X Y : List ℕ)
    (hsX : X.Sorted (· < ·)) (h8X : ∀ o ∈ X, o < 8) (hneX : X ≠ [])
    (hsY : Y.Sorted (· < ·)) (h8Y : ∀ o ∈ Y, o < 8) (hneY : Y ≠ [])
    (W H px py : ℕ) (hpx : px < W) (hpy : py < H) :
    ((List.range (passDimSpec X W)).map fun x =>
      (List.range (passDimSpec Y H)).countP fun y =>
        interlaceOuter X x * 4 + interlaceOuter Y y * W * 4 =
          (py * W + px) * 4).sum =
    (if px % 8 ∈ X then 1 else 0) * (if py % 8 ∈ Y then 1 else 0) := by
  have hmapc : ∀ x ∈ List.range (passDimSpec X W),
      ((List.range (passDimSpec Y H)).countP fun y =>
        interlaceOuter X x * 4 + interlaceOuter Y y * W * 4 =
          (py * W + px) * 4) =
      if interlaceOuter X x = px then
        (List.range (passDimSpec Y H)).countP fun y =>
          interlaceOuter Y y = py
      else 0 := by
    intro x hx
    rw [List.mem_range] at hx
    have hxlt : interlaceOuter X x < W := interlaceOuter_lt X hsX h8X hneX W x hx
    by_cases hcx : interlaceOuter X x = px
    · rw [if_pos hcx]
      apply List.countP_congr
      intro y _
      simp only [decide_eq_true_eq]
      constructor
      · intro he
        have he' : interlaceOuter X x + interlaceOuter Y y * W = px + py * W := by
          omega
        exact (decomp_unique W _ _ px py hxlt hpx he').2
      · intro he
        rw [hcx, he]
        ring
    · rw [if_neg hcx, List.countP_eq_zero]
      intro y _ hPy
      rw [decide_eq_true_eq] at hPy
      have he' : interlaceOuter X x + interlaceOuter Y y * W = px + py * W := by
        omega
      exact hcx (decomp_unique W _ _ px py hxlt hpx he').1
  rw [List.map_congr_left hmapc, sum_map_ite_count,
    interlace_count_preimage X hsX h8X hneX W px hpx,
    interlace_count_preimage Y hsY h8Y hneY H py hpy]

/-- C2: for every image size with `W, H ≥ 1`, the Adam7 passes of
`getImagePasses` combined with the placement of `getInterlaceIterator`
cover each pixel `(px, py)` exactly once; every kept pass has the
dimensions `floor(size/8)·|offs| + (offsets below size mod 8)` in each
axis, and a pass is kept exactly when both its dimensions are positive. -/
theorem adam7_partition (W H px py : ℕ) (hW : 1 ≤ W) (hH : 1 ≤ H)
    (hpx : px < W) (hpy : py < H) :
    coverCount W H px py = 1 ∧
    (∀ pd ∈ getImagePasses W H,
      pd.index < 7 ∧
      pd.width = passDimSpec (imagePasses.getD pd.index ([], [])).1 W ∧
      pd.height = passDimSpec (imagePasses.getD pd.index ([], [])).2 H) ∧
    (∀ i < 7, (∃ pd ∈ getImagePasses W H, pd.index = i) ↔
      0 < passDimSpec (imagePasses.getD i ([], [])).1 W ∧
      0 < passDimSpec (imagePasses.getD i ([], [])).2 H) := by
  have hfacts : ∀ i < 7,
      ((imagePasses.getD i ([], [])).1).Sorted (· < ·) ∧
      (∀ o ∈ (imagePasses.getD i ([], [])).1, o < 8) ∧
      (imagePasses.getD i ([], [])).1 ≠ [] ∧
      ((imagePasses.getD i ([], [])).2).Sorted (· < ·) ∧
      (∀ o ∈ (imagePasses.getD i ([], [])).2, o < 8) ∧
      (imagePasses.getD i ([], [])).2 ≠ [] := by decide
  have hcover7 : ∀ dx < 8, ∀ dy < 8,
      ((List.range 7).countP fun i =>
        dx ∈ (imagePasses.getD i ([], [])).1 ∧
        dy ∈ (imagePasses.getD i ([], [])).2) = 1 := by decide
  refine ⟨?_, ?_, ?_⟩
  · have hcc : coverCount W H px py =
        ((List.range 7).map fun i =>
          if px % 8 ∈ (imagePasses.getD i ([], [])).1 ∧
              py % 8 ∈ (imagePasses.getD i ([], [])).2 then 1 else 0).sum := by
      unfold coverCount
      rw [getImagePasses_eq, sum_map_filterMap]
      apply congrArg List.sum
      apply List.map_congr_left
      intro i hi
      rw [List.mem_range] at hi
      obtain ⟨hsX, h8X, hneX, hsY, h8Y, hneY⟩ := hfacts i hi
      have hcontrib := pass_contribution _ _ hsX h8X hneX hsY h8Y hneY
        W H px py hpx hpy
      by_cases hcond : 0 < passDimSpec (imagePasses.getD i ([], [])).1 W ∧
          0 < passDimSpec (imagePasses.getD i ([], [])).2 H
      · rw [if_pos hcond]
        simp only [Option.map_some', Option.getD_some, getInterlaceIterator]
        rw [hcontrib]
        exact ite_mul_ite_one _ _
      · rw [if_neg hcond]
        simp only [Option.map_none', Option.getD_none]
        have hnot : ¬(px % 8 ∈ (imagePasses.getD i ([], [])).1 ∧
            py % 8 ∈ (imagePasses.getD i ([], [])).2) := by
          rintro ⟨hmx, hmy⟩
          have h1 := interlace_count_preimage _ hsX h8X hneX W px hpx
          rw [if_pos hmx] at h1
          have h2 := interlace_count_preimage _ hsY h8Y hneY H py hpy
          rw [if_pos hmy] at h2
          have hdx : 0 < passDimSpec (imagePasses.getD i ([], [])).1 W := by
            by_contra h0
            have h0' : passDimSpec (imagePasses.getD i ([], [])).1 W = 0 := by
              omega
            rw [h0'] at h1
            simp at h1
          have hdy : 0 < passDimSpec (imagePasses.getD i ([], [])).2 H := by
            by_contra h0
            have h0' : passDimSpec (imagePasses.getD i ([], [])).2 H = 0 := by
              omega
            rw [h0'] at h2
            simp at h2
          exact hcond ⟨hdx, hdy⟩
        rw [if_neg hnot]
    rw [hcc, sum_map_ite_count, Nat.mul_one]
    exact hcover7 (px % 8) (Nat.mod_lt _ (by omega)) (py % 8)
      (Nat.mod_lt _ (by omega))
  · intro pd hpd
    rw [getImagePasses_eq, List.mem_filterMap] at hpd
    obtain ⟨i, hi, hfi⟩ := hpd
    rw [List.mem_range] at hi
    split_ifs at hfi with hcond
    obtain rfl := Option.some_inj.mp hfi
    exact ⟨hi, rfl, rfl⟩
  · intro i hi
    constructor
    · rintro ⟨pd, hpd, rfl⟩
      rw [getImagePasses_eq, List.mem_filterMap] at hpd
      obtain ⟨i', _, hfi⟩ := hpd
      split_ifs at hfi with hcond
      obtain rfl := Option.some_inj.mp hfi
      exact hcond
    · rintro ⟨h1, h2⟩
      refine ⟨⟨passDimSpec (imagePasses.getD i ([], [])).1 W,
        passDimSpec (imagePasses.getD i ([], [])).2 H, i⟩, ?_, rfl⟩
      rw [getImagePasses_eq, List.mem_filterMap]
      exact ⟨i, List.mem_range.mpr hi, by rw [if_pos ⟨h1, h2⟩]⟩

/-- Witness for `adam7_partition` at the concrete size 5×4 and pixel (3,1). -/
theorem adam7_partition_witness :
    (1 ≤ 5 ∧ 1 ≤ 4 ∧ 3 < 5 ∧ 1 < 4) ∧
    (coverCount 5 4 3 1 = 1 ∧
    (∀ pd ∈ getImagePasses 5 4,
      pd.index < 7 ∧
      pd.width = passDimSpec (imagePasses.getD pd.index ([], [])).1 5 ∧
      pd.height = passDimSpec (imagePasses.getD pd.index ([], [])).2 4) ∧
    (∀ i < 7, (∃ pd ∈ getImagePasses 5 4, pd.index = i) ↔
      0 < passDimSpec (imagePasses.getD i ([], [])).1 5 ∧
      0 < passDimSpec (imagePasses.getD i ([], [])).2 4)) :=
  ⟨⟨by decide, by decide, by decide, by decide⟩,
    adam7_partition 5 4 3 1 (by decide) (by decide) (by decide) (by decide)⟩

/-! ### Filter reversal lemmas -/

theorem buildLine_length (step : List ℕ → ℕ → ℕ) (n : ℕ) :
    (buildLine step n).length = n := by
  induction n with
  | zero => rfl
  | succ n ih => simp [buildLine, ih]

theorem buildLine_getD_stable (step : List ℕ → ℕ → ℕ) {x m n : ℕ}
    (hx : x < m) (hmn : m ≤ n) :
    (buildLine step n).getD x 0 = (buildLine step m).getD x 0 := by
  induction n with
  | zero => omega
  | succ n ih =>
    rcases Nat.lt_or_ge m (n + 1) with h | h
    · have h1 : x < (buildLine step n).length := by
        rw [buildLine_length]; omega
      calc (buildLine step (n + 1)).getD x 0
          = (buildLine step n).getD x 0 := by
            show (buildLine step n ++ [step (buildLine step n) n]).getD x 0 = _
            exact List.getD_append _ _ _ _ h1
        _ = (buildLine step m).getD x 0 := ih (by omega)
    · have hmn' : m = n + 1 := by omega
      subst hmn'
      rfl

theorem buildLine_getD_eq_step (step : List ℕ → ℕ → ℕ) {n x : ℕ}
    (h : x < n) :
    (buildLine step n).getD x 0 = step (buildLine step x) x := by
  have hl : (buildLine step x).length = x := buildLine_length step x
  have h1 : (buildLine step (x + 1)).getD x 0 = step (buildLine step x) x := by
    show (buildLine step x ++ [step (buildLine step x) x]).getD x 0 = _
    rw [List.getD_append_right _ _ _ _ (by omega), hl, Nat.sub_self]
    rfl
  rw [buildLine_getD_stable step (Nat.lt_succ_self x) h, h1]

theorem specUnfiltered_zero (D : ℕ) (prev raw : ℕ → ℕ) (x : ℕ) :
    specUnfiltered 0 D prev raw x = raw x % 256 := by
  rw [specUnfiltered]
  norm_num

theorem specUnfiltered_one (D : ℕ) (prev raw : ℕ → ℕ) (x : ℕ) :
    specUnfiltered 1 D prev raw x =
      (raw x + if 0 < D ∧ D ≤ x then specUnfiltered 1 D prev raw (x - D)
        else 0) % 256 := by
  rw [specUnfiltered]
  norm_num

theorem specUnfiltered_two (D : ℕ) (prev raw : ℕ → ℕ) (x : ℕ) :
    specUnfiltered 2 D prev raw x = (raw x + prev x) % 256 := by
  rw [specUnfiltered]
  norm_num

theorem specUnfiltered_three (D : ℕ) (prev raw : ℕ → ℕ) (x : ℕ) :
    specUnfiltered 3 D prev raw x =
      (raw x + ((if 0 < D ∧ D ≤ x then specUnfiltered 3 D prev raw (x - D)
        else 0) + prev x) / 2) % 256 := by
  rw [specUnfiltered]
  norm_num

theorem specUnfiltered_four (D : ℕ) (prev raw : ℕ → ℕ) (x : ℕ) :
    specUnfiltered 4 D prev raw x =
      (raw x + (paethPredictor
        (if 0 < D ∧ D ≤ x then specUnfiltered 4 D prev raw (x - D) else 0)
        (prev x)
        (if 0 < D ∧ D ≤ x then prev (x - D) else 0)).toNat) % 256 := by
  rw [specUnfiltered]
  norm_num

theorem unFilterType1_spec (xcomp bw : ℕ) (hxc : 0 < xcomp)
    (rawData : List ℕ) (prev : ℕ → ℕ) :
    ∀ x, x < bw → (unFilterType1 xcomp rawData bw).getD x 0 =
      specUnfiltered 1 xcomp prev (fun i => rawData.getD (1 + i) 0) x := by
  intro x
  induction x using Nat.strong_induction_on with
  | _ x ih =>
    intro hx
    unfold unFilterType1
    rw [buildLine_getD_eq_step _ hx, specUnfiltered_one]
    simp only []
    by_cases hcond : 0 < xcomp ∧ xcomp ≤ x
    · have hc2 : (x : Int) > (xcomp : Int) - 1 := by omega
      rw [if_pos hc2, if_pos hcond,
        (buildLine_getD_stable _ (show x - xcomp < x by omega)
          (show x ≤ bw by omega)).symm]
      rw [← unFilterType1, ih (x - xcomp) (by omega) (by omega)]
    · have hc2 : ¬((x : Int) > (xcomp : Int) - 1) := by omega
      rw [if_neg hc2, if_neg hcond]

theorem unFilterType2_spec (D bw : ℕ) (lastLine : Option (List ℕ))
    (rawData : List ℕ) :
    ∀ x, x < bw → (unFilterType2 lastLine rawData bw).getD x 0 =
      specUnfiltered 2 D (prevAt lastLine) (fun i => rawData.getD (1 + i) 0) x := by
  intro x hx
  unfold unFilterType2
  rw [buildLine_getD_eq_step _ hx, specUnfiltered_two]

theorem unFilterType3_spec (xcomp bw : ℕ) (hxc : 0 < xcomp)
    (lastLine : Option (List ℕ)) (rawData : List ℕ) :
    ∀ x, x < bw → (unFilterType3 xcomp lastLine rawData bw).getD x 0 =
      specUnfiltered 3 xcomp (prevAt lastLine)
        (fun i => rawData.getD (1 + i) 0) x := by
  intro x
  induction x using Nat.strong_induction_on with
  | _ x ih =>
    intro hx
    unfold unFilterType3
    rw [buildLine_getD_eq_step _ hx, specUnfiltered_three]
    simp only []
    by_cases hcond : 0 < xcomp ∧ xcomp ≤ x
    · have hc2 : (x : Int) > (xcomp : Int) - 1 := by omega
      rw [if_pos hc2, if_pos hcond,
        (buildLine_getD_stable _ (show x - xcomp < x by omega)
          (show x ≤ bw by omega)).symm]
      rw [← unFilterType3, ih (x - xcomp) (by omega) (by omega)]
    · have hc2 : ¬((x : Int) > (xcomp : Int) - 1) := by omega
      rw [if_neg hc2, if_neg hcond]

theorem unFilterType4_spec (xcomp bw : ℕ) (hxc : 0 < xcomp)
    (lastLine : Option (List ℕ)) (rawData : List ℕ) :
    ∀ x, x < bw → (unFilterType4 xcomp lastLine rawData bw).getD x 0 =
      specUnfiltered 4 xcomp (prevAt lastLine)
        (fun i => rawData.getD (1 + i) 0) x := by
  intro x
  induction x using Nat.strong_induction_on with
  | _ x ih =>
    intro hx
    unfold unFilterType4
    rw [buildLine_getD_eq_step _ hx, specUnfiltered_four]
    simp only []
    by_cases hcond : 0 < xcomp ∧ xcomp ≤ x
    · have hc2 : (x : Int) > (xcomp : Int) - 1 := by omega
      rw [if_pos hc2, if_pos hcond, if_pos hcond,
        (buildLine_getD_stable _ (show x - xcomp < x by omega)
          (show x ≤ bw by omega)).symm]
      rw [← unFilterType4, ih (x - xcomp) (by omega) (by omega)]
      cases lastLine with
      | some l => rw [if_pos ⟨hc2, rfl⟩]
      | none =>
        rw [if_neg (by simp)]
        simp [prevAt]
    · have hc2 : ¬((x : Int) > (xcomp : Int) - 1) := by omega
      rw [if_neg hc2, if_neg hcond, if_neg hcond,
        if_neg (fun h => hc2 h.1)]
      norm_num

theorem getD_lt_256 (l : List ℕ) (hb : ∀ b ∈ l, b < 256) (i : ℕ) :
    l.getD i 0 < 256 := by
  by_cases h : i < l.length
  · rw [List.getD_eq_getElem?_getD, List.getElem?_eq_getElem h]
    exact hb _ (List.getElem_mem h)
  · rw [List.getD_eq_getElem?_getD, List.getElem?_eq_none (by omega)]
    simp

theorem reverseFilterLine_spec (xcomp bw : ℕ) (hxc : 0 < xcomp)
    (lastLine : Option (List ℕ)) (rawData : List ℕ)
    (hlen : rawData.length = bw + 1)
    (hbytes : ∀ b ∈ rawData, b < 256)
    (hft : rawData.getD 0 0 ≤ 4) :
    ∃ out, reverseFilterLine xcomp lastLine bw rawData = .ok out ∧
      out.length = bw ∧
      ∀ x < bw, out.getD x 0 =
        specUnfiltered (rawData.getD 0 0) xcomp (prevAt lastLine)
          (fun i => rawData.getD (1 + i) 0) x := by
  have hraw : ∀ i, rawData.getD i 0 < 256 := getD_lt_256 rawData hbytes
  have hf : rawData.getD 0 0 = 0 ∨ rawData.getD 0 0 = 1 ∨
      rawData.getD 0 0 = 2 ∨ rawData.getD 0 0 = 3 ∨ rawData.getD 0 0 = 4 := by
    omega
  rcases hf with hf | hf | hf | hf | hf <;> rw [reverseFilterLine, hf]
  · refine ⟨_, rfl, ?_, ?_⟩
    · simp [hlen]
    · intro x hx
      rw [specUnfiltered_zero, Nat.mod_eq_of_lt (hraw (1 + x))]
      rw [List.getD_eq_getElem?_getD, List.getElem?_take, if_pos hx,
        List.getElem?_drop, List.getD_eq_getElem?_getD]
  · refine ⟨_, (by norm_num : _ = Except.ok (unFilterType1 xcomp rawData bw)), ?_, ?_⟩
    · exact buildLine_length _ bw
    · intro x hx
      exact unFilterType1_spec xcomp bw hxc rawData (prevAt lastLine) x hx
  · refine ⟨_, (by norm_num : _ = Except.ok (unFilterType2 lastLine rawData bw)), ?_, ?_⟩
    · exact buildLine_length _ bw
    · intro x hx
      exact unFilterType2_spec xcomp bw lastLine rawData x hx
  · refine ⟨_, (by norm_num : _ = Except.ok (unFilterType3 xcomp lastLine rawData bw)), ?_, ?_⟩
    · exact buildLine_length _ bw
    · intro x hx
      exact unFilterType3_spec xcomp bw hxc lastLine rawData x hx
  · refine ⟨_, (by norm_num : _ = Except.ok (unFilterType4 xcomp lastLine rawData bw)), ?_, ?_⟩
    · exact buildLine_length _ bw
    · intro x hx
      exact unFilterType4_spec xcomp bw hxc lastLine rawData x hx

/-- C3: the filter engine reverses filter types 0..4 byte-wise modulo 256
per the spec formulas (None/Sub/Up/Average/Paeth with out-of-range
references 0), the byte distance is `bpp` at depth 8, `2·bpp` at depth 16
and 1 below 8, a filter byte outside 0..4 is an error, and every Adam7
pass starts with the previous line reset to none. -/
theorem filter_reverse_correct :
    (∀ xcomp bw lastLine rawData, 0 < xcomp →
      rawData.length = bw + 1 → (∀ b ∈ rawData, b < 256) →
      rawData.getD 0 0 ≤ 4 →
      ∃ out, reverseFilterLine xcomp lastLine bw rawData = .ok out ∧
        out.length = bw ∧
        ∀ x < bw, out.getD x 0 =
          specUnfiltered (rawData.getD 0 0) xcomp (prevAt lastLine)
            (fun i => rawData.getD (1 + i) 0) x) ∧
    (∀ xcomp bw lastLine rawData, 5 ≤ rawData.getD 0 0 →
      ∃ e, reverseFilterLine xcomp lastLine bw rawData = Except.error e) ∧
    (∀ bpp, xComparison bpp 8 = bpp ∧ xComparison bpp 16 = bpp * 2 ∧
      ∀ d < 8, xComparison bpp d = 1) ∧
    (∀ xcomp bw h rest input,
      filterRun xcomp ((bw, h) :: rest) input =
        match runLines xcomp bw h none input with
        | .error e => .error e
        | .ok (lines, rem) =>
          match filterRun xcomp rest rem with
          | .error e => .error e
          | .ok (lines2, rem2) => .ok (lines ++ lines2, rem2)) := by
  refine ⟨?_, ?_, ?_, ?_⟩
  · intro xcomp bw lastLine rawData hxc hlen hbytes hft
    exact reverseFilterLine_spec xcomp bw hxc lastLine rawData hlen hbytes hft
  · intro xcomp bw lastLine rawData hge
    refine ⟨"Unrecognized filter type - " ++ toString (rawData.getD 0 0), ?_⟩
    rw [reverseFilterLine]
    rw [if_neg (by omega), if_neg (by omega), if_neg (by omega),
      if_neg (by omega), if_neg (by omega)]
  · intro bpp
    refine ⟨rfl, rfl, ?_⟩
    intro d hd
    rw [xComparison, if_neg (by omega), if_neg (by omega)]
  · intro xcomp bw h rest input
    rfl

/-- Witness for `filter_reverse_correct` at a concrete Up-filtered line. -/
theorem filter_reverse_correct_witness :
    (0 < 1 ∧ ([2, 10, 20, 30] : List ℕ).length = 3 + 1 ∧
      (∀ b ∈ ([2, 10, 20, 30] : List ℕ), b < 256) ∧
      ([2, 10, 20, 30] : List ℕ).getD 0 0 ≤ 4) ∧
    (∃ out, reverseFilterLine 1 (some [5, 6, 7]) 3 [2, 10, 20, 30] = .ok out ∧
      out.length = 3 ∧
      ∀ x < 3, out.getD x 0 =
        specUnfiltered (([2, 10, 20, 30] : List ℕ).getD 0 0) 1
          (prevAt (some [5, 6, 7]))
          (fun i => ([2, 10, 20, 30] : List ℕ).getD (1 + i) 0) x) :=
  ⟨⟨by decide, by decide, by decide, by decide⟩,
    filter_reverse_correct.1 1 3 (some [5, 6, 7]) [2, 10, 20, 30]
      (by decide) (by decide) (by decide) (by decide)⟩

/-! ### Forward-filter lemmas -/

theorem filterRowAt_length (sel : Int) (pxData : List ℕ)
    (pxPos bw bpp : ℕ) (row : List ℕ)
    (h : filterRowAt sel pxData pxPos bw bpp = some row) : row.length = bw := by
  unfold filterRowAt at h
  split_ifs at h <;> · obtain rfl := Option.some_inj.mp h; simp [filterNoneRow,
    filterSubRow, filterUpRow, filterAvgRow, filterPaethRow]

theorem selectMinFilter_adaptive (pxData : List ℕ) (pxPos bw bpp : ℕ) :
    ∃ sel : Int, selectMinFilter pxData pxPos bw bpp [0, 1, 2, 3, 4] 0 = .ok sel ∧
      sel ∈ ([0, 1, 2, 3, 4] : List Int) ∧
      ∀ ft ∈ ([0, 1, 2, 3, 4] : List Int),
        (filterSumAt sel pxData pxPos bw bpp).getD 0 <
            (filterSumAt ft pxData pxPos bw bpp).getD 0 ∨
          ((filterSumAt sel pxData pxPos bw bpp).getD 0 =
            (filterSumAt ft pxData pxPos bw bpp).getD 0 ∧ sel ≤ ft) := by
  have e0 : filterSumAt 0 pxData pxPos bw bpp =
      some (filterSumNone pxData pxPos bw) := rfl
  have e1 : filterSumAt 1 pxData pxPos bw bpp =
      some (filterSumSub pxData pxPos bw bpp) := rfl
  have e2 : filterSumAt 2 pxData pxPos bw bpp =
      some (filterSumUp pxData pxPos bw) := rfl
  have e3 : filterSumAt 3 pxData pxPos bw bpp =
      some (filterSumAvg pxData pxPos bw bpp) := rfl
  have e4 : filterSumAt 4 pxData pxPos bw bpp =
      some (filterSumPaeth pxData pxPos bw bpp) := rfl
  simp only [selectMinFilter, List.foldlM, e0, e1, e2, e3, e4, pure_bind]
  iterate 4
    all_goals try split_ifs with h
    all_goals simp only [pure_bind]
  all_goals refine ⟨_, rfl, by decide, ?_⟩
  all_goals intro ft hft
  all_goals fin_cases hft
  all_goals simp only [e0, e1, e2, e3, e4, Option.getD_some]
  all_goals norm_num
  all_goals omega

theorem mapM_rows_ok (f : ℕ → Except String (List ℕ)) :
    ∀ l : List ℕ, (∀ a ∈ l, ∃ b, f a = .ok b) →
    ∃ bs, l.mapM f = .ok bs ∧ bs.length = l.length ∧
      ∀ i < l.length, ∃ b, f (l.getD i 0) = .ok b ∧ bs.getD i [] = b := by
  intro l
  induction l with
  | nil => intro _; exact ⟨[], rfl, rfl, by simp⟩
  | cons a as ih =>
    intro h
    obtain ⟨b, hb⟩ := h a (by simp)
    obtain ⟨bs, hbs, hlen, hidx⟩ := ih fun x hx => h x (by simp [hx])
    refine ⟨b :: bs, ?_, by simp [hlen], ?_⟩
    · rw [List.mapM_cons, hb, hbs]
      rfl
    · intro i hi
      match i with
      | 0 => exact ⟨b, hb, rfl⟩
      | i + 1 => exact hidx i (by simpa using hi)

theorem flatten_length_const (k : ℕ) :
    ∀ bs : List (List ℕ), (∀ r ∈ bs, r.length = k) →
      bs.flatten.length = k * bs.length := by
  intro bs
  induction bs with
  | nil => simp
  | cons r rs ih =>
    intro h
    simp only [List.flatten_cons, List.length_append, List.length_cons,
      h r (by simp), ih fun x hx => h x (by simp [hx])]
    ring

theorem range_getD (n i : ℕ) (h : i < n) : (List.range n).getD i 0 = i := by
  rw [List.getD_eq_getElem?_getD,
    List.getElem?_eq_getElem (by simpa using h)]
  simp

theorem packFilterRow_adaptive (pxData : List ℕ) (bw bpp y : ℕ) :
    ∃ (sel : Int) (row : List ℕ),
      packFilterRow pxData bw bpp [0, 1, 2, 3, 4] y = .ok (byteVal sel :: row) ∧
      filterRowAt sel pxData (y * bw) bw bpp = some row ∧
      row.length = bw ∧
      sel ∈ ([0, 1, 2, 3, 4] : List Int) ∧
      ∀ ft ∈ ([0, 1, 2, 3, 4] : List Int),
        (filterSumAt sel pxData (y * bw) bw bpp).getD 0 <
            (filterSumAt ft pxData (y * bw) bw bpp).getD 0 ∨
          ((filterSumAt sel pxData (y * bw) bw bpp).getD 0 =
            (filterSumAt ft pxData (y * bw) bw bpp).getD 0 ∧ sel ≤ ft) := by
  obtain ⟨sel, hsel, hmem, hmin⟩ := selectMinFilter_adaptive pxData (y * bw) bw bpp
  have hrow : ∃ row, filterRowAt sel pxData (y * bw) bw bpp = some row := by
    fin_cases hmem <;> exact ⟨_, rfl⟩
  obtain ⟨row, hrow⟩ := hrow
  refine ⟨sel, row, ?_, hrow, filterRowAt_length _ _ _ _ _ _ hrow, hmem, hmin⟩
  have hsel' : selectMinFilter pxData (y * bw) bw bpp [0, 1, 2, 3, 4]
      (([0, 1, 2, 3, 4] : List Int).headD 0) = Except.ok sel := hsel
  unfold packFilterRow
  rw [if_pos (by decide), hsel']
  show (match filterRowAt sel pxData (y * bw) bw bpp with
    | none => Except.error "Unrecognized filter types"
    | some row => pure (byteVal sel :: row)) = _
  rw [hrow]
  rfl

theorem packFilterRow_fixed (pxData : List ℕ) (bw bpp y : ℕ) (k : Int)
    (hk0 : 0 ≤ k) (hk4 : k ≤ 4) :
    ∃ row : List ℕ,
      packFilterRow pxData bw bpp [k] y = .ok (byteVal k :: row) ∧
      filterRowAt k pxData (y * bw) bw bpp = some row ∧
      row.length = bw := by
  have hrow : ∃ row, filterRowAt k pxData (y * bw) bw bpp = some row := by
    have hc : k = 0 ∨ k = 1 ∨ k = 2 ∨ k = 3 ∨ k = 4 := by omega
    unfold filterRowAt
    rcases hc with rfl | rfl | rfl | rfl | rfl <;> exact ⟨_, rfl⟩
  obtain ⟨row, hrow⟩ := hrow
  refine ⟨row, ?_, hrow, filterRowAt_length _ _ _ _ _ _ hrow⟩
  unfold packFilterRow
  rw [if_neg (by simp)]
  show (match filterRowAt k pxData (y * bw) bw bpp with
    | none => Except.error "Unrecognized filter types"
    | some row => pure (byteVal k :: row)) = _
  rw [hrow]
  rfl

/-- C5 counterexample: with adaptive selection (filterType −1) on the
single row `[200, 44, 200]` (width 3, height 1, bpp 1, depth 8) the
encoder emits filter type 3, whose sum of `|signed byte|` over the
filtered output bytes is 190, while filter 0 achieves 156 — so the
selected filter does not minimise the claimed signed-byte metric. -/
theorem packFilter_signed_byte_counterexample :
    packFilter [200, 44, 200] 3 1 (some (.inl (-1))) 8 1 =
      Except.ok [3, 200, 200, 178] ∧
    specSignedSum 3 [200, 44, 200] 0 3 1 = some 190 ∧
    specSignedSum 0 [200, 44, 200] 0 3 1 = some 156 ∧
    (156 : ℕ) < 190 := by
  refine ⟨rfl, rfl, rfl, by decide⟩

/-- C5 amended: with filterType −1 the encoder selects, per scanline, the
first filter among 0..4 minimising the sum of the absolute values of the
untruncated signed filter outputs (`filterSumAt`, before the byte
truncation); a fixed filter in 0..4 is applied unchanged; the output is
`(byteWidth+1)·height` bytes, each row one filter-type byte followed by
the filtered bytes, with `byteWidth = width·bpp` doubled at depth 16. -/
theorem packFilter_corrected (pxData : List ℕ)
    (width height bpp₀ bitDepth bpp bw : ℕ)
    (hbpp : bpp = if bitDepth = 16 then bpp₀ * 2 else bpp₀)
    (hbw : bw = width * bpp) :
    (∃ rows,
      (List.range height).mapM (packFilterRow pxData bw bpp [0, 1, 2, 3, 4]) =
        .ok rows ∧
      packFilter pxData width height (some (.inl (-1))) bitDepth bpp₀ =
        .ok rows.flatten ∧
      rows.length = height ∧
      rows.flatten.length = (bw + 1) * height ∧
      ∀ y < height, ∃ (sel : Int) (row : List ℕ),
        rows.getD y [] = byteVal sel :: row ∧
        filterRowAt sel pxData (y * bw) bw bpp = some row ∧
        row.length = bw ∧
        sel ∈ ([0, 1, 2, 3, 4] : List Int) ∧
        ∀ ft ∈ ([0, 1, 2, 3, 4] : List Int),
          (filterSumAt sel pxData (y * bw) bw bpp).getD 0 <
              (filterSumAt ft pxData (y * bw) bw bpp).getD 0 ∨
            ((filterSumAt sel pxData (y * bw) bw bpp).getD 0 =
              (filterSumAt ft pxData (y * bw) bw bpp).getD 0 ∧ sel ≤ ft)) ∧
    ∀ k : Int, 0 ≤ k → k ≤ 4 →
      ∃ rows,
        (List.range height).mapM (packFilterRow pxData bw bpp [k]) = .ok rows ∧
        packFilter pxData width height (some (.inl k)) bitDepth bpp₀ =
          .ok rows.flatten ∧
        rows.length = height ∧
        rows.flatten.length = (bw + 1) * height ∧
        ∀ y < height, ∃ row : List ℕ,
          rows.getD y [] = byteVal k :: row ∧
          filterRowAt k pxData (y * bw) bw bpp = some row ∧
          row.length = bw := by
  subst hbw
  subst hbpp
  constructor
  · obtain ⟨rows, hrows, hlen, hidx⟩ :=
      mapM_rows_ok _ (List.range height) fun y _ => by
        obtain ⟨sel, row, h, -⟩ := packFilterRow_adaptive pxData
          (width * if bitDepth = 16 then bpp₀ * 2 else bpp₀)
          (if bitDepth = 16 then bpp₀ * 2 else bpp₀) y
        exact ⟨_, h⟩
    have hrowlen : ∀ r ∈ rows,
        r.length = width * (if bitDepth = 16 then bpp₀ * 2 else bpp₀) + 1 := by
      intro r hr
      obtain ⟨i, hi, rfl⟩ := List.getElem_of_mem hr
      have hi' : i < height := by
        rw [hlen, List.length_range] at hi
        exact hi
      obtain ⟨b, hfb, hb⟩ := hidx i (by simpa using hi')
      rw [range_getD _ _ hi'] at hfb
      obtain ⟨sel, row, hpf, _, hrl, -⟩ := packFilterRow_adaptive pxData
        (width * if bitDepth = 16 then bpp₀ * 2 else bpp₀)
        (if bitDepth = 16 then bpp₀ * 2 else bpp₀) i
      have hbeq : b = byteVal sel :: row := Except.ok.inj (hfb.symm.trans hpf)
      have : rows.getD i [] = rows[i] := by
        rw [List.getD_eq_getElem?_getD, List.getElem?_eq_getElem hi]
        rfl
      rw [← this, hb, hbeq]
      simp [hrl]
    refine ⟨rows, hrows, ?_, by rw [hlen]; simp, ?_, ?_⟩
    · have hpf : packFilter pxData width height (some (.inl (-1))) bitDepth bpp₀ =
          match (List.range height).mapM (packFilterRow pxData
            (width * if bitDepth = 16 then bpp₀ * 2 else bpp₀)
            (if bitDepth = 16 then bpp₀ * 2 else bpp₀) [0, 1, 2, 3, 4]) with
          | .error e => .error e
          | .ok rows => .ok rows.flatten := rfl
      rw [hpf, hrows]
    · rw [flatten_length_const _ rows hrowlen, hlen, List.length_range]
    · intro y hy
      obtain ⟨b, hfb, hb⟩ := hidx y (by simpa using hy)
      rw [range_getD _ _ hy] at hfb
      obtain ⟨sel, row, hpf, hrowat, hrl, hm, hmin⟩ := packFilterRow_adaptive
        pxData (width * if bitDepth = 16 then bpp₀ * 2 else bpp₀)
        (if bitDepth = 16 then bpp₀ * 2 else bpp₀) y
      have hbeq : b = byteVal sel :: row := Except.ok.inj (hfb.symm.trans hpf)
      exact ⟨sel, row, by rw [hb, hbeq], hrowat, hrl, hm, hmin⟩
  · intro k hk0 hk4
    obtain ⟨rows, hrows, hlen, hidx⟩ :=
      mapM_rows_ok _ (List.range height) fun y _ => by
        obtain ⟨row, h, -⟩ := packFilterRow_fixed pxData
          (width * if bitDepth = 16 then bpp₀ * 2 else bpp₀)
          (if bitDepth = 16 then bpp₀ * 2 else bpp₀) y k hk0 hk4
        exact ⟨_, h⟩
    have hrowlen : ∀ r ∈ rows,
        r.length = width * (if bitDepth = 16 then bpp₀ * 2 else bpp₀) + 1 := by
      intro r hr
      obtain ⟨i, hi, rfl⟩ := List.getElem_of_mem hr
      have hi' : i < height := by
        rw [hlen, List.length_range] at hi
        exact hi
      obtain ⟨b, hfb, hb⟩ := hidx i (by simpa using hi')
      rw [range_getD _ _ hi'] at hfb
      obtain ⟨row, hpf, _, hrl⟩ := packFilterRow_fixed pxData
        (width * if bitDepth = 16 then bpp₀ * 2 else bpp₀)
        (if bitDepth = 16 then bpp₀ * 2 else bpp₀) i k hk0 hk4
      have hbeq : b = byteVal k :: row := Except.ok.inj (hfb.symm.trans hpf)
      have : rows.getD i [] = rows[i] := by
        rw [List.getD_eq_getElem?_getD, List.getElem?_eq_getElem hi]
        rfl
      rw [← this, hb, hbeq]
      simp [hrl]
    have hres : resolveFilterTypes (some (.inl k)) = [k] := by
      simp only [resolveFilterTypes]
      rw [if_neg (show ¬(k = (-1 : Int)) by omega)]
    refine ⟨rows, hrows, ?_, by rw [hlen]; simp, ?_, ?_⟩
    · have hpf : packFilter pxData width height (some (.inl k)) bitDepth bpp₀ =
          match (List.range height).mapM (packFilterRow pxData
            (width * if bitDepth = 16 then bpp₀ * 2 else bpp₀)
            (if bitDepth = 16 then bpp₀ * 2 else bpp₀)
            (resolveFilterTypes (some (.inl k)))) with
          | .error e => .error e
          | .ok rows => .ok rows.flatten := rfl
      rw [hpf, hres, hrows]
    · rw [flatten_length_const _ rows hrowlen, hlen, List.length_range]
    · intro y hy
      obtain ⟨b, hfb, hb⟩ := hidx y (by simpa using hy)
      rw [range_getD _ _ hy] at hfb
      obtain ⟨row, hpf, hrowat, hrl⟩ := packFilterRow_fixed pxData
        (width * if bitDepth = 16 then bpp₀ * 2 else bpp₀)
        (if bitDepth = 16 then bpp₀ * 2 else bpp₀) y k hk0 hk4
      have hbeq : b = byteVal k :: row := Except.ok.inj (hfb.symm.trans hpf)
      exact ⟨row, by rw [hb, hbeq], hrowat, hrl⟩

/-- Witness for `packFilter_corrected` at concrete sizes. -/
theorem packFilter_corrected_witness :
    ((2 : ℕ) = (if (8 : ℕ) = 16 then 2 * 2 else 2) ∧
      (6 : ℕ) = 3 * 2) ∧
    ((∃ rows,
      (List.range 2).mapM (packFilterRow [1, 2, 3, 4, 5, 6, 7, 8, 9, 10, 11, 12]
        6 2 [0, 1, 2, 3, 4]) = .ok rows ∧
      packFilter [1, 2, 3, 4, 5, 6, 7, 8, 9, 10, 11, 12] 3 2
          (some (.inl (-1))) 8 2 = .ok rows.flatten ∧
      rows.length = 2 ∧
      rows.flatten.length = (6 + 1) * 2 ∧
      ∀ y < 2, ∃ (sel : Int) (row : List ℕ),
        rows.getD y [] = byteVal sel :: row ∧
        filterRowAt sel [1, 2, 3, 4, 5, 6, 7, 8, 9, 10, 11, 12] (y * 6) 6 2 =
          some row ∧
        row.length = 6 ∧
        sel ∈ ([0, 1, 2, 3, 4] : List Int) ∧
        ∀ ft ∈ ([0, 1, 2, 3, 4] : List Int),
          (filterSumAt sel [1, 2, 3, 4, 5, 6, 7, 8, 9, 10, 11, 12]
              (y * 6) 6 2).getD 0 <
              (filterSumAt ft [1, 2, 3, 4, 5, 6, 7, 8, 9, 10, 11, 12]
                (y * 6) 6 2).getD 0 ∨
            ((filterSumAt sel [1, 2, 3, 4, 5, 6, 7, 8, 9, 10, 11, 12]
                (y * 6) 6 2).getD 0 =
              (filterSumAt ft [1, 2, 3, 4, 5, 6, 7, 8, 9, 10, 11, 12]
                (y * 6) 6 2).getD 0 ∧ sel ≤ ft)) ∧
    ∀ k : Int, 0 ≤ k → k ≤ 4 →
      ∃ rows,
        (List.range 2).mapM (packFilterRow [1, 2, 3, 4, 5, 6, 7, 8, 9, 10, 11, 12]
          6 2 [k]) = .ok rows ∧
        packFilter [1, 2, 3, 4, 5, 6, 7, 8, 9, 10, 11, 12] 3 2
            (some (.inl k)) 8 2 = .ok rows.flatten ∧
        rows.length = 2 ∧
        rows.flatten.length = (6 + 1) * 2 ∧
        ∀ y < 2, ∃ row : List ℕ,
          rows.getD y [] = byteVal k :: row ∧
          filterRowAt k [1, 2, 3, 4, 5, 6, 7, 8, 9, 10, 11, 12] (y * 6) 6 2 =
            some row ∧
          row.length = 6) :=
  ⟨⟨by decide, by decide⟩,
    packFilter_corrected [1, 2, 3, 4, 5, 6, 7, 8, 9, 10, 11, 12] 3 2 2 8 2 6
      (by decide) (by decide)⟩

theorem nat_div8_ceil (n : ℕ) : (((n + 7) / 8 : ℕ) : ℤ) = ⌈(n : ℚ) / 8⌉ := by
  have h1 : 8 * ((n + 7) / 8) ≤ n + 7 := by omega
  have h2 : n ≤ 8 * ((n + 7) / 8) := by omega
  generalize hz : (n + 7) / 8 = z at h1 h2 ⊢
  have hq1 : (8 * z : ℚ) ≤ n + 7 := by exact_mod_cast h1
  have hq2 : (n : ℚ) ≤ 8 * z := by exact_mod_cast h2
  rw [eq_comm, Int.ceil_eq_iff]
  constructor
  · rw [lt_div_iff₀ (by norm_num : (0 : ℚ) < 8)]
    push_cast
    linarith
  · rw [div_le_iff₀ (by norm_num : (0 : ℚ) < 8)]
    push_cast
    linarith

/-- C8: on the non-interlaced path `parseSync` caps the inflate at
`imageSize = (ceil(width·bpp·depth/8) + 1)·height` (its
`((width·bpp·depth + 7) >> 3) + 1` row size times the height): whenever
the first chunk the zlib engine hands over carries at least `imageSize`
bytes — the engine's output buffer is sized to hold `imageSize`, so a
well-formed stream fills it in one chunk — the result is exactly the
first `imageSize` bytes, whatever events (later output, or an error such
as zlib's trailing-garbage complaint) follow: decode consumes exactly
`imageSize` inflated bytes and later inflate errors are suppressed. -/
theorem inflate_truncation (width height bpp depth : ℕ) (c : List ℕ)
    (rest : List InflEvent)
    (hc : ((width * bpp * depth + 7) / 8 + 1) * height ≤ c.length) :
    inflateSyncModel (InflEvent.data c :: rest)
        (((width * bpp * depth + 7) / 8 + 1) * height) =
      .ok (c.take (((width * bpp * depth + 7) / 8 + 1) * height)) ∧
    (c.take (((width * bpp * depth + 7) / 8 + 1) * height)).length =
      ((width * bpp * depth + 7) / 8 + 1) * height ∧
    ((((width * bpp * depth + 7) / 8 + 1) * height : ℕ) : ℤ) =
      (⌈(width * bpp * depth : ℚ) / 8⌉ + 1) * (height : ℤ) := by
  set M := ((width * bpp * depth + 7) / 8 + 1) * height with hM
  refine ⟨?_, ?_, ?_⟩
  · simp only [inflateSyncModel, processChunkModel]
    by_cases hgt : c.length > M
    · rw [if_pos hgt]
      have hlen : (c.take M).length = M := by
        simp [List.length_take]
        omega
      rw [hlen]
      simp
    · rw [if_neg hgt]
      have hce : c.length = M := by omega
      have hct : c.take M = c := by
        rw [List.take_of_length_le (by omega)]
      rw [hct]
      simp [hce]
  · simp [List.length_take]
    omega
  · have key := nat_div8_ceil (width * bpp * depth)
    have hcast : ((width * bpp * depth : ℕ) : ℚ) = (width : ℚ) * bpp * depth := by
      push_cast
      ring
    rw [hM, Nat.cast_mul, Nat.cast_add, Nat.cast_one, ← hcast, ← key]

/-- A 1×1 RGBA-depth-8 instance of the truncation: `imageSize = 5`, the
engine hands 7 bytes and then an error event; the error is suppressed and
the output is the first 5 bytes. -/
theorem inflate_truncation_witness :
    ((1 * 4 * 8 + 7) / 8 + 1) * 1 ≤ ([0, 1, 2, 3, 4, 9, 9] : List ℕ).length ∧
    inflateSyncModel
        (InflEvent.data [0, 1, 2, 3, 4, 9, 9] ::
          [InflEvent.fail "unexpected end of file"])
        (((1 * 4 * 8 + 7) / 8 + 1) * 1) = .ok [0, 1, 2, 3, 4] :=
  ⟨by decide,
    (inflate_truncation 1 1 4 8 [0, 1, 2, 3, 4, 9, 9]
      [InflEvent.fail "unexpected end of file"] (by decide)).1⟩

theorem toBytes32_length (n : ℕ) : (toBytes32 n).length = 4 := rfl

theorem getD_drop (l : List ℕ) (i j d : ℕ) :
    (l.drop i).getD j d = l.getD (i + j) d := by
  simp [List.getD_eq_getElem?_getD, List.getElem?_drop]

theorem readUInt32BE_toBytes32 (n : ℕ) (hn : n < 2 ^ 32) (l : List ℕ) :
    readUInt32BE (toBytes32 n ++ l) 0 = n := by
  simp only [readUInt32BE, toBytes32, List.cons_append, List.nil_append]
  simp only [List.getD_cons_zero, List.getD_cons_succ]
  omega

theorem readUInt32BE_append_right (l₁ l₂ : List ℕ) (k : ℕ) :
    readUInt32BE (l₁ ++ l₂) (l₁.length + k) = readUInt32BE l₂ k := by
  have h : ∀ j, (l₁ ++ l₂).getD (l₁.length + (k + j)) 0 = l₂.getD (k + j) 0 := by
    intro j
    rw [List.getD_append_right _ _ _ _ (by omega)]
    congr 1
    omega
  have h0 := h 0
  have h1 := h 1
  have h2 := h 2
  have h3 := h 3
  simp only [Nat.add_zero] at h0
  simp only [readUInt32BE]
  rw [show l₁.length + k + 1 = l₁.length + (k + 1) by omega,
    show l₁.length + k + 2 = l₁.length + (k + 2) by omega,
    show l₁.length + k + 3 = l₁.length + (k + 3) by omega, h0, h1, h2, h3]

theorem readUInt32BE_after4 (l₁ l₂ : List ℕ) (h : l₁.length = 4) :
    readUInt32BE (l₁ ++ l₂) 4 = readUInt32BE l₂ 0 := by
  have e := readUInt32BE_append_right l₁ l₂ 0
  rw [h, Nat.add_zero] at e
  exact e

theorem readUInt32BE_name (a b c d : ℕ) (X : List ℕ) :
    readUInt32BE (a :: b :: c :: d :: X) 0 =
      a * 2 ^ 24 + b * 2 ^ 16 + c * 2 ^ 8 + d := rfl

set_option maxRecDepth 10000 in
/-- C4 counterexample: a PNG whose unknown ancillary chunk `tEXt` (body
`[65]`) stores the CRC bytes `[0, 0, 0, 0]` although the CRC-32 of its
type plus body is nonzero still decodes successfully with CRC checking
enabled (the default): `_skipChunk` consumes the body and stored CRC of
an unknown ancillary chunk without verifying it.  The stream is a valid
1×1 grayscale PNG around the corrupt chunk, and the zlib collaborator
returns the two inflated bytes `[0, 7]` (filter 0, gray 7). -/
theorem crc_ancillary_skipped_counterexample :
    crc32 [116, 69, 88, 116, 65] ≠ readUInt32BE [0, 0, 0, 0] 0 ∧
    parseSync (fun _ => [InflEvent.data [0, 7]])
      [137, 80, 78, 71, 13, 10, 26, 10,
        0, 0, 0, 13, 73, 72, 68, 82, 0, 0, 0, 1, 0, 0, 0, 1, 8, 0, 0, 0, 0,
          58, 126, 155, 85,
        0, 0, 0, 1, 116, 69, 88, 116, 65, 0, 0, 0, 0,
        0, 0, 0, 1, 73, 68, 65, 84, 9, 81, 228, 197, 76,
        0, 0, 0, 0, 73, 69, 78, 68, 174, 66, 96, 130]
      true false =
    .ok { width := 1, height := 1, depth := 8, bpp := 1, colorType := 0,
          interlace := false, color := false, alpha := false,
          palette := none, transColor := none,
          data := [7, 7, 7, 255], gamma := 0 } :=
  ⟨by decide, rfl⟩


set_option maxRecDepth 10000 in
/-- C6 counterexample: an IHDR chunk whose declared length is 14 — body
`[0,0,0,1, 0,0,0,1, 8,0,0,0,0, 99]`, one byte more than the 13 the spec
demands — is accepted: `_parseIHDR` reads the fields from the first 13
bytes and never checks the chunk length, and the full 1×1 grayscale
decode succeeds (stored CRCs are correct, so CRC checking passes). -/
theorem ihdr_extra_bytes_counterexample :
    ([0, 0, 0, 1, 0, 0, 0, 1, 8, 0, 0, 0, 0, 99] : List ℕ).length ≠ 13 ∧
    parseSync (fun _ => [InflEvent.data [0, 7]])
      [137, 80, 78, 71, 13, 10, 26, 10,
        0, 0, 0, 14, 73, 72, 68, 82, 0, 0, 0, 1, 0, 0, 0, 1, 8, 0, 0, 0, 0,
          99, 29, 130, 4, 143,
        0, 0, 0, 1, 73, 68, 65, 84, 9, 81, 228, 197, 76,
        0, 0, 0, 0, 73, 69, 78, 68, 174, 66, 96, 130]
      true false =
    .ok { width := 1, height := 1, depth := 8, bpp := 1, colorType := 0,
          interlace := false, color := false, alpha := false,
          palette := none, transColor := none,
          data := [7, 7, 7, 255], gamma := 0 } :=
  ⟨by decide, rfl⟩

/-- C6 amended: `_parseIHDR` validates the fields only — bit depth in
`{1,2,4,8,16}`, color type a key of the bpp map, compression 0, filter 0,
interlace in `{0,1}` — emitting the metadata (bpp derived from the color
type) when they pass and an error when one fails; the "exactly 13 bytes"
requirement is not checked: bytes past the 13th are ignored. -/
theorem parseIHDR_corrected (st : PState) (data extra : List ℕ)
    (h13 : data.length = 13) :
    parseIHDR st (data ++ extra) = parseIHDR st data ∧
    (((data.getD 8 0 = 1 ∨ data.getD 8 0 = 2 ∨ data.getD 8 0 = 4 ∨
        data.getD 8 0 = 8 ∨ data.getD 8 0 = 16) ∧
      (bppOf (data.getD 9 0)).isSome ∧ data.getD 10 0 = 0 ∧
      data.getD 11 0 = 0 ∧
      (data.getD 12 0 = 0 ∨ data.getD 12 0 = 1)) →
      parseIHDR st data = .ok { st with
        colorType := data.getD 9 0
        hasIHDR := true
        metaData := some {
          width := readUInt32BE data 0
          height := readUInt32BE data 4
          depth := data.getD 8 0
          interlace := data.getD 12 0 ≠ 0
          palette := data.getD 9 0 &&& 1 ≠ 0
          color := data.getD 9 0 &&& 2 ≠ 0
          alpha := data.getD 9 0 &&& 4 ≠ 0
          bpp := (bppOf (data.getD 9 0)).getD 0
          colorType := data.getD 9 0 } }) ∧
    (¬((data.getD 8 0 = 1 ∨ data.getD 8 0 = 2 ∨ data.getD 8 0 = 4 ∨
        data.getD 8 0 = 8 ∨ data.getD 8 0 = 16) ∧
      (bppOf (data.getD 9 0)).isSome ∧ data.getD 10 0 = 0 ∧
      data.getD 11 0 = 0 ∧
      (data.getD 12 0 = 0 ∨ data.getD 12 0 = 1)) →
      ∃ e, parseIHDR st data = .error e) := by
  refine ⟨?_, ?_, ?_⟩
  · have hg : ∀ i, i < 13 → (data ++ extra).getD i 0 = data.getD i 0 := by
      intro i hi
      rw [List.getD_append _ _ _ _ (by omega)]
    have hr : ∀ k, k + 3 < 13 →
        readUInt32BE (data ++ extra) k = readUInt32BE data k := by
      intro k hk
      simp only [readUInt32BE]
      rw [hg k (by omega), hg (k + 1) (by omega), hg (k + 2) (by omega),
        hg (k + 3) (by omega)]
    simp only [parseIHDR, hg 8 (by omega), hg 9 (by omega), hg 10 (by omega),
      hg 11 (by omega), hg 12 (by omega), hr 0 (by omega), hr 4 (by omega)]
  · rintro ⟨hd, hb, hc, hf, hi⟩
    have hbn : ¬(bppOf (data.getD 9 0)).isNone = true := by
      rw [Option.isNone_iff_eq_none]
      exact Option.isSome_iff_ne_none.mp hb
    simp only [parseIHDR]
    rw [if_neg (by tauto), if_neg hbn, if_neg (by omega),
      if_neg (by omega), if_neg (by tauto)]
  · intro hnot
    by_cases hd : (data.getD 8 0 = 1 ∨ data.getD 8 0 = 2 ∨ data.getD 8 0 = 4 ∨
        data.getD 8 0 = 8 ∨ data.getD 8 0 = 16)
    case neg =>
      refine ⟨"Unsupported bit depth " ++ toString (data.getD 8 0), ?_⟩
      simp only [parseIHDR]
      rw [if_pos (by tauto)]
    by_cases hb : (bppOf (data.getD 9 0)).isSome
    case neg =>
      have hbn : (bppOf (data.getD 9 0)).isNone = true := by
        rw [Option.isNone_iff_eq_none]
        exact Option.not_isSome_iff_eq_none.mp hb
      refine ⟨"Unsupported color type", ?_⟩
      simp only [parseIHDR]
      rw [if_neg (by tauto), if_pos hbn]
    have hbn : ¬(bppOf (data.getD 9 0)).isNone = true := by
      rw [Option.isNone_iff_eq_none]
      exact Option.isSome_iff_ne_none.mp hb
    by_cases hc : data.getD 10 0 = 0
    case neg =>
      refine ⟨"Unsupported compression method", ?_⟩
      simp only [parseIHDR]
      rw [if_neg (by tauto), if_neg hbn, if_pos hc]
    by_cases hf : data.getD 11 0 = 0
    case neg =>
      refine ⟨"Unsupported filter method", ?_⟩
      simp only [parseIHDR]
      rw [if_neg (by tauto), if_neg hbn, if_neg (by omega), if_pos hf]
    by_cases hi : (data.getD 12 0 = 0 ∨ data.getD 12 0 = 1)
    case neg =>
      refine ⟨"Unsupported interlace method", ?_⟩
      simp only [parseIHDR]
      rw [if_neg (by tauto), if_neg hbn, if_neg (by omega),
        if_neg (by omega), if_pos (by tauto)]
    exact absurd ⟨hd, hb, hc, hf, hi⟩ hnot

set_option maxRecDepth 10000 in
/-- A valid 13-byte IHDR body followed by one stray byte parses exactly
as the 13-byte body alone, and the latter emits the 1×1 grayscale
metadata. -/
theorem parseIHDR_corrected_witness :
    parseIHDR { checkCRC := true }
        ([0, 0, 0, 1, 0, 0, 0, 1, 8, 0, 0, 0, 0] ++ [99]) =
      parseIHDR { checkCRC := true } [0, 0, 0, 1, 0, 0, 0, 1, 8, 0, 0, 0, 0] ∧
    parseIHDR { checkCRC := true } [0, 0, 0, 1, 0, 0, 0, 1, 8, 0, 0, 0, 0] =
      .ok { checkCRC := true
            hasIHDR := true
            colorType := 0
            metaData := some ({ width := 1
                                height := 1
                                depth := 8
                                interlace := false
                                palette := false
                                color := false
                                alpha := false
                                bpp := 1
                                colorType := 0 } : MetaData) } :=
  ⟨(parseIHDR_corrected { checkCRC := true }
      [0, 0, 0, 1, 0, 0, 0, 1, 8, 0, 0, 0, 0] [99] rfl).1,
    (parseIHDR_corrected { checkCRC := true }
      [0, 0, 0, 1, 0, 0, 0, 1, 8, 0, 0, 0, 0] [99] rfl).2.1 (by decide)⟩

theorem getD_map_range (f : ℕ → List ℕ) (n i : ℕ) (hi : i < n) (d : List ℕ) :
    ((List.range n).map f).getD i d = f i := by
  rw [List.getD_eq_getElem?_getD, List.getElem?_map, List.getElem?_range hi]
  rfl

theorem getD_take (l : List ℕ) (k j d : ℕ) (h : j < k) :
    (l.take k).getD j d = l.getD j d := by
  rw [List.getD_eq_getElem?_getD, List.getD_eq_getElem?_getD,
    List.getElem?_take, if_pos h]

set_option maxRecDepth 10000 in
/-- C7 counterexample: a PLTE chunk of length 4 — not divisible by 3 —
is accepted without error: `_parsePLTE` stores `floor(4/3) = 1` entry
`[10, 20, 30, 255]` and ignores the leftover byte, and the full 1×1
paletted decode succeeds (all stored CRCs correct). -/
theorem plte_not_divisible_counterexample :
    ¬(4 % 3 = 0) ∧
    parseSync (fun _ => [InflEvent.data [0, 0]])
      [137, 80, 78, 71, 13, 10, 26, 10,
        0, 0, 0, 13, 73, 72, 68, 82, 0, 0, 0, 1, 0, 0, 0, 1, 8, 3, 0, 0, 0,
          40, 203, 52, 187,
        0, 0, 0, 4, 80, 76, 84, 69, 10, 20, 30, 99, 192, 203, 74, 143,
        0, 0, 0, 1, 73, 68, 65, 84, 9, 81, 228, 197, 76,
        0, 0, 0, 0, 73, 69, 78, 68, 174, 66, 96, 130]
      true false =
    .ok { width := 1, height := 1, depth := 8, bpp := 1, colorType := 3,
          interlace := false, color := true, alpha := false,
          palette := some [[10, 20, 30, 255]], transColor := none,
          data := [10, 20, 30, 255], gamma := 0 } :=
  ⟨by decide, rfl⟩

/-- C7 amended: `_parsePLTE` accepts any chunk length (divisibility by 3
is not required): it stores `floor(length/3)` entries, entry `i` being
the 3-byte group at offset `3i` with alpha 255, ignores the 1–2 leftover
bytes — parsing the truncated body gives the same state — and marks the
palette as present. -/
theorem parsePLTE_corrected (st : PState) (data : List ℕ) :
    (parsePLTE st data).palette.length = st.palette.length + data.length / 3 ∧
    (parsePLTE st data).paletteSet = true ∧
    (∀ i, i < data.length / 3 →
      (parsePLTE st data).palette.getD (st.palette.length + i) [] =
        [data.getD (i * 3) 0, data.getD (i * 3 + 1) 0,
          data.getD (i * 3 + 2) 0, 255]) ∧
    parsePLTE st (data.take (data.length / 3 * 3)) = parsePLTE st data := by
  refine ⟨?_, rfl, ?_, ?_⟩
  · simp [parsePLTE]
  · intro i hi
    simp only [parsePLTE]
    rw [List.getD_append_right _ _ _ _ (by omega)]
    rw [show st.palette.length + i - st.palette.length = i by omega]
    rw [getD_map_range _ _ _ hi]
  · have hk : (data.take (data.length / 3 * 3)).length =
        data.length / 3 * 3 := by
      simp [List.length_take]
      omega
    have hdiv : (data.take (data.length / 3 * 3)).length / 3 =
        data.length / 3 := by
      rw [hk]
      omega
    simp only [parsePLTE, hdiv]
    congr 1
    congr 1
    apply List.map_congr_left
    intro i hi
    rw [List.mem_range] at hi
    rw [getD_take _ _ _ _ (by omega), getD_take _ _ _ _ (by omega),
      getD_take _ _ _ _ (by omega)]

/-- The 4-byte PLTE body `[10, 20, 30, 99]` yields the single entry
`[10, 20, 30, 255]`, and parsing its 3-byte truncation gives the same
state. -/
theorem parsePLTE_corrected_witness :
    (parsePLTE { checkCRC := true } [10, 20, 30, 99]).palette.getD 0 [] =
      [10, 20, 30, 255] ∧
    parsePLTE { checkCRC := true } ([10, 20, 30, 99].take 3) =
      parsePLTE { checkCRC := true } [10, 20, 30, 99] :=
  ⟨(parsePLTE_corrected { checkCRC := true } [10, 20, 30, 99]).2.2.1 0
      (by decide),
    (parsePLTE_corrected { checkCRC := true } [10, 20, 30, 99]).2.2.2⟩

theorem drop_set_of_lt (l : List ℕ) (i a n : ℕ) (h : i < n) :
    (l.set i a).drop n = l.drop n := by
  apply List.ext_getElem?
  intro j
  rw [List.getElem?_drop, List.getElem?_drop, List.getElem?_set_ne (by omega)]

theorem getD_set_ne (l : List ℕ) (i a j d : ℕ) (h : i ≠ j) :
    (l.set i a).getD j d = l.getD j d := by
  rw [List.getD_eq_getElem?_getD, List.getD_eq_getElem?_getD,
    List.getElem?_set_ne h]

theorem getD_set_eq (l : List ℕ) (i a d : ℕ) (h : i < l.length) :
    (l.set i a).getD i d = a := by
  rw [List.getD_eq_getElem?_getD, List.getElem?_set_eq_of_lt a h]
  rfl

theorem getD_eq_getElem_of_lt {α : Type} (l : List α) (i : ℕ) (d : α)
    (h : i < l.length) : l.getD i d = l[i] := by
  rw [List.getD_eq_getElem?_getD, List.getElem?_eq_getElem h]
  rfl

theorem dePalette_run (p : List (List ℕ)) (indata : List ℕ) :
    ∀ n, n * 4 ≤ indata.length →
    (∀ k, k < n → indata.getD (k * 4) 0 < p.length) →
    ∃ out, (List.range n).foldlM (fun (buf : List ℕ) k =>
        match p[buf.getD (k * 4) 0]? with
        | none => (Except.error ("Index " ++ toString (buf.getD (k * 4) 0) ++
            " not in palette") : Except String (List ℕ))
        | some c => Except.ok ((((buf.set (k * 4) (c.getD 0 0)).set
            (k * 4 + 1) (c.getD 1 0)).set
            (k * 4 + 2) (c.getD 2 0)).set (k * 4 + 3) (c.getD 3 0)))
        indata = .ok out ∧
      out.length = indata.length ∧
      out.drop (n * 4) = indata.drop (n * 4) ∧
      (∀ k, k < n → ∀ j, j < 4 →
        out.getD (k * 4 + j) 0 =
          (p.getD (indata.getD (k * 4) 0) []).getD j 0) := by
  intro n
  induction n with
  | zero =>
    intro _ _
    exact ⟨indata, rfl, rfl, rfl, by omega⟩
  | succ m ih =>
    intro hlen hidx
    obtain ⟨out, hout, hlen2, hdrop, hquad⟩ :=
      ih (by omega) (fun k hk => hidx k (by omega))
    have hread : out.getD (m * 4) 0 = indata.getD (m * 4) 0 := by
      have e1 := getD_drop out (m * 4) 0 0
      have e2 := getD_drop indata (m * 4) 0 0
      rw [hdrop] at e1
      rw [e2] at e1
      simpa using e1.symm
    have hidxm : indata.getD (m * 4) 0 < p.length := hidx m (by omega)
    have hget : p[out.getD (m * 4) 0]? = some (p[indata.getD (m * 4) 0]) := by
      rw [hread]
      exact List.getElem?_eq_getElem hidxm
    refine ⟨?_, ?_⟩
    · exact (((out.set (m * 4) ((p[indata.getD (m * 4) 0]).getD 0 0)).set
        (m * 4 + 1) ((p[indata.getD (m * 4) 0]).getD 1 0)).set
        (m * 4 + 2) ((p[indata.getD (m * 4) 0]).getD 2 0)).set
        (m * 4 + 3) ((p[indata.getD (m * 4) 0]).getD 3 0)
    refine ⟨?_, ?_, ?_, ?_⟩
    · rw [List.range_succ, List.foldlM_append, hout]
      have hbo : ∀ (x : List ℕ) (f : List ℕ → Except String (List ℕ)),
          (Except.ok x >>= f : Except String (List ℕ)) = f x := fun _ _ => rfl
      simp only [List.foldlM_cons, List.foldlM_nil, hbo, bind_pure]
      rw [hget]
    · simp [hlen2]
    · rw [drop_set_of_lt _ _ _ _ (by omega), drop_set_of_lt _ _ _ _ (by omega),
        drop_set_of_lt _ _ _ _ (by omega), drop_set_of_lt _ _ _ _ (by omega)]
      have e := congrArg (List.drop 4) hdrop
      rw [List.drop_drop, List.drop_drop] at e
      rw [show (m + 1) * 4 = m * 4 + 4 by omega]
      exact e
    · intro k hk j hj
      by_cases hkm : k < m
      · rw [getD_set_ne _ _ _ _ _ (by omega), getD_set_ne _ _ _ _ _ (by omega),
          getD_set_ne _ _ _ _ _ (by omega), getD_set_ne _ _ _ _ _ (by omega)]
        exact hquad k hkm j hj
      · have hkm2 : k = m := by omega
        subst hkm2
        have hlb : k * 4 + 3 < out.length := by omega
        have hval : p.getD (indata.getD (k * 4) 0) [] =
            p[indata.getD (k * 4) 0] :=
          getD_eq_getElem_of_lt _ _ _ hidxm
        interval_cases j
        · rw [getD_set_ne _ _ _ _ _ (by omega), getD_set_ne _ _ _ _ _ (by omega),
            getD_set_ne _ _ _ _ _ (by omega)]
          rw [show k * 4 + 0 = k * 4 by omega]
          rw [getD_set_eq _ _ _ _ (by omega), hval]
        · rw [getD_set_ne _ _ _ _ _ (by omega), getD_set_ne _ _ _ _ _ (by omega)]
          rw [getD_set_eq _ _ _ _ (by simp only [List.length_set]; omega), hval]
        · rw [getD_set_ne _ _ _ _ _ (by omega)]
          rw [getD_set_eq _ _ _ _ (by simp only [List.length_set]; omega), hval]
        · rw [getD_set_eq _ _ _ _ (by simp only [List.length_set]; omega), hval]


/-- C10: for a paletted image (color type 3 with a palette present),
`formatNormalizer` takes the `dePalette` branch regardless of the bit
depth, the transparent colour, and the rescale flag — so neither tRNS
keying nor depth rescaling ever runs there; `dePalette` replaces each
pixel with the RGBA quad of the palette entry selected by the pixel's
index byte, and errors with `Index ... not in palette` at the first
pixel whose index has no palette entry. -/
theorem normalizeFormat_palette (indata : List ℕ) (w h : ℕ) (p : List (List ℕ))
    (hlen : h * w * 4 ≤ indata.length) :
    (∀ depth tc skip, normalizeFormat indata depth w h 3 tc (some p) skip =
      dePalette indata w h p) ∧
    ((∀ k, k < h * w → indata.getD (k * 4) 0 < p.length) →
      ∃ out, dePalette indata w h p = .ok out ∧ out.length = indata.length ∧
        ∀ k, k < h * w → ∀ j, j < 4 →
          out.getD (k * 4 + j) 0 =
            (p.getD (indata.getD (k * 4) 0) []).getD j 0) ∧
    (∀ k, k < h * w → (∀ k', k' < k → indata.getD (k' * 4) 0 < p.length) →
      p.length ≤ indata.getD (k * 4) 0 →
      dePalette indata w h p =
        .error ("Index " ++ toString (indata.getD (k * 4) 0) ++
          " not in palette")) := by
  refine ⟨?_, ?_, ?_⟩
  · intro depth tc skip
    simp [normalizeFormat]
  · intro hidx
    obtain ⟨out, hout, hl, hd, hq⟩ :=
      dePalette_run p indata (h * w) (by omega) hidx
    exact ⟨out, hout, hl, hq⟩
  · intro k hk hpre hbad
    obtain ⟨out, hout, hl, hd, hq⟩ :=
      dePalette_run p indata k (by omega) hpre
    have hread : out.getD (k * 4) 0 = indata.getD (k * 4) 0 := by
      have e1 := getD_drop out (k * 4) 0 0
      have e2 := getD_drop indata (k * 4) 0 0
      rw [hd] at e1
      rw [e2] at e1
      simpa using e1.symm
    have hnone : p[out.getD (k * 4) 0]? = none := by
      rw [hread]
      exact List.getElem?_eq_none (by omega)
    have hsplit : h * w = (k + 1) + (h * w - (k + 1)) := by omega
    simp only [dePalette]
    rw [hsplit, List.range_add, List.foldlM_append, List.range_succ,
      List.foldlM_append, hout]
    have hbo : ∀ (x : List ℕ) (f : List ℕ → Except String (List ℕ)),
        (Except.ok x >>= f : Except String (List ℕ)) = f x := fun _ _ => rfl
    simp only [List.foldlM_cons, List.foldlM_nil, hbo, bind_pure]
    rw [hnone, hread]
    rfl


/-- A 2×1 paletted image with indices 1 and 0: the palette branch is
taken even with a transparent colour set and a non-8 bit depth, and the
output quads are the palette entries. -/
theorem normalizeFormat_palette_witness :
    normalizeFormat [1, 0, 0, 255, 0, 0, 0, 255] 4 2 1 3 (some [200])
        (some [[9, 8, 7, 6], [5, 4, 3, 2]]) true =
      dePalette [1, 0, 0, 255, 0, 0, 0, 255] 2 1 [[9, 8, 7, 6], [5, 4, 3, 2]] ∧
    (∃ out, dePalette [1, 0, 0, 255, 0, 0, 0, 255] 2 1
        [[9, 8, 7, 6], [5, 4, 3, 2]] = .ok out ∧
      out.length = ([1, 0, 0, 255, 0, 0, 0, 255] : List ℕ).length ∧
      ∀ k, k < 1 * 2 → ∀ j, j < 4 →
        out.getD (k * 4 + j) 0 =
          (([[9, 8, 7, 6], [5, 4, 3, 2]] : List (List ℕ)).getD
            (([1, 0, 0, 255, 0, 0, 0, 255] : List ℕ).getD (k * 4) 0)
            []).getD j 0) :=
  ⟨(normalizeFormat_palette [1, 0, 0, 255, 0, 0, 0, 255] 2 1
      [[9, 8, 7, 6], [5, 4, 3, 2]] (by decide)).1 4 (some [200]) true,
    (normalizeFormat_palette [1, 0, 0, 255, 0, 0, 0, 255] 2 1
      [[9, 8, 7, 6], [5, 4, 3, 2]] (by decide)).2.1 (by decide)⟩


theorem crcStep_lt (c : ℕ) (h : c < 2 ^ 32) : crcStep c < 2 ^ 32 := by
  unfold crcStep
  have hs : c >>> 1 < 2 ^ 32 := by
    rw [Nat.shiftRight_eq_div_pow]
    omega
  split_ifs
  · exact Nat.xor_lt_two_pow (by norm_num) hs
  · exact hs

theorem crcTableEntry_lt (i : ℕ) (h : i < 2 ^ 32) : crcTableEntry i < 2 ^ 32 := by
  unfold crcTableEntry
  iterate 8 apply crcStep_lt
  exact h

theorem crcUpdate_lt (crc b : ℕ) (h : crc < 2 ^ 32) : crcUpdate crc b < 2 ^ 32 := by
  unfold crcUpdate
  apply Nat.xor_lt_two_pow
  · exact crcTableEntry_lt _ (lt_of_le_of_lt Nat.and_le_right (by norm_num))
  · rw [Nat.shiftRight_eq_div_pow]
    omega

theorem crcWrite_lt (data : List ℕ) :
    ∀ crc, crc < 2 ^ 32 → crcWrite crc data < 2 ^ 32 := by
  induction data with
  | nil => intro crc h; exact h
  | cons b bs ih =>
    intro crc h
    exact ih _ (crcUpdate_lt _ _ h)

theorem crc32_lt (data : List ℕ) : crc32 data < 2 ^ 32 := by
  unfold crc32 crcFinish
  exact Nat.xor_lt_two_pow (crcWrite_lt data _ (by norm_num)) (by norm_num)

theorem eq_of_getD (l₁ l₂ : List ℕ) (hl : l₁.length = l₂.length)
    (h : ∀ j, j < l₁.length → l₁.getD j 0 = l₂.getD j 0) : l₁ = l₂ := by
  apply List.ext_getElem hl
  intro i h1 h2
  have := h i h1
  rw [getD_eq_getElem_of_lt _ _ _ h1, getD_eq_getElem_of_lt _ _ _ h2] at this
  exact this

theorem map_getD_range (l : List ℕ) (s n : ℕ) (h : s + n ≤ l.length) :
    (List.range n).map (fun x => l.getD (s + x) 0) = (l.drop s).take n := by
  apply List.ext_getElem
  · simp only [List.length_map, List.length_range, List.length_take,
      List.length_drop]
    omega
  · intro i h1 h2
    have hi : i < n := by simpa using h1
    simp only [List.getElem_map, List.getElem_range, List.getElem_take,
      List.getElem_drop]
    exact getD_eq_getElem_of_lt _ _ _ (by omega)

theorem flatten_drop_take (bw : ℕ) :
    ∀ (h : ℕ) (l : List ℕ), l.length = bw * h →
    ((List.range h).map (fun y => (l.drop (y * bw)).take bw)).flatten = l := by
  intro h
  induction h with
  | zero =>
    intro l hl
    have : l = [] := List.eq_nil_of_length_eq_zero (by omega)
    subst this
    simp
  | succ m ih =>
    intro l hl
    have hbm : bw * (m + 1) = bw * m + bw := by ring
    rw [List.range_succ, List.map_append, List.flatten_append]
    have hseg : ∀ y ∈ List.range m,
        (l.drop (y * bw)).take bw =
        ((l.take (bw * m)).drop (y * bw)).take bw := by
      intro y hy
      rw [List.mem_range] at hy
      rw [List.drop_take, List.take_take]
      congr 1
      have h1 : (y + 1) * bw ≤ bw * m := by nlinarith
      have h2 : (y + 1) * bw = y * bw + bw := by ring
      omega
    rw [List.map_congr_left hseg,
      ih (l.take (bw * m)) (by simp only [List.length_take]; omega)]
    simp only [List.map_cons, List.map_nil, List.flatten_cons,
      List.flatten_nil, List.append_nil]
    rw [show m * bw = bw * m by ring, ← List.take_add]
    rw [show bw * m + bw = l.length by omega]
    exact List.take_length l

theorem packFilter_zero (pxData : List ℕ) (width height bpp₀ : ℕ) :
    ∃ rows : List (List ℕ),
      packFilter pxData width height (some (.inl 0)) 8 bpp₀ = .ok rows.flatten ∧
      rows.length = height ∧
      rows.flatten.length = (width * bpp₀ + 1) * height ∧
      ∀ y, y < height → rows.getD y [] =
        0 :: filterNoneRow pxData (y * (width * bpp₀)) (width * bpp₀) := by
  obtain ⟨rows, hrows, hlen, hidx⟩ :=
    mapM_rows_ok (packFilterRow pxData (width * bpp₀) bpp₀ [0])
      (List.range height) fun y _ => by
      obtain ⟨row, h, -⟩ := packFilterRow_fixed pxData (width * bpp₀) bpp₀ y 0
        (by norm_num) (by norm_num)
      exact ⟨_, h⟩
  have hrowlen : ∀ r ∈ rows, r.length = width * bpp₀ + 1 := by
    intro r hr
    obtain ⟨i, hi, rfl⟩ := List.getElem_of_mem hr
    have hi' : i < height := by
      rw [hlen, List.length_range] at hi
      exact hi
    obtain ⟨b, hfb, hb⟩ := hidx i (by simpa using hi')
    rw [range_getD _ _ hi'] at hfb
    obtain ⟨row, hpf, hat, hrl⟩ := packFilterRow_fixed pxData (width * bpp₀)
      bpp₀ i 0 (by norm_num) (by norm_num)
    have hbeq : b = byteVal 0 :: row := Except.ok.inj (hfb.symm.trans hpf)
    have hgd : rows.getD i [] = rows[i] := by
      rw [List.getD_eq_getElem?_getD, List.getElem?_eq_getElem hi]
      rfl
    rw [← hgd, hb, hbeq]
    simp [hrl]
  refine ⟨rows, ?_, by rw [hlen]; simp, ?_, ?_⟩
  · have hpf : packFilter pxData width height (some (.inl 0)) 8 bpp₀ =
        match (List.range height).mapM (packFilterRow pxData
          (width * bpp₀) bpp₀ [0]) with
        | .error e => .error e
        | .ok rows => .ok rows.flatten := rfl
    rw [hpf, hrows]
  · rw [flatten_length_const _ rows hrowlen, hlen, List.length_range]
  · intro y hy
    obtain ⟨b, hfb, hb⟩ := hidx y (by simpa using hy)
    rw [range_getD _ _ hy] at hfb
    obtain ⟨row, hpf, hat, hrl⟩ := packFilterRow_fixed pxData (width * bpp₀)
      bpp₀ y 0 (by norm_num) (by norm_num)
    have hbeq : b = byteVal 0 :: row := Except.ok.inj (hfb.symm.trans hpf)
    have hat0 : filterRowAt 0 pxData (y * (width * bpp₀)) (width * bpp₀) bpp₀ =
        some (filterNoneRow pxData (y * (width * bpp₀)) (width * bpp₀)) := rfl
    rw [hat0] at hat
    rw [hb, hbeq, Option.some.inj hat]
    rfl


theorem runLines_zeroRows (xcomp bw : ℕ) :
    ∀ (rows : List (List ℕ)) (lastLine : Option (List ℕ)),
      (∀ r ∈ rows, r.length = bw) →
      runLines xcomp bw rows.length lastLine
        ((rows.map (fun r => 0 :: r)).flatten) = .ok (rows, []) := by
  intro rows
  induction rows with
  | nil =>
    intro lastLine _
    rfl
  | cons r rs ih =>
    intro lastLine hr
    have hrl : r.length = bw := hr r (by simp)
    simp only [List.map_cons, List.flatten_cons, List.length_cons]
    rw [runLines]
    rw [if_neg (by simp [List.length_append, hrl])]
    have htake : ((0 :: r) ++ (rs.map (fun r => 0 :: r)).flatten).take (bw + 1) =
        0 :: r := by
      rw [show bw + 1 = (0 :: r).length by simp [hrl], List.take_left]
    have hdrop : ((0 :: r) ++ (rs.map (fun r => 0 :: r)).flatten).drop (bw + 1) =
        (rs.map (fun r => 0 :: r)).flatten := by
      rw [show bw + 1 = (0 :: r).length by simp [hrl], List.drop_left]
    rw [List.cons_append] at htake hdrop ⊢
    rw [htake, hdrop]
    have hrev : reverseFilterLine xcomp lastLine bw (0 :: r) =
        .ok (r.take bw) := rfl
    rw [hrev, show r.take bw = r by rw [← hrl]; exact List.take_length r]
    have hmatch : (match (Except.ok r : Except String (List ℕ)) with
        | Except.error e =>
          (Except.error e : Except String (List (List ℕ) × List ℕ))
        | Except.ok line =>
          match runLines xcomp bw rs.length (some line)
              ((rs.map (fun r => 0 :: r)).flatten) with
          | Except.error e => Except.error e
          | Except.ok (rest, remaining) =>
            Except.ok (line :: rest, remaining)) =
        match runLines xcomp bw rs.length (some r)
            ((rs.map (fun r => 0 :: r)).flatten) with
        | Except.error e => Except.error e
        | Except.ok (rest, remaining) => Except.ok (r :: rest, remaining) := rfl
    rw [hmatch, ih (some r) (fun x hx => hr x (by simp [hx]))]

theorem processFilterSync_noneRows (data : List ℕ) (w h bpp : ℕ)
    (hlen : data.length = w * bpp * h)
    (hbytes : ∀ b ∈ data, b < 256) :
    processFilterSync (((List.range h).map
      (fun y => 0 :: filterNoneRow data (y * (w * bpp)) (w * bpp))).flatten)
      w h bpp 8 false = .ok data := by
  have hfnr : ∀ y ∈ List.range h,
      (fun y => 0 :: filterNoneRow data (y * (w * bpp)) (w * bpp)) y =
      (fun y => 0 :: (data.drop (y * (w * bpp))).take (w * bpp)) y := by
    intro y hy
    rw [List.mem_range] at hy
    simp only [filterNoneRow]
    congr 1
    have hmod : ∀ x ∈ List.range (w * bpp),
        (fun x => data.getD (y * (w * bpp) + x) 0 % 256) x =
        (fun x => data.getD (y * (w * bpp) + x) 0) x := by
      intro x hx
      exact Nat.mod_eq_of_lt (getD_lt_256 data hbytes _)
    rw [List.map_congr_left hmod]
    apply map_getD_range
    have : (y + 1) * (w * bpp) ≤ w * bpp * h := by nlinarith
    have he : (y + 1) * (w * bpp) = y * (w * bpp) + w * bpp := by ring
    omega
  rw [List.map_congr_left hfnr]
  have hrows : (List.range h).map
      (fun y => 0 :: (data.drop (y * (w * bpp))).take (w * bpp)) =
      ((List.range h).map
        (fun y => (data.drop (y * (w * bpp))).take (w * bpp))).map
        (fun r => 0 :: r) := by
    rw [List.map_map]
    rfl
  rw [hrows]
  have hlenrows : ((List.range h).map
      (fun y => (data.drop (y * (w * bpp))).take (w * bpp))).length = h := by
    simp
  have hrl : ∀ r ∈ (List.range h).map
      (fun y => (data.drop (y * (w * bpp))).take (w * bpp)),
      r.length = w * bpp := by
    intro r hrm
    rw [List.mem_map] at hrm
    obtain ⟨y, hy, rfl⟩ := hrm
    rw [List.mem_range] at hy
    simp only [List.length_take, List.length_drop]
    have : (y + 1) * (w * bpp) ≤ w * bpp * h := by nlinarith
    have he : (y + 1) * (w * bpp) = y * (w * bpp) + w * bpp := by ring
    omega
  have hrun := runLines_zeroRows bpp (w * bpp)
    ((List.range h).map (fun y => (data.drop (y * (w * bpp))).take (w * bpp)))
    none hrl
  rw [hlenrows] at hrun
  have himg : filterImages w h bpp 8 false = [(w * bpp, h)] := by
    simp [filterImages, getByteWidth]
  have hxc : xComparison bpp 8 = bpp := rfl
  simp only [processFilterSync, himg, hxc, filterRun,
    show getByteWidth w bpp 8 = w * bpp from rfl, hrun, List.append_nil,
    if_pos rfl]
  rw [flatten_drop_take (w * bpp) h data (by omega)]
  simp


theorem writePixel_four (px data : List ℕ) (p r : ℕ) (hb : r + 3 < data.length) :
    writePixel 4 px data p r =
      .ok ((((px.set p (data.getD r 0)).set (p + 1) (data.getD (r + 1) 0)).set
        (p + 2) (data.getD (r + 2) 0)).set (p + 3) (data.getD (r + 3) 0)) := by
  unfold writePixel
  rw [if_neg (by norm_num), if_neg (by norm_num), if_neg (by norm_num),
    if_pos rfl, if_neg (by omega)]

theorem mapRow_copy (data : List ℕ) (pos : ℕ → ℕ → ℕ → ℕ)
    (hpos : ∀ x y c, pos x y c = c) (y : ℕ) :
    ∀ (w' k : ℕ) (px : List ℕ),
      4 * (k + w') ≤ data.length → px.length = data.length →
      (∀ j, j < 4 * k → px.getD j 0 = data.getD j 0) →
      ∃ px' : List ℕ,
        (List.range w').foldlM (fun (st : List ℕ × ℕ × ℕ) x =>
          match writePixel 4 st.1 data (pos x y st.2.2) st.2.1 with
          | .error e => (Except.error e : Except String (List ℕ × ℕ × ℕ))
          | .ok px => .ok (px, st.2.1 + 4, st.2.2 + 4)) (px, 4 * k, 4 * k) =
          .ok (px', 4 * (k + w'), 4 * (k + w')) ∧
        px'.length = data.length ∧
        (∀ j, j < 4 * (k + w') → px'.getD j 0 = data.getD j 0) := by
  intro w'
  induction w' with
  | zero =>
    intro k px hb hl hpre
    exact ⟨px, rfl, hl, fun j hj => hpre j (by omega)⟩
  | succ m ih =>
    intro k px hb hl hpre
    obtain ⟨px', hfold, hl', hpre'⟩ := ih k px (by omega) hl hpre
    have hwp := writePixel_four px' data (4 * (k + m)) (4 * (k + m))
      (by omega)
    refine ⟨(((px'.set (4 * (k + m)) (data.getD (4 * (k + m)) 0)).set
        (4 * (k + m) + 1) (data.getD (4 * (k + m) + 1) 0)).set
        (4 * (k + m) + 2) (data.getD (4 * (k + m) + 2) 0)).set
        (4 * (k + m) + 3) (data.getD (4 * (k + m) + 3) 0), ?_, ?_, ?_⟩
    · rw [List.range_succ, List.foldlM_append, hfold]
      have hbo : ∀ (x : List ℕ × ℕ × ℕ)
          (f : List ℕ × ℕ × ℕ → Except String (List ℕ × ℕ × ℕ)),
          (Except.ok x >>= f : Except String (List ℕ × ℕ × ℕ)) = f x :=
        fun _ _ => rfl
      simp only [List.foldlM_cons, List.foldlM_nil, hbo, bind_pure]
      rw [hpos m y (4 * (k + m)), hwp]
      have : 4 * (k + m) + 4 = 4 * (k + (m + 1)) := by omega
      rw [this]
    · simp [hl']
    · intro j hj
      by_cases hjk : j < 4 * (k + m)
      · rw [getD_set_ne _ _ _ _ _ (by omega), getD_set_ne _ _ _ _ _ (by omega),
          getD_set_ne _ _ _ _ _ (by omega), getD_set_ne _ _ _ _ _ (by omega)]
        exact hpre' j hjk
      · have hj4 : j - 4 * (k + m) < 4 := by omega
        have hje : j = 4 * (k + m) + (j - 4 * (k + m)) := by omega
        rw [hje]
        have hlb : 4 * (k + m) + 3 < px'.length := by omega
        interval_cases hc : (j - 4 * (k + m))
        · rw [getD_set_ne _ _ _ _ _ (by omega), getD_set_ne _ _ _ _ _ (by omega),
            getD_set_ne _ _ _ _ _ (by omega)]
          rw [show 4 * (k + m) + 0 = 4 * (k + m) by omega]
          rw [getD_set_eq _ _ _ _ (by omega)]
        · rw [getD_set_ne _ _ _ _ _ (by omega), getD_set_ne _ _ _ _ _ (by omega)]
          rw [getD_set_eq _ _ _ _ (by simp only [List.length_set]; omega)]
        · rw [getD_set_ne _ _ _ _ _ (by omega)]
          rw [getD_set_eq _ _ _ _ (by simp only [List.length_set]; omega)]
        · rw [getD_set_eq _ _ _ _ (by simp only [List.length_set]; omega)]


theorem mapImage8BitPass_copy (data : List ℕ) (pos : ℕ → ℕ → ℕ → ℕ)
    (hpos : ∀ x y c, pos x y c = c) (w : ℕ) :
    ∀ (h' k : ℕ) (px : List ℕ),
      4 * (k + h' * w) ≤ data.length → px.length = data.length →
      (∀ j, j < 4 * k → px.getD j 0 = data.getD j 0) →
      ∃ px' : List ℕ,
        mapImage8BitPass 4 data pos w h' (px, 4 * k, 4 * k) =
          .ok (px', 4 * (k + h' * w), 4 * (k + h' * w)) ∧
        px'.length = data.length ∧
        (∀ j, j < 4 * (k + h' * w) → px'.getD j 0 = data.getD j 0) := by
  intro h'
  induction h' with
  | zero =>
    intro k px hb hl hpre
    refine ⟨px, ?_, hl, fun j hj => hpre j (by omega)⟩
    rw [show k + 0 * w = k by omega]
    rfl
  | succ m ih =>
    intro k px hb hl hpre
    have hmw : (m + 1) * w = m * w + w := by ring
    obtain ⟨px', hfold, hl', hpre'⟩ := ih k px (by omega) hl hpre
    obtain ⟨px'', hrow, hl'', hpre''⟩ := mapRow_copy data pos hpos m w
      (k + m * w) px' (by omega) hl' hpre'
    refine ⟨px'', ?_, hl'', fun j hj => hpre'' j (by omega)⟩
    simp only [mapImage8BitPass] at hfold ⊢
    rw [List.range_succ, List.foldlM_append, hfold]
    have hbo : ∀ (x : List ℕ × ℕ × ℕ)
        (f : List ℕ × ℕ × ℕ → Except String (List ℕ × ℕ × ℕ)),
        (Except.ok x >>= f : Except String (List ℕ × ℕ × ℕ)) = f x :=
      fun _ _ => rfl
    simp only [List.foldlM_cons, List.foldlM_nil, hbo, bind_pure]
    rw [show 4 * (k + m * w + w) = 4 * (k + (m + 1) * w) by
      rw [hmw]; omega] at hrow
    rw [hrow]

theorem dataToBitMap_copy (data : List ℕ) (w h : ℕ)
    (hlen : data.length = w * h * 4) :
    dataToBitMap data w h 8 4 false = .ok data := by
  have hwh : h * w = w * h := by ring
  obtain ⟨px', hfold, hl', hpre'⟩ := mapImage8BitPass_copy data
    (fun x y counter => counter)
    (fun x y c => rfl) w h 0 (List.replicate (w * h * 4) 0)
    (by simp only [Nat.zero_add]; omega)
    (by simp [hlen])
    (by omega)
  rw [show (4 * 0 : ℕ) = 0 from rfl] at hfold
  have hpx : px' = data := by
    apply eq_of_getD px' data (by omega)
    intro j hj
    exact hpre' j (by omega)
  simp only [dataToBitMap, Bool.false_eq_true, if_false, if_true, if_pos rfl]
  have hbo : ∀ (x : List ℕ × ℕ × ℕ)
      (f : List ℕ × ℕ × ℕ → Except String (List ℕ × ℕ × ℕ)),
      (Except.ok x >>= f : Except String (List ℕ × ℕ × ℕ)) = f x :=
    fun _ _ => rfl
  simp only [List.foldlM_cons, List.foldlM_nil, hbo, bind_pure]
  rw [hfold]
  show (if 4 * (0 + h * w) ≠ data.length then Except.error "Extra data found"
    else Except.ok px') = Except.ok data
  rw [if_neg (by omega), hpx]


theorem chunkParts (a b c d S : ℕ) (body rest : List ℕ)
    (hL : body.length < 2 ^ 32) (hS : S < 2 ^ 32) :
    readUInt32BE (toBytes32 body.length ++
      ([a, b, c, d] ++ (body ++ (toBytes32 S ++ rest)))) 0 = body.length ∧
    readUInt32BE (toBytes32 body.length ++
      ([a, b, c, d] ++ (body ++ (toBytes32 S ++ rest)))) 4 =
      a * 2 ^ 24 + b * 2 ^ 16 + c * 2 ^ 8 + d ∧
    ((toBytes32 body.length ++
      ([a, b, c, d] ++ (body ++ (toBytes32 S ++ rest)))).drop 4).take 4 =
      [a, b, c, d] ∧
    ((toBytes32 body.length ++
      ([a, b, c, d] ++ (body ++ (toBytes32 S ++ rest)))).drop 8).take
      body.length = body ∧
    (toBytes32 body.length ++
      ([a, b, c, d] ++ (body ++ (toBytes32 S ++ rest)))).drop
      (8 + body.length) = toBytes32 S ++ rest ∧
    readUInt32BE ((toBytes32 body.length ++
      ([a, b, c, d] ++ (body ++ (toBytes32 S ++ rest)))).drop
      (8 + body.length)) 0 = S ∧
    (toBytes32 body.length ++
      ([a, b, c, d] ++ (body ++ (toBytes32 S ++ rest)))).drop
      (8 + body.length + 4) = rest ∧
    (toBytes32 body.length ++
      ([a, b, c, d] ++ (body ++ (toBytes32 S ++ rest)))).length =
      12 + body.length + rest.length ∧
    (toBytes32 body.length ++
      ([a, b, c, d] ++ (body ++ (toBytes32 S ++ rest)))).getD 4 0 = a := by
  generalize hgen : toBytes32 body.length ++
    ([a, b, c, d] ++ (body ++ (toBytes32 S ++ rest))) = input
  have hdrop4 : input.drop 4 = [a, b, c, d] ++
      (body ++ (toBytes32 S ++ rest)) := by
    rw [← hgen, ← toBytes32_length body.length, List.drop_left]
  have hdrop8 : input.drop 8 = body ++ (toBytes32 S ++ rest) := by
    have e : input.drop 8 = (input.drop 4).drop 4 := by
      rw [List.drop_drop]
    rw [e, hdrop4]
    rfl
  have hdrop8L : input.drop (8 + body.length) = toBytes32 S ++ rest := by
    have e : input.drop (8 + body.length) =
        (input.drop 8).drop body.length := by
      rw [List.drop_drop]
    rw [e, hdrop8, List.drop_left]
  refine ⟨?_, ?_, ?_, ?_, hdrop8L, ?_, ?_, ?_, ?_⟩
  · rw [← hgen]
    exact readUInt32BE_toBytes32 _ hL _
  · rw [← hgen, readUInt32BE_after4 _ _ (toBytes32_length _)]
    exact readUInt32BE_name a b c d _
  · rw [hdrop4]
    rfl
  · rw [hdrop8, List.take_left]
  · rw [hdrop8L]
    exact readUInt32BE_toBytes32 _ hS _
  · have e : input.drop (8 + body.length + 4) =
        (input.drop (8 + body.length)).drop 4 := by
      rw [List.drop_drop]
    rw [e, hdrop8L, ← toBytes32_length S, List.drop_left]
  · rw [← hgen]
    simp [toBytes32_length]
    omega
  · have e := getD_drop input 4 0 0
    rw [hdrop4, Nat.add_zero] at e
    exact e.symm

theorem packChunk_some_assoc (T : ℕ) (n : List ℕ) (hn : toBytes32 T = n)
    (body rest : List ℕ) :
    packChunk T (some body) ++ rest = toBytes32 body.length ++
      (n ++ (body ++ (toBytes32 (crc32 (n ++ body)) ++ rest))) := by
  simp only [packChunk, Option.getD_some, hn, List.append_assoc]


theorem parseChunkLoop_packedIHDR (st st₁ : PState) (body rest : List ℕ)
    (hL : body.length < 2 ^ 32) (hok : parseIHDR st body = .ok st₁) :
    parseChunkLoop st (packChunk TYPE_IHDR (some body) ++ rest) =
      parseChunkLoop st₁ rest := by
  rw [packChunk_some_assoc TYPE_IHDR [73, 72, 68, 82] rfl body rest]
  obtain ⟨h0, h4, hname, hbody, hd8L, hfile, hdEnd, hlen, hg4⟩ :=
    chunkParts 73 72 68 82 (crc32 ([73, 72, 68, 82] ++ body)) body rest hL
      (crc32_lt _)
  have h4' : readUInt32BE (toBytes32 body.length ++ ([73, 72, 68, 82] ++
      (body ++ (toBytes32 (crc32 ([73, 72, 68, 82] ++ body)) ++ rest)))) 4 =
      TYPE_IHDR := by
    rw [h4]
    rfl
  generalize hgen : toBytes32 body.length ++ ([73, 72, 68, 82] ++
    (body ++ (toBytes32 (crc32 ([73, 72, 68, 82] ++ body)) ++ rest))) =
    input at *
  have honce : parseChunkOnce st input = .next st₁ body.length := by
    simp only [parseChunkOnce, h0, h4', hname, hbody, hd8L, hfile, hdEnd]
    rw [if_neg (show ¬input.length < 8 by omega)]
    rw [if_neg (by decide)]
    rw [if_neg (by simp)]
    rw [if_pos (by decide)]
    rw [if_neg (show ¬input.length < 8 + body.length by omega)]
    norm_num [TYPE_IHDR, TYPE_IEND, TYPE_IDAT, TYPE_PLTE, TYPE_tRNS, TYPE_gAMA]
    rw [hok]
    split
    next e heq => exact absurd heq (by simp)
    next st₂ heq =>
      obtain rfl : st₁ = st₂ := Except.ok.inj heq
      rw [if_neg (show ¬((toBytes32 (crc32 (73 :: 72 :: 68 :: 82 ::
        body))).length + rest.length < 4) by simp [toBytes32_length])]
      rw [readUInt32BE_toBytes32 _ (crc32_lt _)]
      rw [if_neg (by simp)]
  rw [parseChunkLoop_unfold, parseChunkStep, honce]
  exact congrArg (parseChunkLoop st₁) hdEnd


theorem parseChunkLoop_packedIDAT (st : PState) (body rest : List ℕ)
    (hL : body.length < 2 ^ 32) (hIH : st.hasIHDR = true)
    (hct : ¬(st.colorType = 3 ∧ st.palette.length = 0)) :
    parseChunkLoop st (packChunk TYPE_IDAT (some body) ++ rest) =
      parseChunkLoop { st with inflateData := st.inflateData ++ body } rest := by
  rw [packChunk_some_assoc TYPE_IDAT [73, 68, 65, 84] rfl body rest]
  obtain ⟨h0, h4, hname, hbody, hd8L, hfile, hdEnd, hlen, hg4⟩ :=
    chunkParts 73 68 65 84 (crc32 ([73, 68, 65, 84] ++ body)) body rest hL
      (crc32_lt _)
  have h4' : readUInt32BE (toBytes32 body.length ++ ([73, 68, 65, 84] ++
      (body ++ (toBytes32 (crc32 ([73, 68, 65, 84] ++ body)) ++ rest)))) 4 =
      TYPE_IDAT := by
    rw [h4]
    rfl
  generalize hgen : toBytes32 body.length ++ ([73, 68, 65, 84] ++
    (body ++ (toBytes32 (crc32 ([73, 68, 65, 84] ++ body)) ++ rest))) =
    input at *
  have honce : parseChunkOnce st input =
      .next { st with inflateData := st.inflateData ++ body } body.length := by
    simp only [parseChunkOnce, h0, h4', hname, hbody, hd8L, hfile, hdEnd]
    rw [if_neg (show ¬input.length < 8 by omega)]
    rw [if_neg (by decide)]
    rw [if_neg (by simp [hIH])]
    rw [if_pos (by decide)]
    rw [if_neg (show ¬input.length < 8 + body.length by omega)]
    norm_num [TYPE_IHDR, TYPE_IEND, TYPE_IDAT, TYPE_PLTE, TYPE_tRNS, TYPE_gAMA]
    rw [if_neg (show ¬(st.colorType = 3 ∧ st.palette = []) by
      intro hcontra
      exact hct ⟨hcontra.1, by simp [hcontra.2]⟩)]
    split
    next e heq => exact absurd heq (by simp)
    next st₂ heq =>
      rw [← Except.ok.inj heq]
      rw [if_neg (show ¬((toBytes32 (crc32 (73 :: 68 :: 65 :: 84 ::
        body))).length + rest.length < 4) by simp [toBytes32_length])]
      rw [readUInt32BE_toBytes32 _ (crc32_lt _)]
      rw [if_neg (by simp)]
  rw [parseChunkLoop_unfold, parseChunkStep, honce]
  exact congrArg (parseChunkLoop _) hdEnd

theorem parseChunkLoop_packedIEND (st : PState) (hIH : st.hasIHDR = true) :
    parseChunkLoop st (packChunk TYPE_IEND none) = .ok st := by
  have hnone : packChunk TYPE_IEND none ++ ([] : List ℕ) =
      packChunk TYPE_IEND (some []) ++ ([] : List ℕ) := rfl
  rw [← List.append_nil (packChunk TYPE_IEND none), hnone,
    packChunk_some_assoc TYPE_IEND [73, 69, 78, 68] rfl [] []]
  obtain ⟨h0, h4, hname, hbody, hd8L, hfile, hdEnd, hlen, hg4⟩ :=
    chunkParts 73 69 78 68 (crc32 ([73, 69, 78, 68] ++ [])) [] [] (by decide)
      (crc32_lt _)
  have h4' : readUInt32BE (toBytes32 (List.length ([] : List ℕ)) ++
      ([73, 69, 78, 68] ++ ([] ++
        (toBytes32 (crc32 ([73, 69, 78, 68] ++ [])) ++ [])))) 4 =
      TYPE_IEND := by
    rw [h4]
    rfl
  generalize hgen : toBytes32 (List.length ([] : List ℕ)) ++
    ([73, 69, 78, 68] ++ ([] ++
      (toBytes32 (crc32 ([73, 69, 78, 68] ++ [])) ++ []))) = input at *
  have honce : parseChunkOnce st input = .done st := by
    simp only [parseChunkOnce, h0, h4', hname, hbody, hd8L, hfile, hdEnd]
    rw [if_neg (show ¬input.length < 8 by omega)]
    rw [if_neg (by decide)]
    rw [if_neg (by simp [hIH])]
    rw [if_pos (by decide)]
    rw [if_neg (show ¬input.length < 8 + List.length ([] : List ℕ) by omega)]
    norm_num [TYPE_IHDR, TYPE_IEND, TYPE_IDAT, TYPE_PLTE, TYPE_tRNS, TYPE_gAMA]
    rw [if_neg (show ¬((toBytes32 (crc32 [73, 69, 78, 68])).length < 4) by
      simp [toBytes32_length])]
    rw [show readUInt32BE (toBytes32 (crc32 [73, 69, 78, 68])) 0 =
        crc32 [73, 69, 78, 68] by
      rw [← List.append_nil (toBytes32 (crc32 [73, 69, 78, 68]))]
      exact readUInt32BE_toBytes32 _ (crc32_lt _) _]
    rw [if_neg (by simp)]
  rw [parseChunkLoop_unfold, parseChunkStep, honce]


theorem parseIHDR_packed (st : PState) (w h : ℕ)
    (hw : w < 2 ^ 32) (hh : h < 2 ^ 32) :
    parseIHDR st (toBytes32 w ++ toBytes32 h ++ [8, 6, 0, 0, 0]) =
      .ok { st with
        colorType := 6
        hasIHDR := true
        metaData := some { width := w
                           height := h
                           depth := 8
                           interlace := false
                           palette := false
                           color := true
                           alpha := true
                           bpp := 4
                           colorType := 6 } } := by
  have hr0 : readUInt32BE (toBytes32 w ++ toBytes32 h ++ [8, 6, 0, 0, 0]) 0 =
      w := by
    rw [List.append_assoc]
    exact readUInt32BE_toBytes32 _ hw _
  have hr4 : readUInt32BE (toBytes32 w ++ toBytes32 h ++ [8, 6, 0, 0, 0]) 4 =
      h := by
    rw [List.append_assoc, readUInt32BE_after4 _ _ (toBytes32_length _),
      ← List.append_nil (toBytes32 h ++ [8, 6, 0, 0, 0]), List.append_assoc]
    exact readUInt32BE_toBytes32 _ hh _
  have hg8 : (toBytes32 w ++ toBytes32 h ++ [8, 6, 0, 0, 0]).getD 8 0 = 8 := rfl
  have hg9 : (toBytes32 w ++ toBytes32 h ++ [8, 6, 0, 0, 0]).getD 9 0 = 6 := rfl
  have hg10 : (toBytes32 w ++ toBytes32 h ++ [8, 6, 0, 0, 0]).getD 10 0 = 0 := rfl
  have hg11 : (toBytes32 w ++ toBytes32 h ++ [8, 6, 0, 0, 0]).getD 11 0 = 0 := rfl
  have hg12 : (toBytes32 w ++ toBytes32 h ++ [8, 6, 0, 0, 0]).getD 12 0 = 0 := rfl
  simp only [parseIHDR, hr0, hr4, hg8, hg9, hg10, hg11, hg12]
  norm_num [bppOf]
  exact ⟨by decide, by decide⟩


theorem parseSync_eval (inflate : List ℕ → List InflEvent) (rest : List ℕ)
    (st : PState) (md : MetaData) (infl unf bm norm : List ℕ)
    (hloop : parseChunkLoop { checkCRC := true } rest = .ok st)
    (hmd : st.metaData = some md)
    (hsimple : st.simpleTransp = false)
    (hil : md.interlace = false)
    (hinfl : inflateSyncModel (inflate st.inflateData)
      (((md.width * md.bpp * md.depth + 7) / 8 + 1) * md.height) = .ok infl)
    (hne : ¬ infl.length = 0)
    (hpfs : processFilterSync infl md.width md.height md.bpp md.depth false =
      .ok unf)
    (hbm : dataToBitMap unf md.width md.height md.depth md.bpp false = .ok bm)
    (hpal : st.paletteSet = false)
    (hnorm : normalizeFormat bm md.depth md.width md.height md.colorType
      st.transColor none false = .ok norm) :
    parseSync inflate (PNG_SIGNATURE ++ rest) true false =
      .ok { width := md.width, height := md.height, depth := md.depth,
            bpp := md.bpp, colorType := md.colorType,
            interlace := md.interlace, color := md.color, alpha := md.alpha,
            palette := none, transColor := st.transColor, data := norm,
            gamma := st.gamma.getD 0 } := by
  unfold parseSync
  rw [if_neg (show ¬ (PNG_SIGNATURE ++ rest).length < 8 by
        simp [PNG_SIGNATURE]),
      if_neg (show ¬ (PNG_SIGNATURE ++ rest).take 8 ≠ PNG_SIGNATURE by
        rw [List.take_left' (show PNG_SIGNATURE.length = 8 from rfl)]; simp),
      List.drop_left' (show PNG_SIGNATURE.length = 8 from rfl), hloop]
  dsimp only
  rw [hmd]
  dsimp only
  rw [hsimple]
  simp only [Bool.false_eq_true, if_false]
  rw [hil]
  simp only [Bool.false_eq_true, if_false]
  rw [hinfl]
  dsimp only
  rw [if_neg hne, hpfs]
  dsimp only
  rw [hbm]
  dsimp only
  rw [hpal]
  simp only [Bool.false_eq_true, if_false]
  rw [hnorm]

/-- C1: for every raster of width ≥ 1 and height ≥ 1 with an RGBA buffer of
length 4·width·height whose bytes are < 256, decoding the byte stream
produced by `packSync` with colorType 6, bitDepth 8 and fixed filter type 0
yields a `ParseResult` whose data buffer is byte-identical to the input
buffer (deflate/inflate are external collaborators assumed to invert each
other on the filtered stream). -/
theorem roundtrip_rgba8 (deflate : List ℕ → List ℕ)
    (inflate : List ℕ → List InflEvent) (w h : ℕ) (data filtered : List ℕ)
    (hw : 1 ≤ w) (hh : 1 ≤ h) (hw32 : w < 2 ^ 32) (hh32 : h < 2 ^ 32)
    (hdata : data.length = 4 * (w * h)) (hbytes : ∀ b ∈ data, b < 256)
    (hfilt : packFilter data w h (some (Sum.inl 0)) 8 4 = .ok filtered)
    (hdefl : (deflate filtered).length ≠ 0)
    (hdefl32 : (deflate filtered).length < 2 ^ 32)
    (hinv : inflate (deflate filtered) = [InflEvent.data filtered]) :
    ∃ png : List ℕ,
      packSync deflate w h data none { filterType := some (Sum.inl 0) } false =
        .ok png ∧
      parseSync inflate png true false =
        .ok { width := w, height := h, depth := 8, bpp := 4, colorType := 6,
              interlace := false, color := true, alpha := true,
              palette := none, transColor := none, data := data, gamma := 0 } := by
  obtain ⟨rows, hpk, hrowslen, hflatlen, hrowsidx⟩ := packFilter_zero data w h 4
  have hfe : filtered = rows.flatten := by
    rw [hfilt] at hpk
    exact Except.ok.inj hpk
  subst hfe
  -- the filtered stream and its shape
  have hrows_eq : rows = (List.range h).map
      (fun y => 0 :: filterNoneRow data (y * (w * 4)) (w * 4)) := by
    apply List.ext_getElem (by simp [hrowslen])
    intro y h1 h2
    have hy : y < h := by rwa [hrowslen] at h1
    have hg := hrowsidx y hy
    rw [List.getD_eq_getElem?_getD, List.getElem?_eq_getElem h1] at hg
    simp only [Option.getD_some] at hg
    rw [hg]
    simp only [List.getElem_map, List.getElem_range]
  have hpfs : processFilterSync rows.flatten w h 4 8 false = .ok data := by
    rw [hrows_eq]
    exact processFilterSync_noneRows data w h 4 (by rw [hdata]; ring) hbytes
  -- packSync computes
  have h2 : filterData data w h { filterType := some (Sum.inl 0) } false =
      packFilter data w h (some (Sum.inl 0)) 8 4 := by
    unfold filterData
    rw [show bitPacker data w h { filterType := some (Sum.inl 0) } false =
        .ok data from by
      unfold bitPacker
      rw [if_pos ⟨rfl, Or.inl rfl⟩]]
    rfl
  have h1 : packSync deflate w h data none
      { filterType := some (Sum.inl 0) } false =
      (match filterData data w h { filterType := some (Sum.inl 0) } false with
        | .error e => .error e
        | .ok filteredData =>
          if (deflate filteredData).length = 0 then
            .error "Bad PNG - invalid compressed data response"
          else
            .ok (PNG_SIGNATURE ++ packIHDR w h 8 6 ++ [] ++
              packIDAT (deflate filteredData) ++ packIEND)) := rfl
  have hpng : packSync deflate w h data none
      { filterType := some (Sum.inl 0) } false =
      .ok (PNG_SIGNATURE ++ packIHDR w h 8 6 ++ [] ++
        packIDAT (deflate rows.flatten) ++ packIEND) := by
    rw [h1, h2, hpk]
    show (if (deflate rows.flatten).length = 0 then
        (.error "Bad PNG - invalid compressed data response" :
          Except String (List ℕ))
      else .ok (PNG_SIGNATURE ++ packIHDR w h 8 6 ++ [] ++
        packIDAT (deflate rows.flatten) ++ packIEND)) = _
    rw [if_neg hdefl]
  refine ⟨_, hpng, ?_⟩
  -- the parse side
  have hreassoc : PNG_SIGNATURE ++ packIHDR w h 8 6 ++ [] ++
      packIDAT (deflate rows.flatten) ++ packIEND =
      PNG_SIGNATURE ++
        (packChunk TYPE_IHDR (some (toBytes32 w ++ toBytes32 h ++
          [8, 6, 0, 0, 0])) ++
          (packChunk TYPE_IDAT (some (deflate rows.flatten)) ++
            packChunk TYPE_IEND none)) := by
    simp [packIHDR, packIDAT, packIEND, List.append_assoc]
  have hst₁ := parseIHDR_packed { checkCRC := true } w h hw32 hh32
  have hloop : parseChunkLoop { checkCRC := true }
      (packChunk TYPE_IHDR (some (toBytes32 w ++ toBytes32 h ++
        [8, 6, 0, 0, 0])) ++
        (packChunk TYPE_IDAT (some (deflate rows.flatten)) ++
          packChunk TYPE_IEND none)) =
      .ok { checkCRC := true
            hasIHDR := true
            colorType := 6
            metaData := some { width := w
                               height := h
                               depth := 8
                               interlace := false
                               palette := false
                               color := true
                               alpha := true
                               bpp := 4
                               colorType := 6 }
            inflateData := deflate rows.flatten } := by
    rw [parseChunkLoop_packedIHDR _ _ _ _
      (by simp [toBytes32_length]) hst₁]
    dsimp only
    rw [parseChunkLoop_packedIDAT
      { checkCRC := true
        hasIHDR := true
        colorType := 6
        metaData := some { width := w
                           height := h
                           depth := 8
                           interlace := false
                           palette := false
                           color := true
                           alpha := true
                           bpp := 4
                           colorType := 6 } }
      (deflate rows.flatten) (packChunk TYPE_IEND none) hdefl32 rfl
      (by simp)]
    dsimp only [List.nil_append]
    exact parseChunkLoop_packedIEND _ rfl
  have hM : (w * 4 * 8 + 7) / 8 + 1 = w * 4 + 1 := by omega
  have hfl2 : (List.map List.length rows).sum = (w * 4 + 1) * h := by
    rw [← hflatlen]
    simp
  have hinfl : inflateSyncModel (inflate (deflate rows.flatten))
      (((w * 4 * 8 + 7) / 8 + 1) * h) = .ok rows.flatten := by
    rw [hinv, hM]
    simp only [inflateSyncModel, processChunkModel]
    rw [show (if rows.flatten.length > (w * 4 + 1) * h then
        List.take ((w * 4 + 1) * h) rows.flatten else rows.flatten) =
        rows.flatten from if_neg (by omega)]
    rw [if_pos (by omega)]
    simp
  have hbm : dataToBitMap data w h 8 4 false = .ok data :=
    dataToBitMap_copy data w h (by rw [hdata]; ring)
  have hnorm : normalizeFormat data 8 w h 6 none none false = .ok data := by
    dsimp only [normalizeFormat]
    rw [if_neg (by simp)]
    rw [if_neg (by simp)]
  rw [hreassoc]
  exact parseSync_eval inflate _ _
    { width := w, height := h, depth := 8, interlace := false,
      palette := false, color := true, alpha := true, bpp := 4,
      colorType := 6 }
    rows.flatten data data data hloop rfl rfl rfl hinfl
    (show ¬rows.flatten.length = 0 by
      rw [hflatlen]
      have : 0 < (w * 4 + 1) * h := Nat.mul_pos (by omega) hh
      omega)
    hpfs hbm rfl hnorm

theorem roundtrip_rgba8_witness :
    ∃ png : List ℕ,
      packSync (fun x => [99]) 1 1 [1, 2, 3, 4] none
        { filterType := some (Sum.inl 0) } false = .ok png ∧
      parseSync (fun y => [InflEvent.data [0, 1, 2, 3, 4]]) png true false =
        .ok { width := 1, height := 1, depth := 8, bpp := 4, colorType := 6,
              interlace := false, color := true, alpha := true,
              palette := none, transColor := none, data := [1, 2, 3, 4],
              gamma := 0 } :=
  roundtrip_rgba8 (fun x => [99]) (fun y => [InflEvent.data [0, 1, 2, 3, 4]])
    1 1 [1, 2, 3, 4] [0, 1, 2, 3, 4] (by decide) (by decide) (by norm_num)
    (by norm_num) (by decide) (by decide) rfl (by decide) (by norm_num) rfl

theorem parseIHDR_checkCRC (st st₁ : PState) (data : List ℕ)
    (h : parseIHDR st data = .ok st₁) : st₁.checkCRC = st.checkCRC := by
  simp only [parseIHDR] at h
  split_ifs at h
  all_goals first
    | exact Except.noConfusion h
    | (obtain rfl := (Except.ok.inj h).symm; rfl)

theorem parseTRNS_checkCRC (st st₁ : PState) (data : List ℕ)
    (h : parseTRNS st data = .ok st₁) : st₁.checkCRC = st.checkCRC := by
  simp only [parseTRNS] at h
  split_ifs at h
  all_goals first
    | exact Except.noConfusion h
    | (obtain rfl := (Except.ok.inj h).symm; rfl)

set_option maxRecDepth 4000 in
/-- C4 amended: the CRC check applies exactly to the chunk types the
parser handles.  For every handled chunk — name bytes spelling `IHDR`,
`PLTE`, `tRNS`, `gAMA`, `IDAT` or `IEND` — whose stored CRC differs from
the CRC-32 of its type plus body, decoding fails with an error when CRC
checking is enabled; and every unknown ancillary chunk — a valid letter
name outside those six with a lowercase first letter — is skipped, body
and stored 4-byte CRC consumed, with no CRC verification, whatever its
stored CRC. -/
theorem crc_check_corrected (name : List ℕ) (st : PState)
    (body rest : List ℕ) (storedCrc : ℕ)
    (hC : st.checkCRC = true) (hI : st.hasIHDR = true)
    (hL : body.length < 2 ^ 32) (hS : storedCrc < 2 ^ 32)
    (hT : name = [73, 72, 68, 82] ∨ name = [80, 76, 84, 69] ∨
      name = [116, 82, 78, 83] ∨ name = [103, 65, 77, 65] ∨
      name = [73, 68, 65, 84] ∨ name = [73, 69, 78, 68])
    (hcrc : crc32 (name ++ body) ≠ storedCrc) :
    (∃ e, parseChunkLoop st (toBytes32 body.length ++ name ++
        body ++ toBytes32 storedCrc ++ rest) = .error e) ∧
    (∀ a b c d anyCrc : ℕ, validTypeBytes [a, b, c, d] = true →
      a &&& 32 ≠ 0 →
      a * 2 ^ 24 + b * 2 ^ 16 + c * 2 ^ 8 + d ∉
        ([TYPE_IHDR, TYPE_IEND, TYPE_IDAT, TYPE_PLTE, TYPE_tRNS,
          TYPE_gAMA] : List ℕ) →
      parseChunkLoop st (toBytes32 body.length ++ [a, b, c, d] ++
        body ++ toBytes32 anyCrc ++ rest) = parseChunkLoop st rest) := by
  constructor
  · rcases hT with rfl | rfl | rfl | rfl | rfl | rfl
    · -- IHDR
      obtain ⟨h0, h4, hname, hbody, hd8L, hfile, hdEnd, hlen, hg4⟩ :=
        chunkParts 73 72 68 82 storedCrc body rest hL hS
      have h4' : readUInt32BE (toBytes32 body.length ++ ([73, 72, 68, 82] ++
          (body ++ (toBytes32 storedCrc ++ rest)))) 4 = TYPE_IHDR := by
        rw [h4]
        rfl
      rw [show toBytes32 body.length ++ [73, 72, 68, 82] ++ body ++
          toBytes32 storedCrc ++ rest = toBytes32 body.length ++
          ([73, 72, 68, 82] ++ (body ++ (toBytes32 storedCrc ++ rest))) by
        simp [List.append_assoc]]
      generalize hgen : toBytes32 body.length ++ ([73, 72, 68, 82] ++
        (body ++ (toBytes32 storedCrc ++ rest))) = input at *
      cases hE : parseIHDR st body with
      | error e =>
        refine ⟨parseErrMsg e (toBytes32 storedCrc ++ rest), ?_⟩
        have honce : parseChunkOnce st input =
            .err (parseErrMsg e (toBytes32 storedCrc ++ rest)) := by
          simp only [parseChunkOnce, h0, h4', hname, hbody, hd8L, hfile, hdEnd]
          rw [if_neg (show ¬input.length < 8 by omega)]
          rw [if_neg (by decide)]
          rw [if_neg (by simp [hI])]
          rw [if_pos (by decide)]
          rw [if_neg (show ¬input.length < 8 + body.length by omega)]
          norm_num [TYPE_IHDR, TYPE_IEND, TYPE_IDAT, TYPE_PLTE, TYPE_tRNS,
            TYPE_gAMA]
          rw [hE]
        rw [parseChunkLoop_unfold, parseChunkStep, honce]
      | ok st₁ =>
        refine ⟨parseErrMsg ("Crc error - " ++ toString storedCrc ++ " - " ++
          toString (crc32 ([73, 72, 68, 82] ++ body))) rest, ?_⟩
        have hck1 : st₁.checkCRC = true := by
          rw [parseIHDR_checkCRC st st₁ body hE]
          exact hC
        have honce : parseChunkOnce st input =
            .err (parseErrMsg ("Crc error - " ++ toString storedCrc ++
              " - " ++ toString (crc32 ([73, 72, 68, 82] ++ body))) rest) := by
          simp only [parseChunkOnce, h0, h4', hname, hbody, hd8L, hfile, hdEnd]
          rw [if_neg (show ¬input.length < 8 by omega)]
          rw [if_neg (by decide)]
          rw [if_neg (by simp [hI])]
          rw [if_pos (by decide)]
          rw [if_neg (show ¬input.length < 8 + body.length by omega)]
          norm_num [TYPE_IHDR, TYPE_IEND, TYPE_IDAT, TYPE_PLTE, TYPE_tRNS,
            TYPE_gAMA]
          rw [hE]
          split
          next e heq => exact absurd heq (by simp)
          next st₂ heq =>
            obtain rfl : st₁ = st₂ := Except.ok.inj heq
            rw [if_neg (show ¬((toBytes32 storedCrc).length + rest.length < 4)
              by simp [toBytes32_length])]
            rw [readUInt32BE_toBytes32 _ hS]
            rw [if_pos (⟨hck1,
              show crc32 (73 :: 72 :: 68 :: 82 :: body) ≠ storedCrc
                from hcrc⟩ : _ ∧ _)]
        rw [parseChunkLoop_unfold, parseChunkStep, honce]
    · -- PLTE
      obtain ⟨h0, h4, hname, hbody, hd8L, hfile, hdEnd, hlen, hg4⟩ :=
        chunkParts 80 76 84 69 storedCrc body rest hL hS
      have h4' : readUInt32BE (toBytes32 body.length ++ ([80, 76, 84, 69] ++
          (body ++ (toBytes32 storedCrc ++ rest)))) 4 = TYPE_PLTE := by
        rw [h4]
        rfl
      rw [show toBytes32 body.length ++ [80, 76, 84, 69] ++ body ++
          toBytes32 storedCrc ++ rest = toBytes32 body.length ++
          ([80, 76, 84, 69] ++ (body ++ (toBytes32 storedCrc ++ rest))) by
        simp [List.append_assoc]]
      generalize hgen : toBytes32 body.length ++ ([80, 76, 84, 69] ++
        (body ++ (toBytes32 storedCrc ++ rest))) = input at *
      refine ⟨parseErrMsg ("Crc error - " ++ toString storedCrc ++ " - " ++
        toString (crc32 ([80, 76, 84, 69] ++ body))) rest, ?_⟩
      have honce : parseChunkOnce st input =
          .err (parseErrMsg ("Crc error - " ++ toString storedCrc ++
            " - " ++ toString (crc32 ([80, 76, 84, 69] ++ body))) rest) := by
        simp only [parseChunkOnce, h0, h4', hname, hbody, hd8L, hfile, hdEnd]
        rw [if_neg (show ¬input.length < 8 by omega)]
        rw [if_neg (by decide)]
        rw [if_neg (by simp [hI])]
        rw [if_pos (by decide)]
        rw [if_neg (show ¬input.length < 8 + body.length by omega)]
        norm_num [TYPE_IHDR, TYPE_IEND, TYPE_IDAT, TYPE_PLTE, TYPE_tRNS,
          TYPE_gAMA, parsePLTE]
        rw [if_neg (show ¬((toBytes32 storedCrc).length + rest.length < 4)
          by simp [toBytes32_length])]
        rw [readUInt32BE_toBytes32 _ hS]
        rw [if_pos (⟨hC,
          show crc32 (80 :: 76 :: 84 :: 69 :: body) ≠ storedCrc
            from hcrc⟩ : _ ∧ _)]
      rw [parseChunkLoop_unfold, parseChunkStep, honce]
    · -- tRNS
      obtain ⟨h0, h4, hname, hbody, hd8L, hfile, hdEnd, hlen, hg4⟩ :=
        chunkParts 116 82 78 83 storedCrc body rest hL hS
      have h4' : readUInt32BE (toBytes32 body.length ++ ([116, 82, 78, 83] ++
          (body ++ (toBytes32 storedCrc ++ rest)))) 4 = TYPE_tRNS := by
        rw [h4]
        rfl
      rw [show toBytes32 body.length ++ [116, 82, 78, 83] ++ body ++
          toBytes32 storedCrc ++ rest = toBytes32 body.length ++
          ([116, 82, 78, 83] ++ (body ++ (toBytes32 storedCrc ++ rest))) by
        simp [List.append_assoc]]
      generalize hgen : toBytes32 body.length ++ ([116, 82, 78, 83] ++
        (body ++ (toBytes32 storedCrc ++ rest))) = input at *
      cases hE : parseTRNS { st with simpleTransp := true } body with
      | error e =>
        refine ⟨parseErrMsg e (toBytes32 storedCrc ++ rest), ?_⟩
        have honce : parseChunkOnce st input =
            .err (parseErrMsg e (toBytes32 storedCrc ++ rest)) := by
          simp only [parseChunkOnce, h0, h4', hname, hbody, hd8L, hfile, hdEnd]
          rw [if_neg (show ¬input.length < 8 by omega)]
          rw [if_neg (by decide)]
          rw [if_neg (by simp [hI])]
          rw [if_pos (by decide)]
          rw [if_neg (show ¬input.length < 8 + body.length by omega)]
          norm_num [TYPE_IHDR, TYPE_IEND, TYPE_IDAT, TYPE_PLTE, TYPE_tRNS,
            TYPE_gAMA]
          rw [hE]
        rw [parseChunkLoop_unfold, parseChunkStep, honce]
      | ok st₁ =>
        refine ⟨parseErrMsg ("Crc error - " ++ toString storedCrc ++ " - " ++
          toString (crc32 ([116, 82, 78, 83] ++ body))) rest, ?_⟩
        have hck1 : st₁.checkCRC = true := by
          rw [parseTRNS_checkCRC _ _ _ hE]
          exact hC
        have honce : parseChunkOnce st input =
            .err (parseErrMsg ("Crc error - " ++ toString storedCrc ++
              " - " ++ toString (crc32 ([116, 82, 78, 83] ++ body))) rest) := by
          simp only [parseChunkOnce, h0, h4', hname, hbody, hd8L, hfile, hdEnd]
          rw [if_neg (show ¬input.length < 8 by omega)]
          rw [if_neg (by decide)]
          rw [if_neg (by simp [hI])]
          rw [if_pos (by decide)]
          rw [if_neg (show ¬input.length < 8 + body.length by omega)]
          norm_num [TYPE_IHDR, TYPE_IEND, TYPE_IDAT, TYPE_PLTE, TYPE_tRNS,
            TYPE_gAMA]
          rw [hE]
          split
          next e heq => exact absurd heq (by simp)
          next st₂ heq =>
            obtain rfl : st₁ = st₂ := Except.ok.inj heq
            rw [if_neg (show ¬((toBytes32 storedCrc).length + rest.length < 4)
              by simp [toBytes32_length])]
            rw [readUInt32BE_toBytes32 _ hS]
            rw [if_pos (⟨hck1,
              show crc32 (116 :: 82 :: 78 :: 83 :: body) ≠ storedCrc
                from hcrc⟩ : _ ∧ _)]
        rw [parseChunkLoop_unfold, parseChunkStep, honce]
    · -- gAMA
      obtain ⟨h0, h4, hname, hbody, hd8L, hfile, hdEnd, hlen, hg4⟩ :=
        chunkParts 103 65 77 65 storedCrc body rest hL hS
      have h4' : readUInt32BE (toBytes32 body.length ++ ([103, 65, 77, 65] ++
          (body ++ (toBytes32 storedCrc ++ rest)))) 4 = TYPE_gAMA := by
        rw [h4]
        rfl
      rw [show toBytes32 body.length ++ [103, 65, 77, 65] ++ body ++
          toBytes32 storedCrc ++ rest = toBytes32 body.length ++
          ([103, 65, 77, 65] ++ (body ++ (toBytes32 storedCrc ++ rest))) by
        simp [List.append_assoc]]
      generalize hgen : toBytes32 body.length ++ ([103, 65, 77, 65] ++
        (body ++ (toBytes32 storedCrc ++ rest))) = input at *
      refine ⟨parseErrMsg ("Crc error - " ++ toString storedCrc ++ " - " ++
        toString (crc32 ([103, 65, 77, 65] ++ body))) rest, ?_⟩
      have honce : parseChunkOnce st input =
          .err (parseErrMsg ("Crc error - " ++ toString storedCrc ++
            " - " ++ toString (crc32 ([103, 65, 77, 65] ++ body))) rest) := by
        simp only [parseChunkOnce, h0, h4', hname, hbody, hd8L, hfile, hdEnd]
        rw [if_neg (show ¬input.length < 8 by omega)]
        rw [if_neg (by decide)]
        rw [if_neg (by simp [hI])]
        rw [if_pos (by decide)]
        rw [if_neg (show ¬input.length < 8 + body.length by omega)]
        norm_num [TYPE_IHDR, TYPE_IEND, TYPE_IDAT, TYPE_PLTE, TYPE_tRNS,
          TYPE_gAMA, parseGAMA]
        rw [if_neg (show ¬((toBytes32 storedCrc).length + rest.length < 4)
          by simp [toBytes32_length])]
        rw [readUInt32BE_toBytes32 _ hS]
        rw [if_pos (⟨hC,
          show crc32 (103 :: 65 :: 77 :: 65 :: body) ≠ storedCrc
            from hcrc⟩ : _ ∧ _)]
      rw [parseChunkLoop_unfold, parseChunkStep, honce]
    · -- IDAT
      obtain ⟨h0, h4, hname, hbody, hd8L, hfile, hdEnd, hlen, hg4⟩ :=
        chunkParts 73 68 65 84 storedCrc body rest hL hS
      have h4' : readUInt32BE (toBytes32 body.length ++ ([73, 68, 65, 84] ++
          (body ++ (toBytes32 storedCrc ++ rest)))) 4 = TYPE_IDAT := by
        rw [h4]
        rfl
      rw [show toBytes32 body.length ++ [73, 68, 65, 84] ++ body ++
          toBytes32 storedCrc ++ rest = toBytes32 body.length ++
          ([73, 68, 65, 84] ++ (body ++ (toBytes32 storedCrc ++ rest))) by
        simp [List.append_assoc]]
      generalize hgen : toBytes32 body.length ++ ([73, 68, 65, 84] ++
        (body ++ (toBytes32 storedCrc ++ rest))) = input at *
      by_cases hP : st.colorType = 3 ∧ st.palette = []
      · refine ⟨"Expected palette not found", ?_⟩
        have honce : parseChunkOnce st input =
            .err "Expected palette not found" := by
          simp only [parseChunkOnce, h0, h4', hname, hbody, hd8L, hfile, hdEnd]
          rw [if_neg (show ¬input.length < 8 by omega)]
          rw [if_neg (by decide)]
          rw [if_neg (by simp [hI])]
          rw [if_pos (by decide)]
          rw [if_neg (show ¬input.length < 8 + body.length by omega)]
          norm_num [TYPE_IHDR, TYPE_IEND, TYPE_IDAT, TYPE_PLTE, TYPE_tRNS,
            TYPE_gAMA]
          rw [if_pos hP]
          split
          next e heq =>
            obtain rfl : "Expected palette not found" = e :=
              Except.error.inj heq
            rw [if_pos hP]
          next st₂ heq => exact absurd heq (by simp)
        rw [parseChunkLoop_unfold, parseChunkStep, honce]
      · refine ⟨parseErrMsg ("Crc error - " ++ toString storedCrc ++ " - " ++
          toString (crc32 ([73, 68, 65, 84] ++ body))) rest, ?_⟩
        have honce : parseChunkOnce st input =
            .err (parseErrMsg ("Crc error - " ++ toString storedCrc ++
              " - " ++ toString (crc32 ([73, 68, 65, 84] ++ body))) rest) := by
          simp only [parseChunkOnce, h0, h4', hname, hbody, hd8L, hfile, hdEnd]
          rw [if_neg (show ¬input.length < 8 by omega)]
          rw [if_neg (by decide)]
          rw [if_neg (by simp [hI])]
          rw [if_pos (by decide)]
          rw [if_neg (show ¬input.length < 8 + body.length by omega)]
          norm_num [TYPE_IHDR, TYPE_IEND, TYPE_IDAT, TYPE_PLTE, TYPE_tRNS,
            TYPE_gAMA]
          rw [if_neg hP]
          split
          next e heq => exact absurd heq (by simp)
          next st₂ heq =>
            obtain rfl := Except.ok.inj heq
            rw [if_neg (show ¬((toBytes32 storedCrc).length + rest.length < 4)
              by simp [toBytes32_length])]
            rw [readUInt32BE_toBytes32 _ hS]
            rw [if_pos (⟨hC,
              show crc32 (73 :: 68 :: 65 :: 84 :: body) ≠ storedCrc
                from hcrc⟩ : _ ∧ _)]
        rw [parseChunkLoop_unfold, parseChunkStep, honce]
    · -- IEND
      obtain ⟨h0, h4, hname, hbody, hd8L, hfile, hdEnd, hlen, hg4⟩ :=
        chunkParts 73 69 78 68 storedCrc body rest hL hS
      have h4' : readUInt32BE (toBytes32 body.length ++ ([73, 69, 78, 68] ++
          (body ++ (toBytes32 storedCrc ++ rest)))) 4 = TYPE_IEND := by
        rw [h4]
        rfl
      rw [show toBytes32 body.length ++ [73, 69, 78, 68] ++ body ++
          toBytes32 storedCrc ++ rest = toBytes32 body.length ++
          ([73, 69, 78, 68] ++ (body ++ (toBytes32 storedCrc ++ rest))) by
        simp [List.append_assoc]]
      generalize hgen : toBytes32 body.length ++ ([73, 69, 78, 68] ++
        (body ++ (toBytes32 storedCrc ++ rest))) = input at *
      refine ⟨parseErrMsg ("Crc error - " ++ toString storedCrc ++ " - " ++
        toString (crc32 ([73, 69, 78, 68] ++ body))) rest, ?_⟩
      have honce : parseChunkOnce st input =
          .err (parseErrMsg ("Crc error - " ++ toString storedCrc ++
            " - " ++ toString (crc32 ([73, 69, 78, 68] ++ body))) rest) := by
        simp only [parseChunkOnce, h0, h4', hname, hbody, hd8L, hfile, hdEnd]
        rw [if_neg (show ¬input.length < 8 by omega)]
        rw [if_neg (by decide)]
        rw [if_neg (by simp [hI])]
        rw [if_pos (by decide)]
        rw [if_neg (show ¬input.length < 8 + body.length by omega)]
        norm_num [TYPE_IHDR, TYPE_IEND, TYPE_IDAT, TYPE_PLTE, TYPE_tRNS,
          TYPE_gAMA]
        rw [if_neg (show ¬((toBytes32 storedCrc).length + rest.length < 4)
          by simp [toBytes32_length])]
        rw [readUInt32BE_toBytes32 _ hS]
        rw [if_pos (⟨hC,
          show crc32 (73 :: 69 :: 78 :: 68 :: body) ≠ storedCrc
            from hcrc⟩ : _ ∧ _)]
      rw [parseChunkLoop_unfold, parseChunkStep, honce]
  · intro a b c d anyCrc hval hanc hnotin
    generalize hgen : toBytes32 body.length ++ [a, b, c, d] ++
      body ++ toBytes32 anyCrc ++ rest = input
    have hassoc : input = toBytes32 body.length ++ ([a, b, c, d] ++
        (body ++ (toBytes32 anyCrc ++ rest))) := by
      rw [← hgen]
      simp [List.append_assoc]
    have hlen : input.length = 12 + body.length + rest.length := by
      rw [hassoc]
      simp [toBytes32_length]
      omega
    have h0 : readUInt32BE input 0 = body.length := by
      rw [hassoc]
      exact readUInt32BE_toBytes32 _ hL _
    have hdrop4 : input.drop 4 = [a, b, c, d] ++
        (body ++ (toBytes32 anyCrc ++ rest)) := by
      rw [hassoc, ← toBytes32_length body.length, List.drop_left]
    have h4 : readUInt32BE input 4 =
        a * 2 ^ 24 + b * 2 ^ 16 + c * 2 ^ 8 + d := by
      rw [hassoc, readUInt32BE_after4 _ _ (toBytes32_length _)]
      exact readUInt32BE_name a b c d _
    have hname : (input.drop 4).take 4 = [a, b, c, d] := by
      rw [hdrop4]
      rfl
    have hg4 : input.getD 4 0 = a := by
      have e := getD_drop input 4 0 0
      rw [hdrop4, Nat.add_zero] at e
      exact e.symm
    have hdrop8 : input.drop 8 = body ++ (toBytes32 anyCrc ++ rest) := by
      have e : input.drop 8 = (input.drop 4).drop 4 := by
        rw [List.drop_drop]
      rw [e, hdrop4]
      rfl
    have hdropEnd : input.drop (8 + body.length + 4) = rest := by
      have e : input.drop (8 + body.length + 4) =
          ((input.drop 8).drop body.length).drop 4 := by
        rw [List.drop_drop, List.drop_drop]
        try congr 1
        try omega
      rw [e, hdrop8, List.drop_left, ← toBytes32_length anyCrc, List.drop_left]
    have honce : parseChunkOnce st input = .next st body.length := by
      simp only [parseChunkOnce, h0, h4, hname, hg4]
      rw [if_neg (show ¬input.length < 8 by omega)]
      rw [if_neg (by simp [hval])]
      rw [if_neg (by simp [hI])]
      rw [if_neg (by simpa using hnotin)]
      rw [if_neg hanc]
      rw [if_neg (show ¬(input.drop 8).length < body.length + 4 by
        rw [hdrop8]
        simp [toBytes32_length])]
    rw [parseChunkLoop_unfold, parseChunkStep, honce]
    exact congrArg (parseChunkLoop st) hdropEnd

/-- An empty-body `gAMA` chunk with stored CRC 0 is rejected (its true
CRC is nonzero), while a `tEXt` chunk with an arbitrary stored CRC is
skipped and parsing continues on the rest (here: the empty stream). -/
theorem crc_check_corrected_witness :
    (∃ e, parseChunkLoop { checkCRC := true, hasIHDR := true }
        (toBytes32 (List.length ([] : List ℕ)) ++ [103, 65, 77, 65] ++
          [] ++ toBytes32 0 ++ []) = .error e) ∧
    parseChunkLoop { checkCRC := true, hasIHDR := true }
        (toBytes32 (List.length ([] : List ℕ)) ++ [116, 69, 88, 116] ++
          [] ++ toBytes32 7 ++ []) =
      parseChunkLoop { checkCRC := true, hasIHDR := true } [] :=
  ⟨(crc_check_corrected [103, 65, 77, 65]
      { checkCRC := true, hasIHDR := true } [] [] 0
      rfl rfl (by decide) (by decide) (by decide) (by decide)).1,
    (crc_check_corrected [103, 65, 77, 65]
      { checkCRC := true, hasIHDR := true } [] [] 0
      rfl rfl (by decide) (by decide) (by decide) (by decide)).2
      116 69 88 116 7 (by decide) (by decide) (by decide)⟩

end Pngx
